import Mathlib

/-!
# Verification development for the 16-tile Mahjong table (new_mojang)

A shallow embedding of the JavaScript sources `rules_hu.js`, `rules_meld.js`,
`rules_dice.js` and `table.js`, followed by theorems about them.

Conventions of the embedding

* A tile is the JavaScript string that codes it (`"5W"`, `"E"`, `"2F"`), so
  `Tile` is `String`.  The code built by `buildWall` uses 42 codes:
  `1W..9W`, `1T..9T`, `1B..9B` (numbered), `C F P E S W N` (honors) and
  `1F..4F`, `1P..4P` (flowers).
* `null` / `undefined` arguments are `Option` values.
* A JavaScript object used as a map is an association list in insertion
  order, which is the order `Object.keys` reports for non-integer keys.
* Calls into the rendering layer, logging, alerts and network sends have no
  effect on the modelled state and are left out.
-/

namespace Mojang

/-- A tile is its JavaScript string code. -/
abbrev Tile := String

/-! ## JavaScript string primitives -/

/-- The indexing `t[i]`: the character at position `i`, `undefined` (here
`none`) past the end.  Tile codes are ASCII, where UTF-16 units and
characters coincide. -/
def charAt (t : Tile) (i : Nat) : Option Char :=
  t.data.get? i

/-- The call `Number(c)` on the result of `t[i]`: a decimal digit is its
value, an ASCII white-space character is `0`, every other character and
`undefined` are `NaN` (here `none`). -/
def jsNumberOfChar : Option Char → Option Nat
  | none => none
  | some c =>
    if c.isDigit then some (c.toNat - 48)
    else if c = ' ' ∨ c.toNat = 9 ∨ c.toNat = 10 ∨ c.toNat = 11 ∨ c.toNat = 12 ∨ c.toNat = 13 then some 0
    else none

/-- The text a template literal prints for a number that may be `NaN`. -/
def jsNumText : Option Nat → String
  | none => "NaN"
  | some k => toString k

/-- The template literal that prints a number followed by a suit letter. -/
def tmpl (n : Option Nat) (s : Char) : Tile :=
  jsNumText n ++ s.toString

/-- The code of the numbered tile of rank `r` and suit letter `s`. -/
def numTile (r : Nat) (s : Char) : Tile :=
  tmpl (some r) s

/-- The statement `xs.splice(xs.indexOf(t), 1)`: the first occurrence of `t`
is removed; when `t` is absent `indexOf` is `-1` and `splice(-1, 1)` removes
the last element. -/
def spliceIndexOf (xs : List Tile) (t : Tile) : List Tile :=
  if t ∈ xs then xs.erase t else xs.dropLast

/-- The order `Array.prototype.sort()` uses by default on strings:
lexicographic on the sequence of code units. -/
def codeLe (a b : Tile) : Prop :=
  a.data ≤ b.data

instance : DecidableRel codeLe :=
  fun a b => inferInstanceAs (Decidable (a.data ≤ b.data))

instance : IsTotal Tile codeLe := ⟨fun a b => le_total a.data b.data⟩

instance : IsTrans Tile codeLe := ⟨fun a b c => @le_trans _ _ a.data b.data c.data⟩

/-- The default `Array.prototype.sort()` on strings: ascending by code units.
The result is the unique ascending arrangement, computed here by insertion. -/
def jsSort (xs : List Tile) : List Tile :=
  xs.insertionSort codeLe

/-! ## rules_hu.js -/

/-- One step of `map[t] = (map[t] || 0) + 1` on an insertion-ordered map. -/
def mapIncr : List (Tile × Nat) → Tile → List (Tile × Nat)
  | [], t => [(t, 1)]
  | (k, c) :: rest, t => if k = t then (k, c + 1) :: rest else (k, c) :: mapIncr rest t

/-- Source `countTiles`: the map from each tile of the list to its count.
Names that every JavaScript object inherits (`constructor` and the like) are
no tile codes; on them the source would not count from zero. -/
def countTiles (tiles : List Tile) : List (Tile × Nat) :=
  tiles.foldl mapIncr []

/-- The lookup `map[k]`, with `undefined` as `none`. -/
def mapGet (m : List (Tile × Nat)) (k : Tile) : Option Nat :=
  (m.find? (fun p => p.1 == k)).map (fun p => p.2)

/-- The call `Object.keys(map)`. -/
def mapKeys (m : List (Tile × Nat)) : List Tile :=
  m.map (fun p => p.1)

/-- Source `isSevenPairs`. -/
def isSevenPairs (allTiles : List Tile) : Bool :=
  if allTiles.length ≠ 14 then false
  else
    let map := countTiles allTiles
    let keys := mapKeys map
    if keys.length ≠ 7 then false
    else keys.all (fun k => mapGet map k == some 2)

/-- Source `splitToMelds`: the recursive decomposition into `need` groups,
always acting on the first tile of the list. -/
def splitToMelds : List Tile → Nat → Bool
  | tiles, 0 => tiles.length == 0
  | tiles, need + 1 =>
    if tiles.length < (need + 1) * 3 then false
    else
      match tiles with
      | [] => false
      | t :: _ =>
        let same := tiles.filter (fun x => x == t)
        let viaTriplet :=
          if same.length ≥ 3 then
            splitToMelds (spliceIndexOf (spliceIndexOf (spliceIndexOf tiles t) t) t) need
          else false
        if viaTriplet then true
        else
          let n := jsNumberOfChar (charAt t 0)
          match charAt t 1 with
          | none => false
          | some s =>
            if s = 'W' ∨ s = 'T' ∨ s = 'B' then
              let t2 := tmpl (n.map (fun k => k + 1)) s
              let t3 := tmpl (n.map (fun k => k + 2)) s
              if tiles.contains t2 && tiles.contains t3 then
                splitToMelds (spliceIndexOf (spliceIndexOf (spliceIndexOf tiles t) t2) t3) need
              else false
            else false

/-- A meld as the table stores it: a JavaScript array of tile codes, which
may carry the extra property `isAnGang`, or an object with a `type` text and
a `tiles` array. -/
inductive Meld where
  | arr (tiles : List Tile) (isAnGang : Bool)
  | obj (type : String) (tiles : List Tile)
  deriving DecidableEq, Repr

/-- Source `checkMenQing`. -/
def checkMenQing (melds : List Meld) : Bool :=
  if melds.length = 0 then true
  else
    melds.all (fun m =>
      match m with
      | Meld.arr _ _ => false
      | Meld.obj type _ => !(type = "碰" ∨ type = "明槓" ∨ type = "加槓"))

/-- The call `t.slice(-1)`: the last character as a string, empty for the
empty string. -/
def lastChar (t : Tile) : String :=
  match t.data.getLast? with
  | none => ""
  | some c => c.toString

/-- Source `checkColor`. -/
def checkColor (allTiles : List Tile) : Option String :=
  let suits := allTiles.map lastChar
  let hasW := suits.contains "W"
  let hasT := suits.contains "T"
  let hasB := suits.contains "B"
  let honor := ["E", "S", "W", "N", "C", "F", "P"]
  let hasHonor := suits.any (fun s => honor.contains s)
  let oneSuit := (hasW && !hasT && !hasB) || (!hasW && hasT && !hasB) || (!hasW && !hasT && hasB)
  if !hasHonor && oneSuit then some "清一色"
  else if hasHonor && oneSuit then some "混一色"
  else none

/-- The `fanInfo` record handed to the scoring layer. -/
structure FanInfo where
  isSelfDraw : Bool
  winningTile : Option Tile
  isSevenPairs : Bool
  isMenQing : Bool
  color : Option String
  deriving DecidableEq, Repr

/-- The object `checkHu` returns; the fields after `canHu` are absent
(`none`) in the losing result. -/
structure HuResult where
  canHu : Bool
  type : Option String
  winningTile : Option Tile
  fanInfo : Option FanInfo
  deriving DecidableEq, Repr

/-- The pair loop of `checkHu`: some key with count at least two, once two
copies are set aside and the rest sorted, splits into `need` groups. -/
def basicWin (allTiles : List Tile) (need : Nat) : Bool :=
  let map := countTiles allTiles
  (mapKeys map).any (fun t =>
    match mapGet map t with
    | none => false
    | some c =>
      if c ≥ 2 then
        splitToMelds (jsSort (spliceIndexOf (spliceIndexOf allTiles t) t)) need
      else false)

/-- Source `checkHu`. -/
def checkHu (hand : List Tile) (melds : List Meld) (lastTile : Option Tile)
    (isSelfDraw : Bool) : HuResult :=
  let exposed := melds.length
  if 5 < exposed then ⟨false, none, none, none⟩
  else
    let needMeldsFromHand := 5 - exposed
    let allTiles := hand
    let sevenPairs := isSevenPairs allTiles
    let basic := basicWin allTiles needMeldsFromHand
    if !basic && !sevenPairs then ⟨false, none, none, none⟩
    else
      let colorInfo := checkColor allTiles
      let menQing := checkMenQing melds
      let fanInfo : FanInfo := ⟨isSelfDraw, lastTile, sevenPairs, menQing, colorInfo⟩
      ⟨true, some (if isSelfDraw then "自摸" else "放槍"), lastTile, some fanInfo⟩


/-- The 42 tile codes of the game, in the order `buildWall` introduces them. -/
def validCodes : List Tile :=
  ["1W", "2W", "3W", "4W", "5W", "6W", "7W", "8W", "9W",
   "1T", "2T", "3T", "4T", "5T", "6T", "7T", "8T", "9T",
   "1B", "2B", "3B", "4B", "5B", "6B", "7B", "8B", "9B",
   "C", "F", "P", "E", "S", "W", "N",
   "1F", "2F", "3F", "4F", "1P", "2P", "3P", "4P"]

/-- Every tile of the list is one of the 42 codes. -/
def ValidTiles (tiles : List Tile) : Prop :=
  ∀ t ∈ tiles, t ∈ validCodes

instance (tiles : List Tile) : Decidable (ValidTiles tiles) :=
  inferInstanceAs (Decidable (∀ t ∈ tiles, t ∈ validCodes))

/-- The letter is one of the three numbered suits. -/
def IsNumSuit (s : Char) : Prop :=
  s = 'W' ∨ s = 'T' ∨ s = 'B'

instance (s : Char) : Decidable (IsNumSuit s) :=
  inferInstanceAs (Decidable (s = 'W' ∨ s = 'T' ∨ s = 'B'))

/-- A group: three identical tiles, or three tiles of one numbered suit with
consecutive ranks within 1..9. -/
inductive IsGroup : List Tile → Prop
  | triplet (x : Tile) : IsGroup [x, x, x]
  | run (r : Nat) (s : Char) (h1 : 1 ≤ r) (h9 : r + 2 ≤ 9) (hs : IsNumSuit s) :
      IsGroup [numTile r s, numTile (r + 1) s, numTile (r + 2) s]

/-- The tiles can be partitioned into exactly `k` groups. -/
def SplitsInto (tiles : List Tile) (k : Nat) : Prop :=
  ∃ groups : List (List Tile),
    groups.length = k ∧ (∀ g ∈ groups, IsGroup g) ∧ tiles.Perm groups.flatten

/-- The hand is one pair of identical tiles plus exactly `k` groups. -/
def StandardSplit (hand : List Tile) (k : Nat) : Prop :=
  ∃ (p : Tile) (rest : List Tile), hand.Perm (p :: p :: rest) ∧ SplitsInto rest k


/-- The seven-pairs shape: 14 tiles, exactly 7 distinct values, each occurring
exactly twice. -/
def SevenPairsShape (hand : List Tile) : Prop :=
  hand.length = 14 ∧ hand.dedup.length = 7 ∧ ∀ t ∈ hand, hand.count t = 2

/-- The seven honor codes. -/
def honorCodes : List Tile :=
  ["C", "F", "P", "E", "S", "W", "N"]

/-- An isolated tile of a hand: it occurs exactly once and is either an honor
or a numbered tile with no other tile of its suit within two ranks of it. -/
def IsolatedIn (t : Tile) (hand : List Tile) : Prop :=
  hand.count t = 1 ∧
    (t ∈ honorCodes ∨
      ∃ (r : Nat) (s : Char), 1 ≤ r ∧ r ≤ 9 ∧ IsNumSuit s ∧ t = numTile r s ∧
        ∀ q : Nat, q ≠ r → r ≤ q + 2 → q ≤ r + 2 → numTile q s ∉ hand)

/-- The 14-tile hand of the suit `s`: ranks 1..9 once each, ranks 1, 2, 3
again, and the pair 9, 9. -/
def hand14 (s : Char) : List Tile :=
  [numTile 1 s, numTile 2 s, numTile 3 s, numTile 4 s, numTile 5 s, numTile 6 s,
   numTile 7 s, numTile 8 s, numTile 9 s, numTile 1 s, numTile 2 s, numTile 3 s,
   numTile 9 s, numTile 9 s]

/-- A 17-tile hand: five groups and a pair. -/
def hand17 : List Tile :=
  ["1W", "2W", "3W", "4W", "5W", "6W", "7W", "8W", "9W", "1W", "2W", "3W",
   "E", "E", "E", "9W", "9W"]

/-- A 14-tile hand of seven different pairs. -/
def pairs14 : List Tile :=
  ["1W", "1W", "2W", "2W", "5T", "5T", "E", "E", "W", "W", "9B", "9B", "1B", "1B"]

/-! ## rules_meld.js -/

/-- The call `Number(text)` for the texts that precede the suit letter of a
tile code: the empty text is `0`, a run of decimal digits is its value, and
anything else is `NaN` (here `none`).  Signs, fractions, exponents, radix
marks and padding white space, which `Number` also reads, occur in no tile
code and are not modelled. -/
def jsNumber (text : String) : Option Nat :=
  if text.data = [] then some 0
  else if text.data.all Char.isDigit then
    some (text.data.foldl (fun acc c => 10 * acc + (c.toNat - 48)) 0)
  else none

/-- The record `parseTile` returns. -/
structure TileInfo where
  num : Option Nat
  suit : String
  deriving DecidableEq, Repr

/-- Source `parseTile`.  A `null` or empty tile is `NaN` with an empty suit. -/
def parseTile : Option Tile → TileInfo
  | none => ⟨none, ""⟩
  | some tile =>
    if tile = "" then ⟨none, ""⟩
    else ⟨jsNumber (String.mk tile.data.dropLast), lastChar tile⟩

/-- Source `countTileInHand`. -/
def countTileInHand (hand : List Tile) (targetTile : Tile) : Nat :=
  (hand.filter (fun t => t == targetTile)).length

/-- Source `getMeldTiles`. -/
def getMeldTiles : Meld → List Tile
  | Meld.arr tiles _ => tiles
  | Meld.obj _ tiles => tiles

/-- The object `checkChi` returns. -/
structure ChiResult where
  canChi : Bool
  chiList : List (List Tile)
  deriving DecidableEq, Repr

/-- The template literal of `checkChi`, printing an integer and the suit. -/
def chiTile (n : Int) (s : String) : Tile :=
  toString n ++ s

/-- The body of the loop of `checkChi` for one candidate sequence: the
sequence is appended to `chiList` when all its ranks are within 1..9, the
discard is one of its tiles and the other tiles are in the hand. -/
def chiStep (hand : List Tile) (playedTile : Tile) (s : String)
    (chiList : List (List Tile)) (arr : List Int) : List (List Tile) :=
  if arr.any (fun n => decide (n < 1) || decide (n > 9)) then chiList
  else
    let tiles := arr.map (fun n => chiTile n s)
    match tiles.indexOf? playedTile with
    | none => chiList
    | some idx =>
      let need := (tiles.enum.filter (fun p => p.1 ≠ idx)).map (fun p => p.2)
      if need.all (fun t => hand.contains t) then chiList ++ [tiles] else chiList

/-- Source `checkChi`.  An absent `turnSeat` makes `nextSeat` `NaN`, which
equals no seat. -/
def checkChi (hand : List Tile) (playedTile : Option Tile) (mySeat : Nat)
    (turnSeat : Option Nat) : ChiResult :=
  match turnSeat.map (fun k => (k + 1) % 4) with
  | none => ⟨false, []⟩
  | some nextSeat =>
    if nextSeat ≠ mySeat then ⟨false, []⟩
    else
      let info := parseTile playedTile
      match info.num, playedTile with
      | none, _ => ⟨false, []⟩
      | _, none => ⟨false, []⟩
      | some num, some played =>
        if num < 1 ∨ num > 9 ∨ ¬ (info.suit = "W" ∨ info.suit = "T" ∨ info.suit = "B") then
          ⟨false, []⟩
        else
          let base : Int := num
          let s := info.suit
          let seqs : List (List Int) :=
            [[base - 2, base - 1, base], [base - 1, base, base + 1], [base, base + 1, base + 2]]
          let chiList := seqs.foldl (chiStep hand played s) []
          ⟨decide (chiList.length > 0), chiList⟩

/-- The object `checkPong` returns. -/
structure PongResult where
  canPong : Bool
  pongTiles : Option (List Tile)
  deriving DecidableEq, Repr

/-- Source `checkPong`. -/
def checkPong (hand : List Tile) (playedTile : Tile) : PongResult :=
  let cnt := countTileInHand hand playedTile
  if cnt ≥ 2 then ⟨true, some [playedTile, playedTile, playedTile]⟩
  else ⟨false, none⟩

/-- The object `checkKong` returns; the fields after `canKong` are absent in
the negative result. -/
structure KongResult where
  canKong : Bool
  type : Option String
  tiles : Option (List Tile)
  pongIndex : Option Nat
  deriving DecidableEq, Repr

/-- Part B of `checkKong`: the first meld, from index `i` on, that is three
identical tiles whose tile is in the hand. -/
def findAddKong (hand : List Tile) : List Meld → Nat → Option (Nat × Tile)
  | [], _ => none
  | meld :: rest, i =>
    match getMeldTiles meld with
    | [a, b, c] =>
      if a = a ∧ b = a ∧ c = a then
        if countTileInHand hand a ≥ 1 then some (i, a) else findAddKong hand rest (i + 1)
      else findAddKong hand rest (i + 1)
    | _ => findAddKong hand rest (i + 1)

/-- Parts B and C of `checkKong`: the added kong on a pong of the seat, else
the concealed kong on four identical tiles of the hand, else no kong. -/
def checkKongSelf (hand : List Tile) (melds : List Meld) : KongResult :=
  match findAddKong hand melds 0 with
  | some (i, tile) => ⟨true, some "加槓", some [tile, tile, tile, tile], some i⟩
  | none =>
    match hand.find? (fun t => decide (countTileInHand hand t ≥ 4)) with
    | some t => ⟨true, some "暗槓", some [t, t, t, t], none⟩
    | none => ⟨false, none, none, none⟩

/-- Source `checkKong`.  The argument `drawnTile` is never read.  A `null`
`mySeat` counts as `0` in `(mySeat + 3) % 4`, and a `null` `discardSeat`
equals no seat. -/
def checkKong (hand : List Tile) (playedTile : Option Tile) (melds : List Meld)
    (drawnTile : Option Tile) (mySeat : Option Nat) (discardSeat : Option Nat) : KongResult :=
  let _unused := drawnTile
  match playedTile with
  | none => checkKongSelf hand melds
  | some played =>
    if played = "" then checkKongSelf hand melds
    else if discardSeat = some ((mySeat.getD 0 + 3) % 4) then ⟨false, none, none, none⟩
    else if countTileInHand hand played ≥ 3 then
      ⟨true, some "明槓", some [played, played, played, played], none⟩
    else checkKongSelf hand melds

/-! ## rules_dice.js -/

/-- Source `getOpenWallIndex`, for a dice sum of at least 1 and a non-empty
wall.  The source computes the opening seat `openSeat` from the dealer seat
(`indexOf` is `-1` for a seat outside the ring, and an index outside the ring
reads `undefined`, here `none`) and then does not use it. -/
def getOpenWallIndex (dealerSeat : Nat) (diceSum : Nat) (wall : List Tile) : Nat :=
  let seatOrder : List Nat := [0, 3, 2, 1]
  let idx : Int :=
    match seatOrder.indexOf? dealerSeat with
    | some i => (i : Int)
    | none => -1
  let _openSeat : Option Nat :=
    if idx + (diceSum : Int) < 0 then none
    else seatOrder.get? ((idx + (diceSum : Int)).toNat % 4)
  let stackIndex := (diceSum - 1) % 17
  let tileIndex := stackIndex * 2
  tileIndex % wall.length

/-- Four times `hands[seat].push(rotated.shift())` for one seat. -/
def dealFour (st : (Fin 4 → List Tile) × List Tile) (seat : Fin 4) :
    (Fin 4 → List Tile) × List Tile :=
  (Function.update st.1 seat (st.1 seat ++ st.2.take 4), st.2.drop 4)

/-- One round of the deal: four tiles to each of the seats 0, 1, 2, 3. -/
def dealRound (st : (Fin 4 → List Tile) × List Tile) : (Fin 4 → List Tile) × List Tile :=
  [0, 1, 2, 3].foldl dealFour st

/-- Source `distributeTiles`: the wall is rotated to start at `startIndex` and
four rounds are dealt; the result is the four hands and the remaining wall.
Meant for walls of at least 64 tiles, where every `shift()` yields a tile. -/
def distributeTiles (wall : List Tile) (startIndex : Nat) : (Fin 4 → List Tile) × List Tile :=
  let rotated := wall.drop startIndex ++ wall.take startIndex
  dealRound (dealRound (dealRound (dealRound (fun _ => [], rotated))))

/-! ## rules_flower.js (not among the sources) -/

/-- The eight flower codes, as the comments of `table.js` list them. -/
def flowerCodes : List Tile :=
  ["1F", "2F", "3F", "4F", "1P", "2P", "3P", "4P"]

/-- Modelled from the spec: the test for a flower tile of the absent
`rules_flower.js`, on the eight codes above. -/
def isFlower (t : Tile) : Bool :=
  flowerCodes.contains t

/-- Modelled from the spec: the loop of the flower exchange of the absent
`rules_flower.js` (section 4.2), on the wall read from its tail: while the hand
holds a flower and the wall is not exhausted, one flower leaves the hand and is
recorded, and the tail tile of the wall enters the hand. -/
def flowerLoop : List Tile → List Tile → List Tile → List Tile × List Tile × List Tile
  | [], hand, acc => (hand, [], acc)
  | r :: tailFirst, hand, acc =>
    match hand.find? isFlower with
    | none => (hand, r :: tailFirst, acc)
    | some f => flowerLoop tailFirst (hand.erase f ++ [r]) (acc ++ [f])

/-- Modelled from the spec: `autoCatchFlowers` of the absent `rules_flower.js`
(section 4.2, FlowerExchange).  The result is the new hand, the new wall and
the ordered list of the flowers exchanged, which the caller adds to
`flowerState.flowers[seat]`. -/
def autoCatchFlowers (hand wall : List Tile) : List Tile × List Tile × List Tile :=
  let r := flowerLoop wall.reverse hand []
  (r.1, r.2.1.reverse, r.2.2)

/-! ## table.js -/

/-- The call `parseInt(t)` on a tile code: the value of the leading run of
decimal digits, `NaN` (here `none`) when there is none. -/
def jsParseInt (t : Tile) : Option Nat :=
  let digits := t.data.takeWhile Char.isDigit
  if digits = [] then none
  else some (digits.foldl (fun acc c => 10 * acc + (c.toNat - 48)) 0)

/-- The table `suitOrder` of `sortHand`. -/
def suitOrder (suit : String) : Option Int :=
  if suit = "W" then some 1
  else if suit = "T" then some 2
  else if suit = "B" then some 3
  else if suit = "Z" then some 4
  else none

/-- The comparator of `sortHand`; a `NaN` result counts as `0`, as `sort`
treats it. -/
def sortHandCompare (a b : Tile) : Int :=
  let isHonorA := honorCodes.contains a
  let isHonorB := honorCodes.contains b
  let suitA := if isHonorA then "Z" else lastChar a
  let suitB := if isHonorB then "Z" else lastChar b
  if suitOrder suitA ≠ suitOrder suitB then
    match suitOrder suitA, suitOrder suitB with
    | some x, some y => x - y
    | _, _ => 0
  else if !isHonorA && !isHonorB then
    match jsParseInt a, jsParseInt b with
    | some x, some y => (x : Int) - (y : Int)
    | _, _ => 0
  else 0

/-- Source `sortHand`: a stable sort by the comparator.  When the hand holds a
flower the comparator is not an order and the arrangement the engine produces
is its own; the embedding then still yields a rearrangement of the hand. -/
def sortHand (hand : List Tile) : List Tile :=
  hand.insertionSort (fun a b => sortHandCompare a b ≤ 0)

/-- Source `buildWall`. -/
def buildWall : List Tile :=
  (["W", "T", "B"].flatMap (fun suit =>
    (List.range 9).flatMap (fun n => List.replicate 4 (toString (n + 1) ++ suit)))) ++
  (["C", "F", "P", "E", "S", "W", "N"].flatMap (fun h => List.replicate 4 h)) ++
  ((List.range 4).map (fun n => toString (n + 1) ++ "F")) ++
  ((List.range 4).map (fun n => toString (n + 1) ++ "P"))

/-- The pending decision `reactionContext`. -/
structure ReactionContext where
  discardSeat : Option (Fin 4)
  reactorSeat : Fin 4
  tile : Tile
  huInfo : Option HuResult
  kongInfo : Option KongResult
  pongInfo : Option PongResult
  chiInfo : Option ChiResult

/-- The game state of `table.js`: the module variables that the operations
read and write. -/
structure Table where
  mode : String
  mySeat : Fin 4
  isAI : Fin 4 → Bool
  hands : Fin 4 → List Tile
  wall : List Tile
  discards : Fin 4 → List Tile
  melds : Fin 4 → List Meld
  flowers : Fin 4 → List Tile
  turn : Fin 4
  lastPlayedTile : Option Tile
  lastDiscardSeat : Option (Fin 4)
  reactionContext : Option ReactionContext
  gameEnded : Bool
  turnLocked : Bool

/-- What an operation calls or waits for once its own body is done. -/
inductive Next where
  | done
  | startTurn
  | nextTurn
  | checkReactionsAfterPlay (seat : Fin 4) (tile : Tile)
  | playTile (seat : Fin 4) (tile : Option Tile)
  | awaitHandClick
  | awaitButtons
  | awaitAI
  deriving DecidableEq

/-- The sum of a quantity over the four seats. -/
def seatSum (f : Fin 4 → Nat) : Nat :=
  f 0 + f 1 + f 2 + f 3

/-- The number of tiles in a list of melds. -/
def meldTiles (ms : List Meld) : Nat :=
  (ms.map (fun m => (getMeldTiles m).length)).sum

/-- The conserved total: hands, melds, discard piles, wall and removed
flowers. -/
def totalTiles (s : Table) : Nat :=
  seatSum (fun i => (s.hands i).length) + seatSum (fun i => meldTiles (s.melds i)) +
    seatSum (fun i => (s.discards i).length) + s.wall.length +
    seatSum (fun i => (s.flowers i).length)

/-- Source `getDrawableTileCount`. -/
def getDrawableTileCount (s : Table) : Nat :=
  s.wall.length - 16

/-- The call of `autoCatchFlowers` on the hand of a seat, with its effect on
the hand, the wall and the flower area. -/
def catchFlowers (s : Table) (seat : Fin 4) : Table :=
  let r := autoCatchFlowers (s.hands seat) s.wall
  { s with
    hands := Function.update s.hands seat r.1
    wall := r.2.1
    flowers := Function.update s.flowers seat (s.flowers seat ++ r.2.2) }

/-- Source `handleNoTileDraw`. -/
def handleNoTileDraw (s : Table) : Table :=
  if s.gameEnded then s else { s with gameEnded := true }

/-- The first `k` occurrences of `t` are removed. -/
def removeFirstN (t : Tile) : Nat → List Tile → List Tile
  | 0, xs => xs
  | _, [] => []
  | k + 1, x :: xs => if x = t then removeFirstN t k xs else x :: removeFirstN t (k + 1) xs

/-- The loop that walks a list from its end and splices out up to `k`
occurrences of `t`. -/
def removeLastN (t : Tile) (k : Nat) (xs : List Tile) : List Tile :=
  (removeFirstN t k xs.reverse).reverse

/-- The statements `idx = xs.indexOf(t); if (idx >= 0) xs.splice(idx, 1)`. -/
def removeIfPresent (xs : List Tile) (t : Tile) : List Tile :=
  xs.erase t

/-- The part of `startTurn` after the draw and the flower exchange: the hand
is sorted, the self-win and the self-kong are evaluated on it, and the turn
ends in a win of an automated seat, in a pending decision of the player, or in
the discard phase. -/
def afterDraw (s3 : Table) (drawnTile : Tile) : Table × Next :=
  let turn := s3.turn
  let s4 := { s3 with hands := Function.update s3.hands turn (sortHand (s3.hands turn)) }
  let huInfoSelf := checkHu (s4.hands turn) (s4.melds turn) (some drawnTile) true
  let kongInfoSelf :=
    checkKong (s4.hands turn) none (s4.melds turn) (some drawnTile) (some turn.val) none
  let canZimo := !s3.isAI turn && huInfoSelf.canHu
  let canAddKong := kongInfoSelf.canKong && kongInfoSelf.type == some "加槓"
  let canAnKong := kongInfoSelf.canKong && kongInfoSelf.type == some "暗槓"
  if s3.isAI turn && huInfoSelf.canHu then
    ({ s4 with gameEnded := true }, Next.done)
  else if !s3.isAI turn && (canZimo || canAddKong || canAnKong) then
    ({ s4 with
        reactionContext :=
          some ⟨none, turn, drawnTile, some huInfoSelf, some kongInfoSelf, none, none⟩
        turnLocked := true }, Next.awaitButtons)
  else if !s3.isAI turn then
    ({ s4 with turnLocked := false }, Next.awaitHandClick)
  else
    ({ s4 with turnLocked := true }, Next.awaitAI)

/-- The front draw of `startTurn`: `wall.shift()` has yielded `drawnTile` and
left `rest`; the tile is pushed into the hand of the active seat. -/
def drawFront (s : Table) (drawnTile : Tile) (rest : List Tile) : Table :=
  { s with
    wall := rest
    hands := Function.update s.hands s.turn (s.hands s.turn ++ [drawnTile]) }

/-- Source `startTurn`, up to the point where it returns or starts to await
the decision of an automated seat. -/
def startTurn (s : Table) : Table × Next :=
  if s.gameEnded then (s, Next.done)
  else if s.turnLocked then (s, Next.done)
  else if s.mode = "multi" ∧ s.turn ≠ s.mySeat then (s, Next.done)
  else if getDrawableTileCount s ≤ 0 then (handleNoTileDraw s, Next.done)
  else
    match s.wall with
    | [] => (handleNoTileDraw s, Next.done)
    | drawnTile :: rest =>
      if drawnTile = "" then (handleNoTileDraw { s with wall := rest }, Next.done)
      else
        let s3 := catchFlowers (drawFront s drawnTile rest) s.turn
        if getDrawableTileCount s3 ≤ 0 then (handleNoTileDraw s3, Next.done)
        else afterDraw s3 drawnTile

/-- Source `playTile`, up to its closing call of `nextTurn` (multi mode) or
`checkReactionsAfterPlay` (otherwise). -/
def playTile (s : Table) (seat : Fin 4) (tile : Tile) : Table × Next :=
  if s.gameEnded then (s, Next.done)
  else if s.turnLocked then (s, Next.done)
  else
    let s1 := { s with
      hands := Function.update s.hands seat (sortHand (removeIfPresent (s.hands seat) tile))
      discards := Function.update s.discards seat (s.discards seat ++ [tile])
      lastPlayedTile := some tile
      lastDiscardSeat := some seat }
    if s.mode = "multi" then (s1, Next.nextTurn)
    else (s1, Next.checkReactionsAfterPlay seat tile)

/-- Source `nextTurn`, up to its call of `startTurn`. -/
def nextTurn (s : Table) : Table × Next :=
  if s.gameEnded then (s, Next.done)
  else
    let s1 := { s with turn := s.turn + 1 }
    if s.mode = "multi" ∧ s1.turn ≠ s.mySeat then (s1, Next.done)
    else (s1, Next.startTurn)

/-- The loop of the chi operations over the chosen tiles: every tile other
than the claimed one is taken out of the hand where it is found. -/
def removeChiPartners (hand : List Tile) (tile : Tile) (chiTiles : List Tile) : List Tile :=
  chiTiles.foldl (fun h t => if t ≠ tile then removeIfPresent h t else h) hand

/-- Source `doChiOperation`, up to the deferred `startTurn`. -/
def doChiOperation (s : Table) (seat : Fin 4) (tile : Tile) (discardSeat : Fin 4)
    (chiTiles : List Tile) : Table × Next :=
  ({ s with
      discards := Function.update s.discards discardSeat (removeLastN tile 1 (s.discards discardSeat))
      hands := Function.update s.hands seat (sortHand (removeChiPartners (s.hands seat) tile chiTiles))
      melds := Function.update s.melds seat (s.melds seat ++ [Meld.arr chiTiles false])
      turn := seat
      reactionContext := none
      turnLocked := false }, Next.startTurn)

/-- Source `doPongOperation`, up to the deferred `startTurn`. -/
def doPongOperation (s : Table) (seat : Fin 4) (tile : Tile) (discardSeat : Fin 4) :
    Table × Next :=
  ({ s with
      discards := Function.update s.discards discardSeat (removeLastN tile 1 (s.discards discardSeat))
      hands := Function.update s.hands seat (sortHand (removeLastN tile 2 (s.hands seat)))
      melds := Function.update s.melds seat (s.melds seat ++ [Meld.arr [tile, tile, tile] false])
      turn := seat
      reactionContext := none
      turnLocked := false }, Next.startTurn)

/-- Source `doKongOperation`, up to the deferred `startTurn`.  The result is
`none` where the source throws: when `kongInfo` has no `tiles`, and when
`wall.pop()` yields `undefined` on an empty wall, which is pushed into the
hand unguarded and then handed to `tileToChinese`, which throws on it.  With an
empty `tiles` the claimed tile is `undefined`, outside the tile type, and the
result is `none` as well. -/
def doKongOperation (s : Table) (seat : Fin 4) (kongInfo : KongResult) (discardSeat : Fin 4) :
    Option (Table × Next) :=
  match kongInfo.tiles with
  | none => none
  | some [] => none
  | some (tile :: more) =>
    match s.wall.getLast? with
    | none => none
    | some added =>
      let s1 := { s with
        discards := Function.update s.discards discardSeat (removeLastN tile 1 (s.discards discardSeat))
        hands := Function.update s.hands seat (removeLastN tile 3 (s.hands seat) ++ [added])
        melds := Function.update s.melds seat (s.melds seat ++ [Meld.arr (tile :: more) false])
        wall := s.wall.dropLast }
      let s2 := catchFlowers s1 seat
      some ({ s2 with
        hands := Function.update s2.hands seat (sortHand (s2.hands seat))
        reactionContext := none
        turnLocked := false
        turn := seat }, Next.startTurn)

/-- One entry of the list `reactions` of `checkReactionsAfterPlay`. -/
structure Reaction where
  seat : Fin 4
  action : String
  priority : Nat
  tiles : Option (List Tile)
  huInfo : Option HuResult
  kongInfo : Option KongResult
  pongInfo : Option PongResult
  chiInfo : Option ChiResult

/-- Source `handleAIReaction`.  The result is `none` where the source throws:
a claim while `lastDiscardSeat` or `lastPlayedTile` is still `null`, a kong
without `kongInfo`, a chi without `tiles`. -/
def handleAIReaction (s : Table) (r : Reaction) : Option (Table × Next) :=
  if r.action = "HU" then
    some ({ s with gameEnded := true, turnLocked := false }, Next.done)
  else if r.action = "KONG" then
    match r.kongInfo, s.lastDiscardSeat with
    | some kongInfo, some d => doKongOperation s r.seat kongInfo d
    | _, _ => none
  else if r.action = "PONG" then
    match s.lastPlayedTile, s.lastDiscardSeat with
    | some tile, some d => some (doPongOperation s r.seat tile d)
    | _, _ => none
  else if r.action = "CHI" then
    match s.lastPlayedTile, s.lastDiscardSeat, r.tiles with
    | some tile, some d, some chiTiles => some (doChiOperation s r.seat tile d chiTiles)
    | _, _, _ => none
  else some (s, Next.done)

/-- What the chi and pong handlers do last: the claimant is to discard. -/
def afterClaim (s : Table) : Next :=
  if !s.isAI s.turn then Next.awaitHandClick
  else Next.playTile s.turn (s.hands s.turn).getLast?

/-- Source `handleChiFromUI`.  The result is `none` where the source throws:
a context without `discardSeat`. -/
def handleChiFromUI (s : Table) (chosenChi : List Tile) : Option (Table × Next) :=
  match s.reactionContext with
  | none => some (s, Next.done)
  | some ctx =>
    if s.gameEnded then some (s, Next.done)
    else
      match ctx.discardSeat with
      | none => none
      | some discardSeat =>
        let s1 := { s with
          discards :=
            Function.update s.discards discardSeat (removeLastN ctx.tile 1 (s.discards discardSeat))
          hands :=
            Function.update s.hands ctx.reactorSeat
              (sortHand (removeChiPartners (s.hands ctx.reactorSeat) ctx.tile chosenChi))
          melds :=
            Function.update s.melds ctx.reactorSeat
              (s.melds ctx.reactorSeat ++ [Meld.arr chosenChi false])
          turn := ctx.reactorSeat
          reactionContext := none
          turnLocked := false }
        some (s1, afterClaim s1)

/-- Source `handlePongFromUI`.  The result is `none` where the source throws
(a context without `discardSeat`) or leaves the tile type (a positive
`pongInfo` without `pongTiles`). -/
def handlePongFromUI (s : Table) : Option (Table × Next) :=
  match s.reactionContext with
  | none => some (s, Next.done)
  | some ctx =>
    if s.gameEnded then some (s, Next.done)
    else
      match ctx.pongInfo with
      | none => some (s, Next.done)
      | some pongInfo =>
        if !pongInfo.canPong then some (s, Next.done)
        else
          match ctx.discardSeat, pongInfo.pongTiles with
          | some discardSeat, some pongTiles =>
            let s1 := { s with
              discards :=
                Function.update s.discards discardSeat
                  (removeLastN ctx.tile 1 (s.discards discardSeat))
              hands :=
                Function.update s.hands ctx.reactorSeat
                  (sortHand (removeLastN ctx.tile 2 (s.hands ctx.reactorSeat)))
              melds :=
                Function.update s.melds ctx.reactorSeat
                  (s.melds ctx.reactorSeat ++ [Meld.arr pongTiles false])
              turn := ctx.reactorSeat
              reactionContext := none
              turnLocked := false }
            some (s1, afterClaim s1)
          | _, _ => none

/-- The assignment `melds[idx] = tiles` on the meld array of a seat: a `null`
index sets a property that is no element, an index within the array replaces
the element, the index one past the end appends; `none` beyond that, where
the array would get holes. -/
def setMeld (ms : List Meld) (pongIndex : Option Nat) (m : Meld) : Option (List Meld) :=
  match pongIndex with
  | none => some ms
  | some idx =>
    if idx < ms.length then some (ms.set idx m)
    else if idx = ms.length then some (ms ++ [m])
    else none

/-- The kong step of `handleKongFromUI` proper: the meld is formed out of the
hand (and the discard pile, for the exposed kind).  `none` where the source
throws: an exposed kong in a context without `discardSeat`. -/
def applyKong (s : Table) (ctx : ReactionContext) (kongInfo : KongResult)
    (type : Option String) (tile : Tile) (tiles : List Tile) : Option Table :=
  let seat := ctx.reactorSeat
  if type = some "明槓" then
    match ctx.discardSeat with
    | none => none
    | some discardSeat =>
      some { s with
        discards :=
          Function.update s.discards discardSeat (removeLastN tile 1 (s.discards discardSeat))
        hands := Function.update s.hands seat (removeLastN tile 3 (s.hands seat))
        melds := Function.update s.melds seat (s.melds seat ++ [Meld.arr tiles false]) }
  else if type = some "加槓" then
    match setMeld (s.melds seat) kongInfo.pongIndex (Meld.arr tiles false) with
    | none => none
    | some ms =>
      some { s with
        melds := Function.update s.melds seat ms
        hands := Function.update s.hands seat (removeIfPresent (s.hands seat) tile) }
  else if type = some "暗槓" then
    some { s with
      hands := Function.update s.hands seat (removeLastN tile 4 (s.hands seat))
      melds := Function.update s.melds seat (s.melds seat ++ [Meld.arr tiles true]) }
  else some s

/-- The replacement draw of `handleKongFromUI`: with a non-empty wall the tail
tile enters the hand and the flowers are exchanged. -/
def kongReplacement (s : Table) (seat : Fin 4) : Table :=
  match s.wall.getLast? with
  | none => s
  | some added =>
    catchFlowers { s with
      wall := s.wall.dropLast
      hands := Function.update s.hands seat (s.hands seat ++ [added]) } seat

/-- The kind of kong `handleKongFromUI` acts on, `kongTypeFromUI || kongInfo.type`:
the kind the button names, else the kind in `kongInfo`. -/
def kongTypeOf (kongTypeFromUI : Option String) (kongInfo : KongResult) : Option String :=
  match kongTypeFromUI with
  | none => kongInfo.type
  | some text => if text = "" then kongInfo.type else some text

/-- Source `handleKongFromUI`.  The argument is the kind the button names,
`none` when absent.  The result is `none` where the source throws: a positive
`kongInfo` without a first tile, an exposed kong without `discardSeat`. -/
def handleKongFromUI (s : Table) (kongTypeFromUI : Option String) : Option (Table × Next) :=
  match s.reactionContext with
  | none => some (s, Next.done)
  | some ctx =>
    if s.gameEnded then some (s, Next.done)
    else
      match ctx.kongInfo with
      | none => some (s, Next.done)
      | some kongInfo =>
        if !kongInfo.canKong then some (s, Next.done)
        else
          let type := kongTypeOf kongTypeFromUI kongInfo
          match kongInfo.tiles with
          | none => none
          | some [] => none
          | some (tile :: more) =>
            match applyKong s ctx kongInfo type tile (tile :: more) with
            | none => none
            | some s1 =>
              let seat := ctx.reactorSeat
              let s2 := { s1 with hands := Function.update s1.hands seat (sortHand (s1.hands seat)) }
              let s3 := kongReplacement s2 seat
              let lastTile := (s3.hands seat).getLast?
              let huInfo := checkHu (s3.hands seat) (s3.melds seat) lastTile true
              if huInfo.canHu then
                some ({ s3 with gameEnded := true, turnLocked := false }, Next.done)
              else
                some ({ s3 with
                  hands := Function.update s3.hands seat (sortHand (s3.hands seat))
                  reactionContext := none
                  turn := seat
                  turnLocked := false }, Next.awaitHandClick)

/-- Source `handleHuFromUI`: the win on a discard.  `none` where the source
throws: a context without `discardSeat`. -/
def handleHuFromUI (s : Table) : Option (Table × Next) :=
  match s.reactionContext with
  | none => some (s, Next.done)
  | some ctx =>
    if s.gameEnded then some (s, Next.done)
    else
      match ctx.huInfo with
      | none => some (s, Next.done)
      | some huInfo =>
        if !huInfo.canHu then some (s, Next.done)
        else
          match ctx.discardSeat with
          | none => none
          | some discardSeat =>
            some ({ s with
              discards :=
                Function.update s.discards discardSeat
                  (removeLastN ctx.tile 1 (s.discards discardSeat))
              hands :=
                Function.update s.hands ctx.reactorSeat
                  (sortHand (s.hands ctx.reactorSeat ++ [ctx.tile]))
              reactionContext := none
              gameEnded := true
              turnLocked := false }, Next.done)

/-- Source `handlePassFromUI`. -/
def handlePassFromUI (s : Table) : Table × Next :=
  match s.reactionContext with
  | none => (s, Next.done)
  | some ctx =>
    let s1 := { s with reactionContext := none, turnLocked := false }
    match ctx.discardSeat with
    | none => (s1, Next.awaitHandClick)
    | some _ => (s1, Next.nextTurn)

/-- Source `handleZimoFromUI`. -/
def handleZimoFromUI (s : Table) : Table × Next :=
  match s.reactionContext with
  | none => (s, Next.done)
  | some ctx =>
    if s.gameEnded then (s, Next.done)
    else
      ({ s with
        hands := Function.update s.hands ctx.reactorSeat (sortHand (s.hands ctx.reactorSeat))
        reactionContext := none
        gameEnded := true
        turnLocked := false }, Next.done)

/-- The initial flower exchange and sort of `initGame` for one seat. -/
def initSeat (s : Table) (seat : Fin 4) : Table :=
  let s1 := catchFlowers s seat
  { s1 with hands := Function.update s1.hands seat (sortHand (s1.hands seat)) }

/-- Source `initGame`, up to its call of `startTurn`.  The shuffled wall, the
dealer and the dice sum, which the source draws at random, are arguments. -/
def initGame (mode : String) (mySeat : Fin 4) (shuffled : List Tile) (dealer : Fin 4)
    (diceSum : Nat) : Table × Next :=
  let openIndex := getOpenWallIndex dealer.val diceSum shuffled
  let deal := distributeTiles shuffled openIndex
  let s0 : Table :=
    { mode := mode
      mySeat := mySeat
      isAI := fun i => if mode = "solo" then decide (i ≠ 0) else false
      hands := deal.1
      wall := deal.2
      discards := fun _ => []
      melds := fun _ => []
      flowers := fun _ => []
      turn := dealer
      lastPlayedTile := none
      lastDiscardSeat := none
      reactionContext := none
      gameEnded := false
      turnLocked := false }
  let s1 := [0, 1, 2, 3].foldl initSeat s0
  (s1, if mode = "solo" then Next.startTurn else Next.done)

/-- The state-changing operations of the table, with their arguments. -/
inductive TableOp where
  | startTurn
  | playTile (seat : Fin 4) (tile : Tile)
  | doChiOperation (seat : Fin 4) (tile : Tile) (discardSeat : Fin 4) (chiTiles : List Tile)
  | doPongOperation (seat : Fin 4) (tile : Tile) (discardSeat : Fin 4)
  | doKongOperation (seat : Fin 4) (kongInfo : KongResult) (discardSeat : Fin 4)
  | handleAIReaction (r : Reaction)
  | handleChiFromUI (chosenChi : List Tile)
  | handlePongFromUI
  | handleKongFromUI (kongTypeFromUI : Option String)
  | handleHuFromUI

/-- The state an operation leaves, `none` where the source throws. -/
def runOp (s : Table) : TableOp → Option Table
  | TableOp.startTurn => some (startTurn s).1
  | TableOp.playTile seat tile => some (playTile s seat tile).1
  | TableOp.doChiOperation seat tile d chiTiles => some (doChiOperation s seat tile d chiTiles).1
  | TableOp.doPongOperation seat tile d => some (doPongOperation s seat tile d).1
  | TableOp.doKongOperation seat kongInfo d => (doKongOperation s seat kongInfo d).map (fun p => p.1)
  | TableOp.handleAIReaction r => (handleAIReaction s r).map (fun p => p.1)
  | TableOp.handleChiFromUI chosenChi => (handleChiFromUI s chosenChi).map (fun p => p.1)
  | TableOp.handlePongFromUI => (handlePongFromUI s).map (fun p => p.1)
  | TableOp.handleKongFromUI type => (handleKongFromUI s type).map (fun p => p.1)
  | TableOp.handleHuFromUI => (handleHuFromUI s).map (fun p => p.1)

/-- A chi sequence that can be formed: distinct tiles, one of them the claimed
tile, the others in the hand of the claimant. -/
def ChiReady (hand : List Tile) (tile : Tile) (chiTiles : List Tile) : Prop :=
  chiTiles.Nodup ∧ tile ∈ chiTiles ∧ ∀ t ∈ chiTiles, t ≠ tile → t ∈ hand

/-- A kong of the given kind that can be formed by the seat of the context:
four copies of one tile, with, for the exposed kind, the tile in the pile of
the discarder and three copies in the hand; for the added kind, a three-tile
meld at `pongIndex` and one copy in the hand; for the concealed kind, four
copies in the hand. -/
def KongReady (s : Table) (ctx : ReactionContext) (kongInfo : KongResult)
    (type : Option String) : Prop :=
  ∃ t : Tile, kongInfo.tiles = some [t, t, t, t] ∧
    ((type = some "明槓" ∧ ∃ d, ctx.discardSeat = some d ∧ t ∈ s.discards d ∧
        3 ≤ (s.hands ctx.reactorSeat).count t) ∨
     (type = some "加槓" ∧ ∃ idx m, kongInfo.pongIndex = some idx ∧
        (s.melds ctx.reactorSeat).get? idx = some m ∧ (getMeldTiles m).length = 3 ∧
        t ∈ s.hands ctx.reactorSeat) ∨
     (type = some "暗槓" ∧ 4 ≤ (s.hands ctx.reactorSeat).count t))

/-- The tiles an operation is to move are where it looks for them. -/
def Ready (s : Table) : TableOp → Prop
  | TableOp.startTurn => "" ∉ s.wall
  | TableOp.playTile seat tile => tile ∈ s.hands seat
  | TableOp.doChiOperation seat tile d chiTiles =>
      tile ∈ s.discards d ∧ ChiReady (s.hands seat) tile chiTiles
  | TableOp.doPongOperation seat tile d =>
      tile ∈ s.discards d ∧ 2 ≤ (s.hands seat).count tile
  | TableOp.doKongOperation seat kongInfo d =>
      s.wall ≠ [] ∧ ∃ t : Tile, kongInfo.tiles = some [t, t, t, t] ∧ t ∈ s.discards d ∧
        3 ≤ (s.hands seat).count t
  | TableOp.handleAIReaction r =>
      r.action = "HU" ∨
      ∃ (tile : Tile) (d : Fin 4), s.lastPlayedTile = some tile ∧ s.lastDiscardSeat = some d ∧
        tile ∈ s.discards d ∧
        ((r.action = "PONG" ∧ 2 ≤ (s.hands r.seat).count tile) ∨
         (r.action = "CHI" ∧ ∃ chiTiles, r.tiles = some chiTiles ∧
            ChiReady (s.hands r.seat) tile chiTiles) ∨
         (r.action = "KONG" ∧ s.wall ≠ [] ∧ ∃ kongInfo, r.kongInfo = some kongInfo ∧
            kongInfo.tiles = some [tile, tile, tile, tile] ∧ 3 ≤ (s.hands r.seat).count tile))
  | TableOp.handleChiFromUI chosenChi =>
      ∀ ctx, s.reactionContext = some ctx →
        ∃ d, ctx.discardSeat = some d ∧ ctx.tile ∈ s.discards d ∧
          ChiReady (s.hands ctx.reactorSeat) ctx.tile chosenChi
  | TableOp.handlePongFromUI =>
      ∀ ctx, s.reactionContext = some ctx →
        ∃ d, ctx.discardSeat = some d ∧ ctx.tile ∈ s.discards d ∧
          ctx.pongInfo = some (checkPong (s.hands ctx.reactorSeat) ctx.tile)
  | TableOp.handleKongFromUI kongTypeFromUI =>
      ∀ ctx kongInfo, s.reactionContext = some ctx → ctx.kongInfo = some kongInfo →
        KongReady s ctx kongInfo (kongTypeOf kongTypeFromUI kongInfo)
  | TableOp.handleHuFromUI =>
      ∀ ctx, s.reactionContext = some ctx → ∃ d, ctx.discardSeat = some d ∧ ctx.tile ∈ s.discards d

/-- A solo table in the discard phase of seat 0: the seat has drawn and is
free to discard; two tiles have been discarded so far. -/
def demoTable : Table :=
  { mode := "solo"
    mySeat := 0
    isAI := fun i => decide (i ≠ 0)
    hands := fun i =>
      if i = 0 then
        ["1W", "2W", "3W", "4W", "5W", "6W", "7W", "8W", "9W", "1T", "2T", "3T",
         "E", "E", "E", "9T", "N"]
      else if i = 1 then
        ["1B", "1B", "2B", "3B", "4B", "5B", "6B", "7B", "8B", "9B", "C", "C", "F",
         "F", "P", "P"]
      else if i = 2 then
        ["1T", "1T", "2T", "2T", "3T", "3T", "4T", "4T", "5T", "5T", "6T", "6T", "7T",
         "7T", "8T", "8T"]
      else
        ["1W", "1W", "2W", "2W", "3W", "3W", "4W", "4W", "5W", "5W", "6W", "6W", "7W",
         "7W", "8W", "8W"]
    wall := ["9W", "9W", "9B", "9B", "S", "S", "S", "S", "W", "W", "W", "W", "N", "N",
      "N", "E", "C", "C", "F", "F"]
    discards := fun i => if i = 3 then ["9T"] else if i = 2 then ["9W"] else []
    melds := fun _ => []
    flowers := fun i => if i = 1 then ["1F"] else []
    turn := 0
    lastPlayedTile := some "9T"
    lastDiscardSeat := some 3
    reactionContext := none
    gameEnded := false
    turnLocked := false }

/-- A 16-tile hand that holds four copies of `5B`. -/
def handFour5B : List Tile :=
  ["1W", "2W", "3W", "4T", "5T", "6T", "5B", "5B", "5B", "5B", "7B", "8B", "9B",
   "E", "E", "N"]

/-- A 13-tile hand that holds one copy of `5B`, next to a pong of `5B`. -/
def handOne5B : List Tile :=
  ["1W", "2W", "3W", "4T", "5T", "6T", "5B", "7B", "8B", "9B", "E", "E", "N"]


/-! ## game_flow.js -/

/-- The record of round progression that `initGameFlow` and
`processEndOfRound` return.  The fields are JavaScript numbers, here
integers. -/
structure RoundState where
  windRound : Int
  dealerSeat : Int
  dealerCount : Int
  hand : Int
  deriving DecidableEq, Repr

/-- Source `initGameFlow`. -/
def initGameFlow : RoundState :=
  { windRound := 0, hand := 0, dealerSeat := 0, dealerCount := 0 }

/-- The operator `%` of JavaScript on integers: the remainder takes the sign
of the dividend. -/
def jsRem (a b : Int) : Int :=
  Int.tmod a b

/-- The statements `hand++; if (hand >= 4) { hand = 0; windRound = Math.min(windRound + 1, 3); }
dealerSeat = (dealerSeat + 1) % 4; dealerCount = 0`, which `processEndOfRound`
runs for an exhausted wall and, again, for the win of a seat other than the
dealer. -/
def changeDealer (windRound dealerSeat hand : Int) : RoundState :=
  let hand1 := hand + 1
  let hand2 := if hand1 ≥ 4 then 0 else hand1
  let windRound2 := if hand1 ≥ 4 then min (windRound + 1) 3 else windRound
  { windRound := windRound2, dealerSeat := jsRem (dealerSeat + 1) 4, dealerCount := 0,
    hand := hand2 }

/-- Source `processEndOfRound`.  A `null` winner is `none`. -/
def processEndOfRound (winnerSeat : Option Int) (windRound dealerSeat dealerCount hand : Int) :
    RoundState :=
  match winnerSeat with
  | none => changeDealer windRound dealerSeat hand
  | some w =>
    if w = dealerSeat then
      { windRound := windRound, dealerSeat := dealerSeat, dealerCount := dealerCount + 1,
        hand := hand }
    else changeDealer windRound dealerSeat hand

/-- A well-formed round state: wind round, hand and dealer seat in 0..3, and
a dealer count that is not negative. -/
def RoundState.WellFormed (st : RoundState) : Prop :=
  (0 ≤ st.windRound ∧ st.windRound ≤ 3) ∧ (0 ≤ st.hand ∧ st.hand ≤ 3) ∧
    (0 ≤ st.dealerSeat ∧ st.dealerSeat ≤ 3) ∧ 0 ≤ st.dealerCount

instance (st : RoundState) : Decidable st.WellFormed :=
  inferInstanceAs (Decidable ((0 ≤ st.windRound ∧ st.windRound ≤ 3) ∧
    (0 ≤ st.hand ∧ st.hand ≤ 3) ∧ (0 ≤ st.dealerSeat ∧ st.dealerSeat ≤ 3) ∧
    0 ≤ st.dealerCount))

/-- The round advance in the words of the specification: a win of the dealer
keeps wind round, dealer seat and hand and adds one to the dealer count; any
other outcome moves the dealer to the next seat modulo 4, resets the dealer
count and adds one to the hand, and when the hand thereby reaches 4 it becomes
0 and the wind round advances, capped at 3. -/
def roundAdvanceSpec (winnerSeat : Option Int) (st : RoundState) : RoundState :=
  if winnerSeat = some st.dealerSeat then
    { st with dealerCount := st.dealerCount + 1 }
  else if st.hand + 1 = 4 then
    { windRound := min (st.windRound + 1) 3, dealerSeat := (st.dealerSeat + 1) % 4,
      dealerCount := 0, hand := 0 }
  else
    { windRound := st.windRound, dealerSeat := (st.dealerSeat + 1) % 4,
      dealerCount := 0, hand := st.hand + 1 }

/-! ## ai_agent.js: the reaction of an automated seat -/

/-- The object `AI.onReaction` returns.  Its field `tile`, set in the winning
answer and read by nothing, is left out. -/
structure AIAnswer where
  action : String
  tiles : Option (List Tile)
  huInfo : Option HuResult
  kongInfo : Option KongResult
  deriving DecidableEq, Repr

/-- Source `AI.onReaction`.  The result is `none` where the source throws: in
its chi branch it reads `chiInfo.tiles[0]`, and `chiInfo` has no `tiles`.
`checkKong` is called with a `null` discard seat and `checkChi` without a turn
seat. -/
def aiOnReaction (seat : Nat) (hand : List Tile) (melds : List Meld) (playedTile : Tile) :
    Option AIAnswer :=
  let huInfo := checkHu (hand ++ [playedTile]) melds (some playedTile) false
  if huInfo.canHu then some ⟨"HU", none, some huInfo, none⟩
  else
    let pongInfo := checkPong hand playedTile
    if pongInfo.canPong then some ⟨"PONG", none, none, none⟩
    else
      let kongInfo := checkKong hand (some playedTile) melds none (some seat) none
      if kongInfo.canKong && kongInfo.type == some "明槓" then
        some ⟨"KONG", none, none, some kongInfo⟩
      else
        let chiInfo := checkChi hand (some playedTile) seat none
        if chiInfo.canChi then none
        else some ⟨"PASS", none, none, none⟩

/-! ## table.js: arbitration of the reactions to a discard -/

/-- Source `getReactionPriority`. -/
def getReactionPriority (action : String) (discardSeat seat : Nat) : Nat :=
  if action = "HU" then 4
  else if action = "KONG" then 3
  else if action = "PONG" then 2
  else if action = "CHI" then (if seat = (discardSeat + 1) % 4 then 1 else 0)
  else 0

/-- One pass of the first loop of `checkReactionsAfterPlay`: the reaction of
the seat `seat`, if it is an automated seat other than the discarder and seat
0 and does not pass.  `none` where `AI.onReaction` throws. -/
def aiReactionOf (s : Table) (discardSeat : Fin 4) (tile : Tile) (seat : Fin 4) :
    Option (List Reaction) :=
  if seat = discardSeat then some []
  else if seat = 0 then some []
  else if !s.isAI seat then some []
  else
    match aiOnReaction seat.val (s.hands seat) (s.melds seat) tile with
    | none => none
    | some a =>
      if a.action ≠ "PASS" then
        some [⟨seat, a.action, getReactionPriority a.action discardSeat.val seat.val,
          a.tiles, a.huInfo, a.kongInfo, none, none⟩]
      else some []

/-- The second part of `checkReactionsAfterPlay`: the reactions of the player
at seat 0, one entry for each of win, exposed kong, pong and chi that is
legal. -/
def playerReactions (s : Table) (discardSeat : Fin 4) (tile : Tile) : List Reaction :=
  if (0 : Fin 4) = discardSeat then []
  else
    let hand := s.hands 0
    let myMelds := s.melds 0
    let huInfo := checkHu (hand ++ [tile]) myMelds (some tile) false
    let kongInfo := checkKong hand (some tile) myMelds none (some 0) (some discardSeat.val)
    let pongInfo := checkPong hand tile
    let chiInfo := checkChi hand (some tile) 0 (some discardSeat.val)
    let canHu := huInfo.canHu
    let canMingKong := kongInfo.canKong && kongInfo.type == some "明槓"
    let canPong := pongInfo.canPong
    let canChi := chiInfo.canChi
    (if canHu then [(⟨0, "HU", 4, none, some huInfo, none, none, none⟩ : Reaction)] else []) ++
    (if canMingKong then [(⟨0, "KONG", 3, none, none, some kongInfo, none, none⟩ : Reaction)]
      else []) ++
    (if canPong then [(⟨0, "PONG", 2, none, none, none, some pongInfo, none⟩ : Reaction)]
      else []) ++
    (if canChi then [(⟨0, "CHI", 1, none, none, none, none, some chiInfo⟩ : Reaction)] else [])

/-- The list `reactions` that `checkReactionsAfterPlay` collects for a
discard: the automated seats in the order 0, 1, 2, 3 of the loop, then the
player.  `none` where `AI.onReaction` throws. -/
def collectReactions (s : Table) (discardSeat : Fin 4) (tile : Tile) : Option (List Reaction) :=
  match aiReactionOf s discardSeat tile 0, aiReactionOf s discardSeat tile 1,
    aiReactionOf s discardSeat tile 2, aiReactionOf s discardSeat tile 3 with
  | some r0, some r1, some r2, some r3 =>
    some (r0 ++ r1 ++ r2 ++ r3 ++ playerReactions s discardSeat tile)
  | _, _, _, _ => none

/-- The call `reactions.sort((a, b) => b.priority - a.priority)`: a stable
sort by descending priority. -/
def sortReactions (reactions : List Reaction) : List Reaction :=
  reactions.insertionSort (fun a b => b.priority ≤ a.priority)

/-- The last part of `checkReactionsAfterPlay`, reached when the winner of the
arbitration is not an automated seat: the reaction context is set for seat 0,
the turn is locked and the buttons are shown. -/
def promptPlayer (s : Table) (discardSeat : Fin 4) (tile : Tile) (winner : Reaction) :
    Table × Next :=
  ({ s with
      reactionContext :=
        some ⟨some discardSeat, 0, tile, winner.huInfo, winner.kongInfo, winner.pongInfo,
          winner.chiInfo⟩
      turnLocked := true }, Next.awaitButtons)

/-- Source `checkReactionsAfterPlay`, up to its call of `nextTurn` when no
seat reacts; the call of `handleAIReaction` for an automated winner is
included.  `none` where the source throws. -/
def checkReactionsAfterPlay (s : Table) (discardSeat : Fin 4) (tile : Tile) :
    Option (Table × Next) :=
  match collectReactions s discardSeat tile with
  | none => none
  | some reactions =>
    if reactions.length = 0 then some (s, Next.nextTurn)
    else
      match sortReactions reactions with
      | [] => none
      | winner :: _ =>
        if s.isAI winner.seat then handleAIReaction s winner
        else some (promptPlayer s discardSeat tile winner)

/-- The event a remote seat sends for a claim. -/
structure RemoteReaction where
  type : String
  reactorSeat : Fin 4
  discardSeat : Fin 4
  tile : Tile
  chiTiles : Option (List Tile)

/-- Source `handleRemoteReaction`, up to its call of `nextTurn` for a pass.
`none` where the source throws: a chi without `chiTiles`. -/
def handleRemoteReaction (s : Table) (data : RemoteReaction) : Option (Table × Next) :=
  if data.type = "CHI" then
    match data.chiTiles with
    | none => none
    | some chiTiles =>
      some ({ s with
        discards :=
          Function.update s.discards data.discardSeat
            (removeLastN data.tile 1 (s.discards data.discardSeat))
        hands :=
          Function.update s.hands data.reactorSeat
            (sortHand (removeChiPartners (s.hands data.reactorSeat) data.tile chiTiles))
        melds :=
          Function.update s.melds data.reactorSeat
            (s.melds data.reactorSeat ++ [Meld.arr chiTiles false])
        turn := data.reactorSeat }, Next.done)
  else if data.type = "PONG" then
    some ({ s with
      discards :=
        Function.update s.discards data.discardSeat
          (removeLastN data.tile 1 (s.discards data.discardSeat))
      hands :=
        Function.update s.hands data.reactorSeat
          (sortHand (removeLastN data.tile 2 (s.hands data.reactorSeat)))
      melds :=
        Function.update s.melds data.reactorSeat
          (s.melds data.reactorSeat ++ [Meld.arr [data.tile, data.tile, data.tile] false])
      turn := data.reactorSeat }, Next.done)
  else if data.type = "KONG" then
    some ({ s with
      discards :=
        Function.update s.discards data.discardSeat
          (removeLastN data.tile 1 (s.discards data.discardSeat))
      hands :=
        Function.update s.hands data.reactorSeat
          (sortHand (removeLastN data.tile 3 (s.hands data.reactorSeat)))
      melds :=
        Function.update s.melds data.reactorSeat
          (s.melds data.reactorSeat ++
            [Meld.arr [data.tile, data.tile, data.tile, data.tile] false])
      turn := data.reactorSeat }, Next.done)
  else if data.type = "HU" then some (s, Next.done)
  else if data.type = "PASS" then some (s, Next.nextTurn)
  else some (s, Next.done)

/-! ## Predicates for the kong on a self-draw -/

/-- The meld at index `i` is a pong, three identical tiles `a`, and the hand
holds a copy of `a`. -/
def PongAt (hand : List Tile) (melds : List Meld) (i : Nat) (a : Tile) : Prop :=
  ∃ m, melds.get? i = some m ∧ getMeldTiles m = [a, a, a] ∧ a ∈ hand

/-- The first meld that is a pong whose tile is in the hand. -/
def FirstPongAt (hand : List Tile) (melds : List Meld) (i : Nat) (a : Tile) : Prop :=
  PongAt hand melds i a ∧ ∀ j < i, ∀ b, ¬ PongAt hand melds j b

/-- The first tile value, in hand order, of which the hand holds at least
four copies. -/
def FirstQuad (hand : List Tile) (t : Tile) : Prop :=
  4 ≤ hand.count t ∧ ∃ before after, hand = before ++ t :: after ∧
    ∀ x ∈ before, hand.count x < 4

/-! ## The order of collection, and concrete tables after a discard -/

/-- The place of a seat in the order in which `checkReactionsAfterPlay`
collects the reactions: the automated seats 1, 2, 3 of the loop first, the
player at seat 0 last. -/
def collectRank (seat : Fin 4) : Nat :=
  if seat = 0 then 4 else seat.val

/-- A solo table right after seat 2 has discarded `9T`: the hands of seat 1 and
of seat 3 both win on that tile, seat 0 has no claim on it. -/
def tieTable : Table :=
  { mode := "solo"
    mySeat := 0
    isAI := fun i => decide (i ≠ 0)
    hands := fun i =>
      if i = 0 then
        ["1W", "1W", "2W", "2W", "4W", "4W", "5W", "5W", "7W", "7W", "8W", "8W", "S",
         "S", "W", "N"]
      else if i = 1 then
        ["1W", "2W", "3W", "4W", "5W", "6W", "7W", "8W", "9W", "1T", "2T", "3T", "E",
         "E", "E", "9T"]
      else if i = 2 then
        ["1T", "1T", "2T", "2T", "3T", "3T", "4T", "4T", "5T", "5T", "6T", "7T", "7T",
         "8T", "8T", "P"]
      else
        ["1B", "2B", "3B", "4B", "5B", "6B", "7B", "8B", "9B", "4T", "5T", "6T", "C",
         "C", "C", "9T"]
    wall := ["9W", "9W", "9B", "9B", "S", "S", "W", "W", "W", "N", "N", "N", "E", "C",
      "F", "F", "F", "F", "P", "P"]
    discards := fun i => if i = 2 then ["9T"] else []
    melds := fun _ => []
    flowers := fun _ => []
    turn := 2
    lastPlayedTile := some "9T"
    lastDiscardSeat := some 2
    reactionContext := none
    gameEnded := false
    turnLocked := false }

/-- A solo table right after seat 3 has discarded `9T`: the automated seat 1
holds two copies of `9T` and does not win on it; no other seat has a claim. -/
def claimTable : Table :=
  { mode := "solo"
    mySeat := 0
    isAI := fun i => decide (i ≠ 0)
    hands := fun i =>
      if i = 0 then
        ["1W", "3W", "5W", "7W", "9W", "1B", "3B", "5B", "7B", "9B", "E", "S", "W",
         "N", "1T", "3T"]
      else if i = 1 then
        ["1B", "1B", "2B", "3B", "4B", "5B", "6B", "7B", "8B", "9B", "C", "C", "F",
         "F", "9T", "9T"]
      else if i = 2 then
        ["1W", "1W", "2W", "2W", "3W", "3W", "4W", "4W", "5W", "5W", "6W", "6W", "7W",
         "7W", "8W", "8W"]
      else
        ["1T", "1T", "2T", "2T", "3T", "4T", "4T", "5T", "5T", "6T", "6T", "7T", "7T",
         "8T", "8T", "P"]
    wall := ["S", "9W", "9B", "9B", "S", "S", "W", "W", "W", "N", "N", "N", "E", "E",
      "E", "C", "C", "F", "F", "P"]
    discards := fun i => if i = 3 then ["9T"] else []
    melds := fun _ => []
    flowers := fun _ => []
    turn := 3
    lastPlayedTile := some "9T"
    lastDiscardSeat := some 3
    reactionContext := none
    gameEnded := false
    turnLocked := false }

/-- The table `claimTable` in a multi-player game that is over. -/
def endedTable : Table :=
  { claimTable with mode := "multi", isAI := fun _ => false, gameEnded := true }

/-! ## Concrete walls, tables and hands for the round flow and the win attributes -/

/-- A shuffle of the wall on which the dealer at seat 0, with a dice sum of 3
(opening index 4), is dealt four `5B`, the ranks 1..9 of suit W and `1T`, `2T`,
`3T`, draws `E` as the first tile, and finds `E` at the tail of the wall; the
eight flowers lie in the middle of the wall. -/
def kongWall : List Tile :=
  ["3W", "6T", "7B", "E", "5B", "5B", "5B", "5B", "1W", "4T", "4B", "W", "2T", "2B", "E", "8W",
   "1B", "F", "6W", "8T", "1W", "2W", "3W", "4W", "9B", "4W", "6T", "7B", "1W", "4T", "6B", "W",
   "2T", "3B", "S", "9W", "5W", "6W", "7W", "8W", "1B", "F", "7W", "8T", "C", "4W", "7T", "8B",
   "2W", "5T", "6B", "N", "9W", "1T", "2T", "3T", "3T", "3B", "S", "1T", "2B", "P", "7W", "9T",
   "C", "5W", "7T", "8B", "E", "3W", "5T", "7B", "N", "4T", "4B", "W", "1T", "2B", "P", "8W",
   "9T", "F", "6W", "8T", "1F", "2F", "3F", "4F", "1P", "2P", "3P", "4P", "9B", "3W", "6T", "7B",
   "1W", "4T", "4B", "W", "2T", "3B", "E", "9W", "1B", "F", "6W", "8T", "9B", "4W", "6T", "8B",
   "2W", "5T", "6B", "N", "3T", "3B", "S", "9W", "1B", "P", "7W", "9T", "C", "5W", "7T", "8B",
   "2W", "5T", "6B", "N", "3T", "4B", "S", "1T", "2B", "P", "8W", "9T", "C", "5W", "7T", "9B"]

/-- The table the game starts with on `kongWall`: single mode, dealer seat 0,
dice sum 3. -/
def kongStart : Table :=
  (initGame "solo" 0 kongWall 0 3).1

/-- The table after the first `startTurn` on `kongStart`: seat 0 has drawn `E`
and is asked to decide on a concealed kong of `5B`. -/
def kongPrompt : Table :=
  (startTurn kongStart).1

/-- A solo table at the start of the turn of seat 0 with 17 tiles in the wall:
one tile can still be drawn, and it is `9B`, no flower. -/
def lastLiveTable : Table :=
  { mode := "solo"
    mySeat := 0
    isAI := fun i => decide (i ≠ 0)
    hands := fun i =>
      if i = 0 then
        ["1W", "3W", "5W", "7W", "9W", "1B", "3B", "5B", "7B", "9B", "E", "S", "W",
         "N", "1T", "3T"]
      else if i = 1 then
        ["1B", "1B", "2B", "3B", "4B", "5B", "6B", "7B", "8B", "9B", "C", "C", "F",
         "F", "2T", "2T"]
      else if i = 2 then
        ["1W", "1W", "2W", "2W", "3W", "3W", "4W", "4W", "5W", "5W", "6W", "6W", "7W",
         "7W", "8W", "8W"]
      else
        ["1T", "1T", "2T", "2T", "3T", "4T", "4T", "5T", "5T", "6T", "6T", "7T", "7T",
         "8T", "8T", "P"]
    wall := ["9B", "S", "S", "W", "W", "W", "N", "N", "N", "E", "E", "E", "C", "C",
      "F", "F", "P"]
    discards := fun i => if i = 3 then ["9T"] else []
    melds := fun _ => []
    flowers := fun _ => []
    turn := 0
    lastPlayedTile := some "9T"
    lastDiscardSeat := some 3
    reactionContext := none
    gameEnded := false
    turnLocked := false }

/-- A winning 17-tile hand of the one suit `s`: the runs 1-2-3, 4-5-6, 7-8-9,
1-2-3, 4-5-6 and the pair 9, 9. -/
def pureHand (s : Char) : List Tile :=
  [numTile 1 s, numTile 2 s, numTile 3 s, numTile 4 s, numTile 5 s, numTile 6 s,
   numTile 7 s, numTile 8 s, numTile 9 s, numTile 1 s, numTile 2 s, numTile 3 s,
   numTile 4 s, numTile 5 s, numTile 6 s, numTile 9 s, numTile 9 s]

/-- A winning 17-tile hand of the suit T with a triplet of the west wind `W`. -/
def westHand : List Tile :=
  ["1T", "2T", "3T", "4T", "5T", "6T", "7T", "8T", "9T", "1T", "2T", "3T", "W", "W", "W",
   "9T", "9T"]

/-- A 16-tile hand with three copies of `5B` that does not win on `5B`. -/
def handThree5B : List Tile :=
  ["1W", "3W", "5W", "7W", "9W", "1T", "3T", "5T", "7T", "9T", "E", "S", "N", "5B", "5B",
   "5B"]

/-- A 16-tile hand with `1W` and `2W` and no copy of `3W`, which does not win
on `3W`. -/
def handChi3W : List Tile :=
  ["1W", "2W", "5W", "7W", "9W", "1T", "3T", "5T", "7T", "9T", "E", "S", "N", "C", "5B",
   "8B"]

/-! ## Theorems: win detection -/

theorem spliceIndexOf_of_mem {xs : List Tile} {t : Tile} (h : t ∈ xs) :
    spliceIndexOf xs t = xs.erase t := by
  simp [spliceIndexOf, h]

theorem isNumSuit_mem {s : Char} (h : IsNumSuit s) : s ∈ ['W', 'T', 'B'] := by
  rcases h with h | h | h <;> simp [h]

theorem numbered_of_suit :
    ∀ t ∈ validCodes, ∀ s, charAt t 1 = some s → IsNumSuit s →
      ∃ r, 1 ≤ r ∧ r ≤ 9 ∧ jsNumberOfChar (charAt t 0) = some r ∧ t = numTile r s := by
  have h : ∀ t ∈ validCodes, ∀ s ∈ ['W', 'T', 'B'], charAt t 1 = some s →
      ∃ r ∈ List.range 10, 1 ≤ r ∧ jsNumberOfChar (charAt t 0) = some r ∧ t = numTile r s := by
    decide
  intro t ht s hs hsuit
  obtain ⟨r, hr, h1, h2, h3⟩ := h t ht s (isNumSuit_mem hsuit) hs
  exact ⟨r, h1, by simpa using Nat.lt_succ_iff.mp (List.mem_range.mp hr), h2, h3⟩

theorem numTile_facts :
    ∀ r ∈ List.range 10, ∀ s ∈ ['W', 'T', 'B'],
      (numTile (r + 2) s ∈ validCodes → r + 2 ≤ 9) ∧
      numTile r s ≠ numTile (r + 1) s ∧ numTile r s ≠ numTile (r + 2) s ∧
      numTile (r + 1) s ≠ numTile (r + 2) s ∧
      charAt (numTile r s) 1 = some s ∧ jsNumberOfChar (charAt (numTile r s) 0) = some r := by
  decide

theorem numTile_order :
    ∀ r ∈ List.range 8, ∀ s ∈ ['W', 'T', 'B'],
      ¬ codeLe (numTile (r + 1) s) (numTile r s) ∧ ¬ codeLe (numTile (r + 2) s) (numTile r s) ∧
      ¬ codeLe (numTile (r + 2) s) (numTile (r + 1) s) := by
  decide

theorem splitToMelds_zero (tiles : List Tile) :
    splitToMelds tiles 0 = true ↔ tiles = [] := by
  simp [splitToMelds]

theorem splitToMelds_succ_true (t : Tile) (rest : List Tile) (need : Nat) :
    splitToMelds (t :: rest) (need + 1) = true ↔
      (need + 1) * 3 ≤ (t :: rest).length ∧
      ((3 ≤ (t :: rest).count t ∧
          splitToMelds (spliceIndexOf (spliceIndexOf (spliceIndexOf (t :: rest) t) t) t) need = true) ∨
       (∃ s, charAt t 1 = some s ∧ IsNumSuit s ∧
          tmpl ((jsNumberOfChar (charAt t 0)).map (fun k => k + 1)) s ∈ t :: rest ∧
          tmpl ((jsNumberOfChar (charAt t 0)).map (fun k => k + 2)) s ∈ t :: rest ∧
          splitToMelds (spliceIndexOf (spliceIndexOf (spliceIndexOf (t :: rest) t)
            (tmpl ((jsNumberOfChar (charAt t 0)).map (fun k => k + 1)) s))
            (tmpl ((jsNumberOfChar (charAt t 0)).map (fun k => k + 2)) s)) need = true)) := by
  rw [splitToMelds]
  have hc : ((t :: rest).filter (fun x => x == t)).length = (t :: rest).count t := by
    rw [List.count_eq_countP, List.countP_eq_length_filter]
  by_cases hlen : (t :: rest).length < (need + 1) * 3
  · simp only [hlen, if_true]
    constructor
    · intro h; cases h
    · intro h; omega
  · simp only [hlen, if_false]
    rw [hc]
    have hlen2 : (need + 1) * 3 ≤ rest.length + 1 := by simpa using hlen
    cases hs : charAt t 1 with
    | none =>
      simp [hlen2]
    | some s =>
      by_cases hsuit : IsNumSuit s
      · have hsuit2 : s = 'W' ∨ s = 'T' ∨ s = 'B' := hsuit
        simp [hlen2, hsuit, hsuit2]
        simp only [and_assoc]
      · have hsuit2 : ¬ (s = 'W' ∨ s = 'T' ∨ s = 'B') := hsuit
        simp [hlen2, hsuit, hsuit2]

theorem validTiles_erase {tiles : List Tile} (h : ValidTiles tiles) (t : Tile) :
    ValidTiles (tiles.erase t) :=
  fun x hx => h x (List.mem_of_mem_erase hx)

theorem perm_erase3 {tiles rest : List Tile} {a b c : Tile}
    (h : tiles.Perm (a :: b :: c :: rest)) :
    a ∈ tiles ∧ b ∈ tiles.erase a ∧ c ∈ (tiles.erase a).erase b ∧
      (((tiles.erase a).erase b).erase c).Perm rest := by
  have h1 : (tiles.erase a).Perm (b :: c :: rest) := by
    simpa using h.erase a
  have h2 : ((tiles.erase a).erase b).Perm (c :: rest) := by
    simpa using h1.erase b
  have h3 : (((tiles.erase a).erase b).erase c).Perm rest := by
    simpa using h2.erase c
  exact ⟨h.mem_iff.mpr (List.mem_cons_self _ _), h1.mem_iff.mpr (List.mem_cons_self _ _),
    h2.mem_iff.mpr (List.mem_cons_self _ _), h3⟩

theorem erase3_perm {tiles : List Tile} {a b c : Tile}
    (ha : a ∈ tiles) (hb : b ∈ tiles.erase a) (hc : c ∈ (tiles.erase a).erase b) :
    tiles.Perm (a :: b :: c :: ((tiles.erase a).erase b).erase c) :=
  (List.perm_cons_erase ha).trans
    (((List.perm_cons_erase hb).trans ((List.perm_cons_erase hc).cons b)).cons a)

theorem splitsInto_cons {tiles rest g : List Tile} {k : Nat} (hg : IsGroup g)
    (hp : tiles.Perm (g ++ rest)) (hr : SplitsInto rest k) : SplitsInto tiles (k + 1) := by
  obtain ⟨groups, hlen, hall, hperm⟩ := hr
  refine ⟨g :: groups, by simp [hlen], ?_, ?_⟩
  · intro x hx
    rcases List.mem_cons.mp hx with rfl | hx
    · exact hg
    · exact hall x hx
  · simpa using hp.trans (hperm.append_left g)

/-- Soundness of the backtracking: a successful call exhibits a partition. -/
theorem splitToMelds_sound (need : Nat) :
    ∀ tiles, ValidTiles tiles → splitToMelds tiles need = true → SplitsInto tiles need := by
  induction need with
  | zero =>
    intro tiles _ h
    rw [splitToMelds_zero] at h
    subst h
    exact ⟨[], rfl, by simp, by simp⟩
  | succ need ih =>
    intro tiles hv h
    cases tiles with
    | nil => simp [splitToMelds] at h
    | cons t rest =>
      rw [splitToMelds_succ_true] at h
      obtain ⟨_, h | h⟩ := h
      · obtain ⟨hc, hs⟩ := h
        have h1 : t ∈ t :: rest := List.mem_cons_self _ _
        have h2 : t ∈ (t :: rest).erase t := by
          rw [← List.count_pos_iff, List.count_erase_self]; omega
        have h3 : t ∈ ((t :: rest).erase t).erase t := by
          rw [← List.count_pos_iff, List.count_erase_self, List.count_erase_self]; omega
        rw [spliceIndexOf_of_mem h1, spliceIndexOf_of_mem h2, spliceIndexOf_of_mem h3] at hs
        have hsplit := ih _ (validTiles_erase (validTiles_erase (validTiles_erase hv _) _) _) hs
        exact splitsInto_cons (IsGroup.triplet t) (by simpa using erase3_perm h1 h2 h3) hsplit
      · obtain ⟨s, hs1, hsuit, ht2, ht3, hs⟩ := h
        obtain ⟨r, hr1, hr9, hn, ht⟩ := numbered_of_suit t (hv t (List.mem_cons_self _ _)) s hs1 hsuit
        rw [hn] at ht2 ht3 hs
        simp only [Option.map_some'] at ht2 ht3 hs
        change numTile (r + 1) s ∈ t :: rest at ht2
        change numTile (r + 2) s ∈ t :: rest at ht3
        have hf := numTile_facts r (List.mem_range.mpr (by omega)) s (isNumSuit_mem hsuit)
        obtain ⟨hf1, hf2, hf3, hf4, _, _⟩ := hf
        have h1 : t ∈ t :: rest := List.mem_cons_self _ _
        have h2 : numTile (r + 1) s ∈ (t :: rest).erase t :=
          (List.mem_erase_of_ne (by rw [ht]; exact fun e => hf2 e.symm)).mpr ht2
        have h3 : numTile (r + 2) s ∈ ((t :: rest).erase t).erase (numTile (r + 1) s) :=
          (List.mem_erase_of_ne (fun e => hf4 e.symm)).mpr
            ((List.mem_erase_of_ne (by rw [ht]; exact fun e => hf3 e.symm)).mpr ht3)
        change splitToMelds (spliceIndexOf (spliceIndexOf (spliceIndexOf (t :: rest) t)
          (numTile (r + 1) s)) (numTile (r + 2) s)) need = true at hs
        rw [spliceIndexOf_of_mem h1, spliceIndexOf_of_mem h2, spliceIndexOf_of_mem h3] at hs
        have hsplit := ih _ (validTiles_erase (validTiles_erase (validTiles_erase hv _) _) _) hs
        have hg : IsGroup [t, numTile (r + 1) s, numTile (r + 2) s] := by
          rw [ht]
          exact IsGroup.run r s hr1 (hf1 (hv _ ht3)) hsuit
        exact splitsInto_cons hg (by simpa using erase3_perm h1 h2 h3) hsplit

theorem isGroup_length {g : List Tile} (h : IsGroup g) : g.length = 3 := by
  cases h <;> rfl

theorem length_flatten_groups (groups : List (List Tile)) (h : ∀ g ∈ groups, IsGroup g) :
    groups.flatten.length = 3 * groups.length := by
  induction groups with
  | nil => rfl
  | cons g gs ih =>
    have h1 := isGroup_length (h g (List.mem_cons_self _ _))
    have h2 := ih (fun x hx => h x (List.mem_cons_of_mem _ hx))
    simp only [List.flatten_cons, List.length_append, List.length_cons, h1, h2]
    omega

theorem splitsInto_length {tiles : List Tile} {k : Nat} (h : SplitsInto tiles k) :
    tiles.length = 3 * k := by
  obtain ⟨groups, hlen, hall, hperm⟩ := h
  rw [hperm.length_eq, length_flatten_groups groups hall, hlen]

theorem sorted_erase {tiles : List Tile} (h : tiles.Sorted codeLe) (t : Tile) :
    (tiles.erase t).Sorted codeLe :=
  List.Pairwise.sublist (List.erase_sublist t tiles) h

/-- Taking one group out of a partition leaves a partition of the rest. -/
theorem splitsInto_take {tiles : List Tile} {groups : List (List Tile)} {g : List Tile}
    (hall : ∀ x ∈ groups, IsGroup x) (hperm : tiles.Perm groups.flatten) (hg : g ∈ groups) :
    ∃ others : List Tile, tiles.Perm (g ++ others) ∧
      ∀ rest : List Tile, rest.Perm others → SplitsInto rest (groups.length - 1) := by
  obtain ⟨l1, l2, rfl⟩ := List.append_of_mem hg
  refine ⟨(l1 ++ l2).flatten, ?_, ?_⟩
  · have h1 : (l1 ++ g :: l2).Perm (g :: (l1 ++ l2)) := List.perm_middle
    simpa using hperm.trans h1.flatten
  · intro rest hrest
    refine ⟨l1 ++ l2, by simp, ?_, hrest⟩
    intro x hx
    apply hall x
    rcases List.mem_append.mp hx with h | h
    · exact List.mem_append_left _ h
    · exact List.mem_append_right _ (List.mem_cons_of_mem _ h)

/-- Completeness of the backtracking on an ascending list: every partition is
found. -/
theorem splitToMelds_complete (need : Nat) :
    ∀ tiles, tiles.Sorted codeLe → SplitsInto tiles need → splitToMelds tiles need = true := by
  induction need with
  | zero =>
    intro tiles _ h
    rw [splitToMelds_zero]
    exact List.length_eq_zero.mp (by simpa using splitsInto_length h)
  | succ need ih =>
    intro tiles hsorted h
    have hlen := splitsInto_length h
    obtain ⟨groups, hglen, hall, hperm⟩ := h
    cases tiles with
    | nil => simp at hlen
    | cons t rest =>
      rw [splitToMelds_succ_true]
      refine ⟨by rw [hlen]; omega, ?_⟩
      have hmin : ∀ x ∈ t :: rest, x = t ∨ codeLe t x := by
        intro x hx
        rcases List.mem_cons.mp hx with h | h
        · exact Or.inl h
        · exact Or.inr (List.rel_of_sorted_cons hsorted x h)
      have htmem : t ∈ groups.flatten := hperm.mem_iff.mp (List.mem_cons_self _ _)
      obtain ⟨g, hg, htg⟩ := List.mem_flatten.mp htmem
      obtain ⟨others, hp, hrest⟩ := splitsInto_take hall hperm hg
      rw [hglen] at hrest
      simp only [Nat.add_sub_cancel] at hrest
      have hgrp := hall g hg
      cases hgrp with
      | triplet x =>
        have hx : t = x := by simpa using htg
        subst hx
        have hp3 : (t :: rest).Perm (t :: t :: t :: others) := hp
        obtain ⟨h1, h2, h3, h4⟩ := perm_erase3 hp3
        left
        refine ⟨?_, ?_⟩
        · rw [hp3.count_eq]; simp
        · rw [spliceIndexOf_of_mem h1, spliceIndexOf_of_mem h2, spliceIndexOf_of_mem h3]
          exact ih _ (sorted_erase (sorted_erase (sorted_erase hsorted _) _) _) (hrest _ h4)
      | run r s hr1 hr9 hsuit =>
        have hf := numTile_facts r (List.mem_range.mpr (by omega)) s (isNumSuit_mem hsuit)
        have ho := numTile_order r (List.mem_range.mpr (by omega)) s (isNumSuit_mem hsuit)
        obtain ⟨_, _, _, _, hf5, hf6⟩ := hf
        obtain ⟨ho1, ho2, ho3⟩ := ho
        have hp3 : (t :: rest).Perm
            (numTile r s :: numTile (r + 1) s :: numTile (r + 2) s :: others) := hp
        have hmem0 : numTile r s ∈ t :: rest := hp3.mem_iff.mpr (by simp)
        have ht : t = numTile r s := by
          rcases hmin _ hmem0 with h | h
          · exact h.symm
          · simp only [List.mem_cons, List.mem_singleton, List.not_mem_nil, or_false] at htg
            rcases htg with h' | h' | h'
            · exact h'
            · rw [h'] at h; exact (ho1 h).elim
            · rw [h'] at h; exact (ho2 h).elim
        obtain ⟨h1, h2, h3, h4⟩ := perm_erase3 hp3
        right
        refine ⟨s, by rw [ht]; exact hf5, hsuit, ?_⟩
        have hn : jsNumberOfChar (charAt t 0) = some r := by rw [ht]; exact hf6
        rw [hn]
        simp only [Option.map_some']
        change numTile (r + 1) s ∈ t :: rest ∧ numTile (r + 2) s ∈ t :: rest ∧
          splitToMelds (spliceIndexOf (spliceIndexOf (spliceIndexOf (t :: rest) t)
            (numTile (r + 1) s)) (numTile (r + 2) s)) need = true
        refine ⟨hp3.mem_iff.mpr (by simp), hp3.mem_iff.mpr (by simp), ?_⟩
        rw [ht] at h1 h2 h3 h4 hsorted ⊢
        rw [spliceIndexOf_of_mem h1, spliceIndexOf_of_mem h2, spliceIndexOf_of_mem h3]
        exact ih _ (sorted_erase (sorted_erase (sorted_erase hsorted _) _) _) (hrest _ h4)

theorem mapGet_mapIncr (m : List (Tile × Nat)) (t k : Tile) :
    mapGet (mapIncr m t) k =
      if k = t then some ((mapGet m t).getD 0 + 1) else mapGet m k := by
  induction m with
  | nil =>
    by_cases h : k = t
    · subst h; simp [mapGet, mapIncr]
    · have h2 : ¬ t = k := fun e => h e.symm
      simp [mapGet, mapIncr, h, h2]
  | cons p rest ih =>
    obtain ⟨a, c⟩ := p
    by_cases hat : a = t
    · subst hat
      by_cases hk : k = a
      · subst hk; simp [mapGet, mapIncr]
      · have h2 : ¬ a = k := fun e => hk e.symm
        simp [mapGet, mapIncr, hk, h2]
    · by_cases hk : k = t
      · subst hk
        have ih2 := ih
        simp only [mapGet, if_true] at ih2
        simp [mapGet, mapIncr, hat, ih2]
      · have ih2 := ih
        simp only [mapGet, hk, if_false] at ih2
        by_cases hak : a = k
        · simp [mapGet, mapIncr, hat, hk, hak]
        · simp [mapGet, mapIncr, hat, hk, hak, ih2]

theorem mapGet_foldl (tiles : List Tile) (m : List (Tile × Nat)) (k : Tile) :
    mapGet (tiles.foldl mapIncr m) k =
      if tiles.count k = 0 then mapGet m k else some ((mapGet m k).getD 0 + tiles.count k) := by
  induction tiles generalizing m with
  | nil => simp
  | cons t rest ih =>
    rw [List.foldl_cons, ih, mapGet_mapIncr]
    by_cases hk : k = t
    · subst hk
      by_cases hc : List.count k rest = 0
      · simp [hc]
      · simp [hc]; omega
    · have hne : ¬ t = k := fun e => hk e.symm
      have hcnt : List.count k (t :: rest) = List.count k rest := by
        simp [List.count_cons, hne]
      simp [hk, hcnt]

theorem mapGet_countTiles (tiles : List Tile) (k : Tile) :
    mapGet (countTiles tiles) k = if tiles.count k = 0 then none else some (tiles.count k) := by
  rw [countTiles, mapGet_foldl]
  simp [mapGet]

theorem mem_mapKeys_iff (m : List (Tile × Nat)) (k : Tile) :
    k ∈ mapKeys m ↔ (mapGet m k).isSome = true := by
  induction m with
  | nil => simp [mapKeys, mapGet]
  | cons p rest ih =>
    obtain ⟨a, c⟩ := p
    by_cases h : a = k
    · simp [mapKeys, mapGet, h]
    · have h2 : ¬ k = a := fun e => h e.symm
      simp only [mapKeys, mapGet] at ih
      simp [mapKeys, mapGet, h, h2, ih]

theorem mem_mapKeys_countTiles (tiles : List Tile) (k : Tile) :
    k ∈ mapKeys (countTiles tiles) ↔ k ∈ tiles := by
  rw [mem_mapKeys_iff, mapGet_countTiles]
  by_cases h : tiles.count k = 0
  · simp [h, List.count_eq_zero.mp h]
  · have : k ∈ tiles := List.count_pos_iff.mp (Nat.pos_of_ne_zero h)
    simp [h, this]

theorem mapKeys_mapIncr (m : List (Tile × Nat)) (t : Tile) :
    mapKeys (mapIncr m t) = if t ∈ mapKeys m then mapKeys m else mapKeys m ++ [t] := by
  induction m with
  | nil => simp [mapKeys, mapIncr]
  | cons p rest ih =>
    obtain ⟨a, c⟩ := p
    by_cases h : a = t
    · simp [mapKeys, mapIncr, h]
    · have h2 : ¬ t = a := fun e => h e.symm
      simp only [mapKeys] at ih
      by_cases hm : t ∈ List.map (fun p => p.1) rest
      · simp only [hm, if_true] at ih
        simp [mapKeys, mapIncr, h, h2, ih, hm]
      · simp only [hm, if_false] at ih
        simp [mapKeys, mapIncr, h, h2, ih, hm]

theorem nodup_mapKeys_foldl (tiles : List Tile) (m : List (Tile × Nat))
    (h : (mapKeys m).Nodup) : (mapKeys (tiles.foldl mapIncr m)).Nodup := by
  induction tiles generalizing m with
  | nil => simpa using h
  | cons t rest ih =>
    rw [List.foldl_cons]
    apply ih
    rw [mapKeys_mapIncr]
    by_cases hm : t ∈ mapKeys m
    · simpa [hm] using h
    · simp only [hm, if_false]
      exact List.Nodup.append h (List.nodup_singleton t) (by simpa using hm)

theorem nodup_mapKeys_countTiles (tiles : List Tile) : (mapKeys (countTiles tiles)).Nodup :=
  nodup_mapKeys_foldl tiles [] (by simp [mapKeys])

/-- The number of keys of the count map is the number of distinct tiles. -/
theorem length_mapKeys_countTiles (tiles : List Tile) :
    (mapKeys (countTiles tiles)).length = tiles.dedup.length := by
  apply List.Perm.length_eq
  rw [List.perm_ext_iff_of_nodup (nodup_mapKeys_countTiles tiles) (List.nodup_dedup tiles)]
  intro a
  rw [mem_mapKeys_countTiles, List.mem_dedup]

theorem jsSort_sorted (xs : List Tile) : (jsSort xs).Sorted codeLe :=
  List.sorted_insertionSort codeLe xs

theorem jsSort_perm (xs : List Tile) : (jsSort xs).Perm xs :=
  List.perm_insertionSort codeLe xs

theorem splitsInto_perm {a b : List Tile} {k : Nat} (h : a.Perm b) (hs : SplitsInto a k) :
    SplitsInto b k := by
  obtain ⟨groups, h1, h2, h3⟩ := hs
  exact ⟨groups, h1, h2, h.symm.trans h3⟩

theorem basicWin_iff (hand : List Tile) (need : Nat) (hv : ValidTiles hand) :
    basicWin hand need = true ↔ StandardSplit hand need := by
  unfold basicWin
  simp only [List.any_eq_true]
  constructor
  · rintro ⟨t, _, h⟩
    rw [mapGet_countTiles] at h
    by_cases hc0 : hand.count t = 0
    · simp [hc0] at h
    · simp only [hc0, if_false] at h
      by_cases hc2 : hand.count t ≥ 2
      · simp only [hc2, if_true] at h
        have h1 : t ∈ hand := List.count_pos_iff.mp (by omega)
        have h2 : t ∈ hand.erase t := by
          rw [← List.count_pos_iff, List.count_erase_self]; omega
        rw [spliceIndexOf_of_mem h1, spliceIndexOf_of_mem h2] at h
        have hv2 : ValidTiles (jsSort ((hand.erase t).erase t)) := by
          intro x hx
          exact validTiles_erase (validTiles_erase hv t) t x ((jsSort_perm _).mem_iff.mp hx)
        have hs := splitToMelds_sound need _ hv2 h
        refine ⟨t, jsSort ((hand.erase t).erase t), ?_, hs⟩
        exact (List.perm_cons_erase h1).trans
          (((List.perm_cons_erase h2).trans ((jsSort_perm _).symm.cons t)).cons t)
      · simp [hc2] at h
  · rintro ⟨p, rest, hperm, hs⟩
    have hcount : hand.count p ≥ 2 := by
      rw [hperm.count_eq]; simp
    have h1 : p ∈ hand := List.count_pos_iff.mp (by omega)
    have hr1 : (hand.erase p).Perm (p :: rest) := by
      have := hperm.erase p
      rwa [List.erase_cons_head] at this
    have h2 : p ∈ hand.erase p := hr1.mem_iff.mpr (List.mem_cons_self _ _)
    have hr2 : ((hand.erase p).erase p).Perm rest := by
      have := hr1.erase p
      rwa [List.erase_cons_head] at this
    refine ⟨p, (mem_mapKeys_countTiles hand p).mpr h1, ?_⟩
    rw [mapGet_countTiles]
    have hc0 : ¬ hand.count p = 0 := by omega
    simp only [hc0, if_false, hcount, if_true]
    rw [spliceIndexOf_of_mem h1, spliceIndexOf_of_mem h2]
    apply splitToMelds_complete need _ (jsSort_sorted _)
    exact splitsInto_perm ((jsSort_perm _).trans hr2).symm hs

theorem checkHu_canHu (hand : List Tile) (melds : List Meld) (lastTile : Option Tile)
    (isSelfDraw : Bool) :
    (checkHu hand melds lastTile isSelfDraw).canHu =
      (decide (melds.length ≤ 5) && (basicWin hand (5 - melds.length) || isSevenPairs hand)) := by
  unfold checkHu
  by_cases h5 : 5 < melds.length
  · have : ¬ melds.length ≤ 5 := by omega
    simp [h5, this]
  · have h5b : melds.length ≤ 5 := by omega
    simp only [h5, if_false, h5b, decide_True, Bool.true_and]
    cases hb : basicWin hand (5 - melds.length) <;> cases hp : isSevenPairs hand <;> simp

theorem checkHu_fanInfo (hand : List Tile) (melds : List Meld) (lastTile : Option Tile)
    (isSelfDraw : Bool) (h : (checkHu hand melds lastTile isSelfDraw).canHu = true) :
    (checkHu hand melds lastTile isSelfDraw).fanInfo =
      some ⟨isSelfDraw, lastTile, isSevenPairs hand, checkMenQing melds, checkColor hand⟩ := by
  unfold checkHu at h ⊢
  by_cases h5 : 5 < melds.length
  · simp [h5] at h
  · simp only [h5, if_false] at h ⊢
    cases hb : basicWin hand (5 - melds.length) <;> cases hp : isSevenPairs hand <;>
      simp [hb, hp] at h ⊢

theorem isSevenPairs_iff (hand : List Tile) :
    isSevenPairs hand = true ↔ SevenPairsShape hand := by
  unfold isSevenPairs SevenPairsShape
  by_cases h14 : hand.length = 14
  · by_cases h7 : hand.dedup.length = 7
    · simp only [h14, h7, length_mapKeys_countTiles, ne_eq, not_true_eq_false, if_false,
        true_and, List.all_eq_true]
      constructor
      · intro h t ht
        have := h t ((mem_mapKeys_countTiles hand t).mpr ht)
        rw [mapGet_countTiles] at this
        by_cases hc : hand.count t = 0
        · simp [hc] at this
        · simpa [hc] using this
      · intro h t ht
        have ht2 := (mem_mapKeys_countTiles hand t).mp ht
        rw [mapGet_countTiles, h t ht2]
        simp
    · simp [h14, h7, length_mapKeys_countTiles]
  · simp [h14]

theorem standardSplit_length {hand : List Tile} {k : Nat} (h : StandardSplit hand k) :
    hand.length = 3 * k + 2 := by
  obtain ⟨p, rest, hperm, hs⟩ := h
  rw [hperm.length_eq]
  simp [splitsInto_length hs]

theorem numTile_inj :
    ∀ r ∈ List.range 10, ∀ s ∈ ['W', 'T', 'B'], ∀ q ∈ List.range 10, ∀ u ∈ ['W', 'T', 'B'],
      numTile r s = numTile q u → r = q ∧ s = u := by
  decide

theorem honor_not_numTile :
    ∀ t ∈ honorCodes, ∀ q ∈ List.range 10, ∀ u ∈ ['W', 'T', 'B'], t ≠ numTile q u := by
  decide

/-- A tile that is isolated in a hand lies in no standard split of it. -/
theorem isolated_no_split {hand : List Tile} {t : Tile} (hiso : IsolatedIn t hand) (k : Nat) :
    ¬ StandardSplit hand k := by
  rintro ⟨p, rest, hperm, groups, _, hall, hrest⟩
  obtain ⟨hcount, hkind⟩ := hiso
  have hp2 : hand.Perm (p :: p :: groups.flatten) := hperm.trans ((hrest.cons p).cons p)
  have htmem : t ∈ p :: p :: groups.flatten :=
    hp2.mem_iff.mp (List.count_pos_iff.mp (by omega))
  have hcnt : (p :: p :: groups.flatten).count t = 1 := by rw [← hp2.count_eq]; exact hcount
  have hne : ¬ p = t := by
    intro e
    subst e
    simp at hcnt
  have htg : t ∈ groups.flatten := by
    rcases List.mem_cons.mp htmem with h | h
    · exact (hne h.symm).elim
    · rcases List.mem_cons.mp h with h | h
      · exact (hne h.symm).elim
      · exact h
  obtain ⟨g, hg, htin⟩ := List.mem_flatten.mp htg
  have hsub : ∀ x ∈ g, x ∈ hand := fun x hx =>
    hp2.mem_iff.mpr (List.mem_cons_of_mem _ (List.mem_cons_of_mem _
      (List.mem_flatten.mpr ⟨g, hg, hx⟩)))
  obtain ⟨l1, l2, rfl⟩ := List.append_of_mem hg
  have hgrp := hall g hg
  cases hgrp with
  | triplet x =>
    have hx : t = x := by simpa using htin
    subst hx
    simp [List.count_cons, hne] at hcnt
    omega
  | run q u hq1 hq9 hu =>
    have hmem0 := hsub (numTile q u) (by simp)
    have hmem1 := hsub (numTile (q + 1) u) (by simp)
    have hmem2 := hsub (numTile (q + 2) u) (by simp)
    rcases hkind with hh | ⟨r, s, hr1, hr9, hs, ht, hfar⟩
    · simp only [List.mem_cons, List.mem_singleton, List.not_mem_nil, or_false] at htin
      rcases htin with h | h | h
      · exact honor_not_numTile t hh q (List.mem_range.mpr (by omega)) u (isNumSuit_mem hu) h
      · exact honor_not_numTile t hh (q + 1) (List.mem_range.mpr (by omega)) u
          (isNumSuit_mem hu) h
      · exact honor_not_numTile t hh (q + 2) (List.mem_range.mpr (by omega)) u
          (isNumSuit_mem hu) h
    · have inj := fun (a : Nat) (ha : a < 10) (e : numTile r s = numTile a u) =>
        numTile_inj r (List.mem_range.mpr (by omega)) s (isNumSuit_mem hs) a
          (List.mem_range.mpr ha) u (isNumSuit_mem hu) e
      simp only [List.mem_cons, List.mem_singleton, List.not_mem_nil, or_false] at htin
      rw [ht] at htin
      rcases htin with h | h | h
      · obtain ⟨e1, e2⟩ := inj q (by omega) h
        subst e1 e2
        exact hfar (r + 1) (by omega) (by omega) (by omega) hmem1
      · obtain ⟨e1, e2⟩ := inj (q + 1) (by omega) h
        subst e1 e2
        exact hfar q (by omega) (by omega) (by omega) hmem0
      · obtain ⟨e1, e2⟩ := inj (q + 2) (by omega) h
        subst e1 e2
        exact hfar q (by omega) (by omega) (by omega) hmem0

/-- C1. Standard win detection is exact: for a hand of valid tile codes and at
most five melds, (a) a split of the hand into one pair plus exactly
`5 - melds.length` groups makes `checkHu` answer `canHu = true`, and (b) an
answer `canHu = true` whose `fanInfo.isSevenPairs` is `false` comes with such a
split. -/
theorem checkHu_standard_exact (hand : List Tile) (melds : List Meld) (lastTile : Option Tile)
    (isSelfDraw : Bool) (hv : ValidTiles hand) (hm : melds.length ≤ 5) :
    (StandardSplit hand (5 - melds.length) →
        (checkHu hand melds lastTile isSelfDraw).canHu = true) ∧
      ((checkHu hand melds lastTile isSelfDraw).canHu = true →
        (checkHu hand melds lastTile isSelfDraw).fanInfo.map FanInfo.isSevenPairs = some false →
        StandardSplit hand (5 - melds.length)) := by
  constructor
  · intro h
    rw [checkHu_canHu, (basicWin_iff hand _ hv).mpr h]
    simp [hm]
  · intro hc hf
    rw [checkHu_fanInfo hand melds lastTile isSelfDraw hc] at hf
    simp only [Option.map_some', Option.some.injEq] at hf
    rw [checkHu_canHu, hf] at hc
    simp only [Bool.or_false, Bool.and_eq_true, decide_eq_true_eq] at hc
    exact (basicWin_iff hand _ hv).mp hc.2

/-- Witness for C1: the 17-tile hand `hand17` with no meld. -/
theorem checkHu_standard_exact_witness :
    (StandardSplit hand17 (5 - ([] : List Meld).length) →
        (checkHu hand17 [] none true).canHu = true) ∧
      ((checkHu hand17 [] none true).canHu = true →
        (checkHu hand17 [] none true).fanInfo.map FanInfo.isSevenPairs = some false →
        StandardSplit hand17 (5 - ([] : List Meld).length)) :=
  checkHu_standard_exact hand17 [] none true (by decide) (by decide)

/-- C2, as the claim states it, fails: the 14-tile hand of suit W with an
empty meld list is not a win, because five groups are then required. -/
theorem hand14_no_meld_not_win :
    (checkHu (hand14 'W') [] none true).canHu = false := by
  decide

/-- C2 amended. For each numbered suit the 14-tile hand (ranks 1..9, then
1, 2, 3, then the pair 9, 9) wins when the meld list holds exactly one meld,
so that four groups are required of the hand; with an empty meld list
`checkHu` answers `canHu = false`. -/
theorem hand14_wins_with_one_meld :
    (∀ (m : Meld) (lastTile : Option Tile) (isSelfDraw : Bool),
        (checkHu (hand14 'W') [m] lastTile isSelfDraw).canHu = true ∧
        (checkHu (hand14 'T') [m] lastTile isSelfDraw).canHu = true ∧
        (checkHu (hand14 'B') [m] lastTile isSelfDraw).canHu = true) ∧
      (∀ (lastTile : Option Tile) (isSelfDraw : Bool),
        (checkHu (hand14 'W') [] lastTile isSelfDraw).canHu = false ∧
        (checkHu (hand14 'T') [] lastTile isSelfDraw).canHu = false ∧
        (checkHu (hand14 'B') [] lastTile isSelfDraw).canHu = false) := by
  have w4 : basicWin (hand14 'W') 4 = true := by decide
  have t4 : basicWin (hand14 'T') 4 = true := by decide
  have b4 : basicWin (hand14 'B') 4 = true := by decide
  have w5 : basicWin (hand14 'W') 5 = false := by decide
  have t5 : basicWin (hand14 'T') 5 = false := by decide
  have b5 : basicWin (hand14 'B') 5 = false := by decide
  have w7 : isSevenPairs (hand14 'W') = false := by decide
  have t7 : isSevenPairs (hand14 'T') = false := by decide
  have b7 : isSevenPairs (hand14 'B') = false := by decide
  constructor
  · intro m lastTile isSelfDraw
    simp [checkHu_canHu, w4, t4, b4]
  · intro lastTile isSelfDraw
    simp [checkHu_canHu, w5, t5, b5, w7, t7, b7]

/-- C3. Seven pairs is a win: a 14-tile hand of tile codes with exactly 7 distinct values,
each occurring exactly twice, with an empty meld list, makes `checkHu` answer
`canHu = true` with `fanInfo.isSevenPairs = true`, although no split into a
pair plus five groups exists. -/
theorem sevenPairs_wins (hand : List Tile) (lastTile : Option Tile) (isSelfDraw : Bool)
    (_hvalid : ValidTiles hand) (hlen : hand.length = 14) (hdistinct : hand.dedup.length = 7)
    (htwice : ∀ t ∈ hand, hand.count t = 2) :
    (checkHu hand [] lastTile isSelfDraw).canHu = true ∧
      (checkHu hand [] lastTile isSelfDraw).fanInfo.map FanInfo.isSevenPairs = some true ∧
      ¬ StandardSplit hand 5 := by
  have h7 : isSevenPairs hand = true := (isSevenPairs_iff hand).mpr ⟨hlen, hdistinct, htwice⟩
  have hc : (checkHu hand [] lastTile isSelfDraw).canHu = true := by
    rw [checkHu_canHu, h7]; simp
  refine ⟨hc, ?_, ?_⟩
  · rw [checkHu_fanInfo hand [] lastTile isSelfDraw hc, h7]; rfl
  · intro h
    have := standardSplit_length h
    omega

/-- Witness for C3: the hand `pairs14`. -/
theorem sevenPairs_wins_witness :
    (checkHu pairs14 [] none true).canHu = true ∧
      (checkHu pairs14 [] none true).fanInfo.map FanInfo.isSevenPairs = some true ∧
      ¬ StandardSplit pairs14 5 :=
  sevenPairs_wins pairs14 none true (by decide) (by decide) (by decide) (by decide)

/-- C4, as the claim states it, fails: with one exposed meld the seven-pairs
hand `pairs14` is a win flagged `isSevenPairs = true`, although it has no
split into a pair plus four groups. -/
theorem pairs14_wins_with_meld :
    (checkHu pairs14 [Meld.arr ["C", "C", "C"] false] (some "1B") false).canHu = true ∧
      (checkHu pairs14 [Meld.arr ["C", "C", "C"] false] (some "1B") false).fanInfo.map
        FanInfo.isSevenPairs = some true ∧
      ¬ StandardSplit pairs14 (5 - [Meld.arr ["C", "C", "C"] false].length) := by
  refine ⟨by decide, by decide, ?_⟩
  intro h
  have hb : basicWin pairs14 4 = false := by decide
  have := (basicWin_iff pairs14 4 (by decide)).mpr h
  rw [hb] at this
  cases this

/-- C4 amended. The seven-pairs test of `checkHu` does not consult the meld
list: for every hand of valid tile codes and every meld list, the non-empty
ones among them,
`canHu = true` holds only if the standard split into a pair plus
`5 - melds.length` groups exists or the hand has the seven-pairs shape;
`fanInfo.isSevenPairs` is true exactly when the hand has that shape; and with
at most five melds a hand of that shape is a win. -/
theorem sevenPairs_ignores_melds (hand : List Tile) (melds : List Meld)
    (lastTile : Option Tile) (isSelfDraw : Bool) (hv : ValidTiles hand) :
    ((checkHu hand melds lastTile isSelfDraw).canHu = true →
        StandardSplit hand (5 - melds.length) ∨ SevenPairsShape hand) ∧
      (∀ f, (checkHu hand melds lastTile isSelfDraw).fanInfo = some f →
        (f.isSevenPairs = true ↔ SevenPairsShape hand)) ∧
      (melds.length ≤ 5 → SevenPairsShape hand →
        (checkHu hand melds lastTile isSelfDraw).canHu = true ∧
        (checkHu hand melds lastTile isSelfDraw).fanInfo.map FanInfo.isSevenPairs = some true) := by
  refine ⟨?_, ?_, ?_⟩
  · intro hc
    rw [checkHu_canHu] at hc
    simp only [Bool.and_eq_true, decide_eq_true_eq, Bool.or_eq_true] at hc
    rcases hc.2 with h | h
    · exact Or.inl ((basicWin_iff hand _ hv).mp h)
    · exact Or.inr ((isSevenPairs_iff hand).mp h)
  · intro f hf
    have hc : (checkHu hand melds lastTile isSelfDraw).canHu = true := by
      unfold checkHu at hf ⊢
      by_cases h5 : 5 < melds.length
      · simp [h5] at hf
      · simp only [h5, if_false] at hf ⊢
        cases hb : basicWin hand (5 - melds.length) <;> cases hp : isSevenPairs hand <;>
          simp [hb, hp] at hf ⊢
    rw [checkHu_fanInfo hand melds lastTile isSelfDraw hc] at hf
    simp only [Option.some.injEq] at hf
    subst hf
    exact isSevenPairs_iff hand
  · intro h5 hshape
    have h7 := (isSevenPairs_iff hand).mpr hshape
    have hc : (checkHu hand melds lastTile isSelfDraw).canHu = true := by
      rw [checkHu_canHu, h7]; simp [h5]
    refine ⟨hc, ?_⟩
    rw [checkHu_fanInfo hand melds lastTile isSelfDraw hc, h7]; rfl

/-- Witness for the amended C4: `pairs14` with one meld. -/
theorem sevenPairs_ignores_melds_witness :
    ((checkHu pairs14 [Meld.arr ["C", "C", "C"] false] none false).canHu = true →
        StandardSplit pairs14 (5 - [Meld.arr ["C", "C", "C"] false].length) ∨
          SevenPairsShape pairs14) ∧
      (∀ f, (checkHu pairs14 [Meld.arr ["C", "C", "C"] false] none false).fanInfo = some f →
        (f.isSevenPairs = true ↔ SevenPairsShape pairs14)) ∧
      ([Meld.arr ["C", "C", "C"] false].length ≤ 5 → SevenPairsShape pairs14 →
        (checkHu pairs14 [Meld.arr ["C", "C", "C"] false] none false).canHu = true ∧
        (checkHu pairs14 [Meld.arr ["C", "C", "C"] false] none false).fanInfo.map
          FanInfo.isSevenPairs = some true) :=
  sevenPairs_ignores_melds pairs14 [Meld.arr ["C", "C", "C"] false] none false (by decide)

/-- C5. A hand of valid tile codes that contains an isolated tile (a value
occurring exactly once that is an honor, or a numbered tile with no other tile
of its suit within two ranks) is never a win: `checkHu` answers
`canHu = false` for every meld list. -/
theorem isolated_tile_never_wins (hand : List Tile) (melds : List Meld)
    (lastTile : Option Tile) (isSelfDraw : Bool) (t : Tile)
    (hv : ValidTiles hand) (hiso : IsolatedIn t hand) :
    (checkHu hand melds lastTile isSelfDraw).canHu = false := by
  rw [checkHu_canHu]
  have hb : basicWin hand (5 - melds.length) = false := by
    cases h : basicWin hand (5 - melds.length) with
    | false => rfl
    | true => exact (isolated_no_split hiso _ ((basicWin_iff hand _ hv).mp h)).elim
  have h7 : isSevenPairs hand = false := by
    cases h : isSevenPairs hand with
    | false => rfl
    | true =>
      have hs := (isSevenPairs_iff hand).mp h
      have hmem : t ∈ hand := List.count_pos_iff.mp (by rw [hiso.1]; omega)
      have := hs.2.2 t hmem
      rw [hiso.1] at this
      cases this
  simp [hb, h7]

/-- Witness for C5: the winning hand `hand17` with one `9W` swapped for the
honor `N`, which is then isolated. -/
theorem isolated_tile_never_wins_witness :
    (checkHu ["1W", "2W", "3W", "4W", "5W", "6W", "7W", "8W", "9W", "1W", "2W", "3W",
      "E", "E", "E", "9W", "N"] [] none true).canHu = false :=
  isolated_tile_never_wins _ [] none true "N" (by decide)
    ⟨by decide, Or.inl (by decide)⟩

/-! ## Theorems: tile conservation -/

theorem length_sortHand (hand : List Tile) : (sortHand hand).length = hand.length :=
  List.length_insertionSort _ hand

theorem length_removeFirstN (t : Tile) (k : Nat) (xs : List Tile) :
    (removeFirstN t k xs).length + min k (xs.count t) = xs.length := by
  induction xs generalizing k with
  | nil => cases k <;> simp [removeFirstN]
  | cons x xs ih =>
    cases k with
    | zero => simp [removeFirstN]
    | succ k =>
      by_cases h : x = t
      · subst h
        have := ih k
        simp only [removeFirstN, if_true, List.count_cons_self, List.length_cons]
        omega
      · have := ih (k + 1)
        have hc : List.count t (x :: xs) = List.count t xs := by
          simp [List.count_cons, h]
        simp only [removeFirstN, h, if_false, List.length_cons, hc]
        omega

theorem length_removeLastN (t : Tile) (k : Nat) (xs : List Tile) :
    (removeLastN t k xs).length + min k (xs.count t) = xs.length := by
  have := length_removeFirstN t k xs.reverse
  simpa [removeLastN] using this

theorem length_removeLastN_of_le {t : Tile} {k : Nat} {xs : List Tile} (h : k ≤ xs.count t) :
    (removeLastN t k xs).length + k = xs.length := by
  have := length_removeLastN t k xs
  rwa [Nat.min_eq_left h] at this

theorem length_removeLast_one {t : Tile} {xs : List Tile} (h : t ∈ xs) :
    (removeLastN t 1 xs).length + 1 = xs.length :=
  length_removeLastN_of_le (List.count_pos_iff.mpr h)

theorem length_removeIfPresent {t : Tile} {xs : List Tile} (h : t ∈ xs) :
    (removeIfPresent xs t).length + 1 = xs.length := by
  have hpos : 0 < xs.length := List.length_pos_of_mem h
  simp only [removeIfPresent, List.length_erase_of_mem h]
  omega

theorem flowerLoop_total (w hand acc : List Tile) :
    (flowerLoop w hand acc).1.length + (flowerLoop w hand acc).2.1.length +
        (flowerLoop w hand acc).2.2.length =
      hand.length + w.length + acc.length := by
  induction w generalizing hand acc with
  | nil => simp [flowerLoop]
  | cons r rest ih =>
    cases hf : hand.find? isFlower with
    | none => simp [flowerLoop, hf]
    | some f =>
      have hmem : f ∈ hand := List.mem_of_find?_eq_some hf
      have hlen := length_removeIfPresent hmem
      simp only [removeIfPresent] at hlen
      simp only [flowerLoop, hf]
      rw [ih]
      simp only [List.length_append, List.length_cons, List.length_nil]
      omega

theorem autoCatchFlowers_total (hand wall : List Tile) :
    (autoCatchFlowers hand wall).1.length + (autoCatchFlowers hand wall).2.1.length +
        (autoCatchFlowers hand wall).2.2.length =
      hand.length + wall.length := by
  have := flowerLoop_total wall.reverse hand []
  simpa [autoCatchFlowers] using this

theorem seatSum_update {α : Type} (F : α → Nat) (g : Fin 4 → α) (seat : Fin 4) (v : α) :
    seatSum (fun i => F (Function.update g seat v i)) + F (g seat) =
      seatSum (fun i => F (g i)) + F v := by
  fin_cases seat <;> simp [seatSum, Function.update] <;> omega

theorem totalTiles_catchFlowers (s : Table) (seat : Fin 4) :
    totalTiles (catchFlowers s seat) = totalTiles s := by
  have h := autoCatchFlowers_total (s.hands seat) s.wall
  have h1 := seatSum_update List.length s.hands seat (autoCatchFlowers (s.hands seat) s.wall).1
  have h2 := seatSum_update List.length s.flowers seat
    (s.flowers seat ++ (autoCatchFlowers (s.hands seat) s.wall).2.2)
  simp only [List.length_append] at h2
  simp only [totalTiles, catchFlowers]
  omega

theorem playTile_total (s : Table) (seat : Fin 4) (tile : Tile) (h : tile ∈ s.hands seat) :
    totalTiles (playTile s seat tile).1 = totalTiles s := by
  unfold playTile
  by_cases he : s.gameEnded = true
  · simp [he]
  · by_cases hl : s.turnLocked = true
    · simp [he, hl]
    · have h1 := seatSum_update List.length s.hands seat
        (sortHand (removeIfPresent (s.hands seat) tile))
      have h2 := seatSum_update List.length s.discards seat (s.discards seat ++ [tile])
      have h3 := length_removeIfPresent h
      rw [length_sortHand] at h1
      simp only [List.length_append, List.length_cons, List.length_nil] at h2
      by_cases hm : s.mode = "multi" <;>
        simp only [he, hl, hm, Bool.false_eq_true, ↓reduceIte, totalTiles] <;> omega

theorem handleNoTileDraw_total (s : Table) : totalTiles (handleNoTileDraw s) = totalTiles s := by
  unfold handleNoTileDraw
  by_cases he : s.gameEnded = true <;> simp [he, totalTiles]

theorem afterDraw_total (s3 : Table) (drawnTile : Tile) :
    totalTiles (afterDraw s3 drawnTile).1 = totalTiles s3 := by
  have h1 := seatSum_update List.length s3.hands s3.turn (sortHand (s3.hands s3.turn))
  rw [length_sortHand] at h1
  unfold afterDraw
  simp only []
  split
  · simp only [totalTiles]; omega
  · split
    · simp only [totalTiles]; omega
    · split
      · simp only [totalTiles]; omega
      · simp only [totalTiles]; omega

theorem drawFront_total (s : Table) (drawnTile : Tile) (rest : List Tile)
    (h : s.wall = drawnTile :: rest) :
    totalTiles (drawFront s drawnTile rest) = totalTiles s := by
  have h1 := seatSum_update List.length s.hands s.turn (s.hands s.turn ++ [drawnTile])
  simp only [List.length_append, List.length_cons, List.length_nil] at h1
  simp only [drawFront, totalTiles, h, List.length_cons]
  omega

theorem startTurn_total (s : Table) (h : "" ∉ s.wall) :
    totalTiles (startTurn s).1 = totalTiles s := by
  unfold startTurn
  by_cases he : s.gameEnded = true
  · simp [he]
  by_cases hl : s.turnLocked = true
  · simp [he, hl]
  by_cases hm : s.mode = "multi" ∧ s.turn ≠ s.mySeat
  · simp [he, hl, hm]
  by_cases hd : getDrawableTileCount s ≤ 0
  · simp only [he, hl, hm, hd, Bool.false_eq_true, ↓reduceIte]
    exact handleNoTileDraw_total s
  simp only [he, hl, hm, hd, Bool.false_eq_true, ↓reduceIte]
  cases hw : s.wall with
  | nil => exact handleNoTileDraw_total s
  | cons drawnTile rest =>
    have hne : drawnTile ≠ "" := by
      intro e
      apply h
      rw [hw, e]
      exact List.mem_cons_self _ _
    simp only [hne, ↓reduceIte]
    have h3 : totalTiles (catchFlowers (drawFront s drawnTile rest) s.turn) = totalTiles s := by
      rw [totalTiles_catchFlowers, drawFront_total s drawnTile rest hw]
    split
    · rw [handleNoTileDraw_total, h3]
    · rw [afterDraw_total, h3]

theorem length_removeChiPartners (tile : Tile) (chiTiles : List Tile) :
    ∀ hand : List Tile, chiTiles.Nodup → (∀ t ∈ chiTiles, t ≠ tile → t ∈ hand) →
      (removeChiPartners hand tile chiTiles).length +
          (chiTiles.filter (fun t => decide (t ≠ tile))).length = hand.length := by
  induction chiTiles with
  | nil => intro hand _ _; simp [removeChiPartners]
  | cons x xs ih =>
    intro hand hnd hmem
    have hnd2 := (List.nodup_cons.mp hnd)
    by_cases hx : x = tile
    · subst hx
      have := ih hand hnd2.2 (fun t ht hne => hmem t (List.mem_cons_of_mem _ ht) hne)
      simpa [removeChiPartners] using this
    · have hxin : x ∈ hand := hmem x (List.mem_cons_self _ _) hx
      have hlen := length_removeIfPresent hxin
      have := ih (removeIfPresent hand x) hnd2.2 (by
        intro t ht hne
        have htx : t ≠ x := fun e => hnd2.1 (e ▸ ht)
        exact (List.mem_erase_of_ne htx).mpr (hmem t (List.mem_cons_of_mem _ ht) hne))
      simp only [removeChiPartners, List.foldl_cons, hx, ne_eq, not_false_eq_true, ↓reduceIte,
        decide_True, List.filter_cons_of_pos, List.length_cons] at this ⊢
      omega

theorem length_filter_ne_of_nodup (tile : Tile) (l : List Tile) (hnd : l.Nodup) (hm : tile ∈ l) :
    (l.filter (fun t => decide (t ≠ tile))).length + 1 = l.length := by
  induction l with
  | nil => cases hm
  | cons x xs ih =>
    have hnd2 := List.nodup_cons.mp hnd
    by_cases hx : x = tile
    · subst hx
      have hall : ∀ t ∈ xs, decide (t ≠ x) = true := by
        intro t ht
        simp only [ne_eq, decide_not, Bool.not_eq_true', decide_eq_false_iff_not]
        exact fun e => hnd2.1 (e ▸ ht)
      have : xs.filter (fun t => decide (t ≠ x)) = xs := List.filter_eq_self.mpr hall
      simp only [ne_eq, not_true_eq_false, decide_False, Bool.false_eq_true, not_false_eq_true,
        List.filter_cons_of_neg, List.length_cons]
      simp only [ne_eq] at this
      rw [this]
    · have hm2 : tile ∈ xs := by
        rcases List.mem_cons.mp hm with h | h
        · exact (hx h.symm).elim
        · exact h
      have := ih hnd2.2 hm2
      simp only [ne_eq, hx, not_false_eq_true, decide_True, List.filter_cons_of_pos,
        List.length_cons] at this ⊢
      omega

theorem chiReady_length {hand : List Tile} {tile : Tile} {chiTiles : List Tile}
    (h : ChiReady hand tile chiTiles) :
    (removeChiPartners hand tile chiTiles).length + chiTiles.length = hand.length + 1 := by
  have h1 := length_removeChiPartners tile chiTiles hand h.1 h.2.2
  have h2 := length_filter_ne_of_nodup tile chiTiles h.1 h.2.1
  omega

theorem meldTiles_append (ms : List Meld) (m : Meld) :
    meldTiles (ms ++ [m]) = meldTiles ms + (getMeldTiles m).length := by
  simp [meldTiles]

theorem doChiOperation_total (s : Table) (seat : Fin 4) (tile : Tile) (d : Fin 4)
    (chiTiles : List Tile) (hd : tile ∈ s.discards d)
    (hc : ChiReady (s.hands seat) tile chiTiles) :
    totalTiles (doChiOperation s seat tile d chiTiles).1 = totalTiles s := by
  have h1 := seatSum_update List.length s.hands seat
    (sortHand (removeChiPartners (s.hands seat) tile chiTiles))
  have h2 := seatSum_update List.length s.discards d (removeLastN tile 1 (s.discards d))
  have h3 := seatSum_update meldTiles s.melds seat (s.melds seat ++ [Meld.arr chiTiles false])
  have h4 := length_removeLast_one hd
  have h5 := chiReady_length hc
  rw [length_sortHand] at h1
  rw [meldTiles_append] at h3
  simp only [getMeldTiles] at h3
  simp only [doChiOperation, totalTiles]
  omega

theorem doPongOperation_total (s : Table) (seat : Fin 4) (tile : Tile) (d : Fin 4)
    (hd : tile ∈ s.discards d) (hc : 2 ≤ (s.hands seat).count tile) :
    totalTiles (doPongOperation s seat tile d).1 = totalTiles s := by
  have h1 := seatSum_update List.length s.hands seat (sortHand (removeLastN tile 2 (s.hands seat)))
  have h2 := seatSum_update List.length s.discards d (removeLastN tile 1 (s.discards d))
  have h3 := seatSum_update meldTiles s.melds seat
    (s.melds seat ++ [Meld.arr [tile, tile, tile] false])
  have h4 := length_removeLast_one hd
  have h5 := length_removeLastN_of_le hc
  rw [length_sortHand] at h1
  rw [meldTiles_append] at h3
  simp only [getMeldTiles, List.length_cons, List.length_nil] at h3
  simp only [doPongOperation, totalTiles]
  omega

theorem length_dropLast_getLast {wall : List Tile} {added : Tile}
    (h : wall.getLast? = some added) : wall.dropLast.length + 1 = wall.length := by
  cases wall with
  | nil => simp at h
  | cons x xs => simp

theorem doKongOperation_total (s : Table) (seat : Fin 4) (kongInfo : KongResult) (d : Fin 4)
    (t : Tile) (hw : s.wall ≠ []) (ht : kongInfo.tiles = some [t, t, t, t])
    (hd : t ∈ s.discards d) (hc : 3 ≤ (s.hands seat).count t) :
    ∃ r, doKongOperation s seat kongInfo d = some r ∧ totalTiles r.1 = totalTiles s := by
  obtain ⟨added, hadd⟩ : ∃ added, s.wall.getLast? = some added := by
    cases hg : s.wall.getLast? with
    | none => exact (hw (List.getLast?_eq_none_iff.mp hg)).elim
    | some a => exact ⟨a, rfl⟩
  have h1 := seatSum_update List.length s.hands seat (removeLastN t 3 (s.hands seat) ++ [added])
  have h2 := seatSum_update List.length s.discards d (removeLastN t 1 (s.discards d))
  have h3 := seatSum_update meldTiles s.melds seat
    (s.melds seat ++ [Meld.arr [t, t, t, t] false])
  have h4 := length_removeLast_one hd
  have h5 := length_removeLastN_of_le hc
  have h6 := length_dropLast_getLast hadd
  rw [meldTiles_append] at h3
  simp only [getMeldTiles, List.length_cons, List.length_nil, List.length_append] at h1 h3
  simp only [doKongOperation, ht, hadd]
  refine ⟨_, rfl, ?_⟩
  generalize hs1 : ({ s with
        discards := Function.update s.discards d (removeLastN t 1 (s.discards d))
        hands := Function.update s.hands seat (removeLastN t 3 (s.hands seat) ++ [added])
        melds := Function.update s.melds seat (s.melds seat ++ [Meld.arr [t, t, t, t] false])
        wall := s.wall.dropLast } : Table) = s1
  have hs1t : totalTiles s1 = totalTiles s := by
    rw [← hs1]
    simp only [totalTiles]
    omega
  have hcf := totalTiles_catchFlowers s1 seat
  generalize catchFlowers s1 seat = s2 at hcf ⊢
  have h7 := seatSum_update List.length s2.hands seat (sortHand (s2.hands seat))
  rw [length_sortHand] at h7
  rw [← hs1t, ← hcf]
  simp only [totalTiles]
  omega

theorem handleAIReaction_total (s : Table) (r : Reaction)
    (h : Ready s (TableOp.handleAIReaction r)) :
    ∃ p, handleAIReaction s r = some p ∧ totalTiles p.1 = totalTiles s := by
  unfold Ready at h
  rcases h with h | ⟨tile, d, hp, hd, hin, h⟩
  · exact ⟨({ s with gameEnded := true, turnLocked := false }, Next.done),
      by simp [handleAIReaction, h], by simp [totalTiles]⟩
  · rcases h with ⟨ha, hc⟩ | ⟨ha, chiTiles, ht, hc⟩ | ⟨ha, hw, kongInfo, hk, ht, hc⟩
    · refine ⟨doPongOperation s r.seat tile d, ?_, doPongOperation_total s r.seat tile d hin hc⟩
      simp [handleAIReaction, ha, hp, hd]
    · refine ⟨doChiOperation s r.seat tile d chiTiles, ?_,
        doChiOperation_total s r.seat tile d chiTiles hin hc⟩
      simp [handleAIReaction, ha, hp, hd, ht]
    · obtain ⟨p, hp1, hp2⟩ := doKongOperation_total s r.seat kongInfo d tile hw ht hin hc
      refine ⟨p, ?_, hp2⟩
      simp [handleAIReaction, ha, hk, hd, hp1]

theorem handleChiFromUI_total (s : Table) (chosenChi : List Tile)
    (h : Ready s (TableOp.handleChiFromUI chosenChi)) :
    ∃ p, handleChiFromUI s chosenChi = some p ∧ totalTiles p.1 = totalTiles s := by
  unfold Ready at h
  unfold handleChiFromUI
  cases hctx : s.reactionContext with
  | none => exact ⟨(s, Next.done), rfl, rfl⟩
  | some ctx =>
    obtain ⟨d, hd, hin, hc⟩ := h ctx hctx
    by_cases he : s.gameEnded = true
    · exact ⟨(s, Next.done), by simp [he], rfl⟩
    · simp only [he, Bool.false_eq_true, ↓reduceIte, hd]
      refine ⟨_, rfl, ?_⟩
      exact doChiOperation_total s ctx.reactorSeat ctx.tile d chosenChi hin hc

theorem checkPong_true {hand : List Tile} {tile : Tile}
    (h : (checkPong hand tile).canPong = true) :
    2 ≤ hand.count tile ∧ (checkPong hand tile).pongTiles = some [tile, tile, tile] := by
  unfold checkPong at h ⊢
  have hc : countTileInHand hand tile = hand.count tile := by
    rw [countTileInHand, List.count_eq_countP, List.countP_eq_length_filter]
  rw [hc] at h ⊢
  by_cases h2 : hand.count tile ≥ 2
  · simp [h2]
  · simp [h2] at h

theorem handlePongFromUI_total (s : Table) (h : Ready s TableOp.handlePongFromUI) :
    ∃ p, handlePongFromUI s = some p ∧ totalTiles p.1 = totalTiles s := by
  unfold Ready at h
  unfold handlePongFromUI
  cases hctx : s.reactionContext with
  | none => exact ⟨(s, Next.done), rfl, rfl⟩
  | some ctx =>
    obtain ⟨d, hd, hin, hp⟩ := h ctx hctx
    by_cases he : s.gameEnded = true
    · exact ⟨(s, Next.done), by simp [he], rfl⟩
    · simp only [he, Bool.false_eq_true, ↓reduceIte, hp]
      by_cases hcan : (checkPong (s.hands ctx.reactorSeat) ctx.tile).canPong = true
      · obtain ⟨hc, ht⟩ := checkPong_true hcan
        simp only [hcan, Bool.not_true, Bool.false_eq_true, ↓reduceIte, hd, ht]
        refine ⟨_, rfl, ?_⟩
        exact doPongOperation_total s ctx.reactorSeat ctx.tile d hin hc
      · simp only [hcan, Bool.not_false, ↓reduceIte]
        exact ⟨(s, Next.done), rfl, rfl⟩

theorem handleHuFromUI_total (s : Table) (h : Ready s TableOp.handleHuFromUI) :
    ∃ p, handleHuFromUI s = some p ∧ totalTiles p.1 = totalTiles s := by
  unfold Ready at h
  unfold handleHuFromUI
  cases hctx : s.reactionContext with
  | none => exact ⟨(s, Next.done), rfl, rfl⟩
  | some ctx =>
    obtain ⟨d, hd, hin⟩ := h ctx hctx
    by_cases he : s.gameEnded = true
    · exact ⟨(s, Next.done), by simp [he], rfl⟩
    · simp only [he, Bool.false_eq_true, ↓reduceIte]
      cases hh : ctx.huInfo with
      | none => exact ⟨(s, Next.done), rfl, rfl⟩
      | some huInfo =>
        by_cases hcan : huInfo.canHu = true
        · simp only [hcan, Bool.not_true, Bool.false_eq_true, ↓reduceIte, hd]
          refine ⟨_, rfl, ?_⟩
          have h1 := seatSum_update List.length s.hands ctx.reactorSeat
            (sortHand (s.hands ctx.reactorSeat ++ [ctx.tile]))
          have h2 := seatSum_update List.length s.discards d (removeLastN ctx.tile 1 (s.discards d))
          have h4 := length_removeLast_one hin
          rw [length_sortHand] at h1
          simp only [List.length_append, List.length_cons, List.length_nil] at h1
          simp only [totalTiles]
          omega
        · simp only [hcan, Bool.not_false, ↓reduceIte]
          exact ⟨(s, Next.done), rfl, rfl⟩

theorem meldTiles_set (ms : List Meld) (idx : Nat) (m0 m : Meld)
    (h : ms.get? idx = some m0) :
    meldTiles (ms.set idx m) + (getMeldTiles m0).length =
      meldTiles ms + (getMeldTiles m).length := by
  induction ms generalizing idx with
  | nil => simp at h
  | cons x xs ih =>
    cases idx with
    | zero =>
      simp only [List.get?_cons_zero, Option.some.injEq] at h
      subst h
      simp only [meldTiles, List.set_cons_zero, List.map_cons, List.sum_cons]
      omega
    | succ k =>
      simp only [List.get?_cons_succ] at h
      have := ih k h
      simp only [meldTiles, List.set_cons_succ, List.map_cons, List.sum_cons] at this ⊢
      omega

theorem kongReplacement_total (s : Table) (seat : Fin 4) :
    totalTiles (kongReplacement s seat) = totalTiles s := by
  unfold kongReplacement
  cases hg : s.wall.getLast? with
  | none => rfl
  | some added =>
    have h1 := seatSum_update List.length s.hands seat (s.hands seat ++ [added])
    have h2 := length_dropLast_getLast hg
    simp only [List.length_append, List.length_cons, List.length_nil] at h1
    simp only []
    rw [totalTiles_catchFlowers]
    simp only [totalTiles]
    omega

theorem applyKong_total (s : Table) (ctx : ReactionContext) (kongInfo : KongResult)
    (type : Option String) (t : Tile) (h : KongReady s ctx kongInfo type)
    (ht : kongInfo.tiles = some [t, t, t, t]) :
    ∃ s1, applyKong s ctx kongInfo type t [t, t, t, t] = some s1 ∧
      totalTiles s1 = totalTiles s := by
  obtain ⟨u, hu, h⟩ := h
  rw [ht] at hu
  have htu : u = t := by
    simp only [Option.some.injEq, List.cons.injEq, and_true] at hu
    exact hu.1.symm
  subst htu
  have hne1 : ("加槓" : String) ≠ "明槓" := by decide
  have hne2 : ("暗槓" : String) ≠ "明槓" := by decide
  have hne3 : ("暗槓" : String) ≠ "加槓" := by decide
  rcases h with ⟨hty, d, hd, hin, hc⟩ | ⟨hty, idx, m0, hidx, hget, hlen, hin⟩ | ⟨hty, hc⟩
  · have h1 := seatSum_update List.length s.hands ctx.reactorSeat
      (removeLastN u 3 (s.hands ctx.reactorSeat))
    have h2 := seatSum_update List.length s.discards d (removeLastN u 1 (s.discards d))
    have h3 := seatSum_update meldTiles s.melds ctx.reactorSeat
      (s.melds ctx.reactorSeat ++ [Meld.arr [u, u, u, u] false])
    have h4 := length_removeLast_one hin
    have h5 := length_removeLastN_of_le hc
    rw [meldTiles_append] at h3
    simp only [getMeldTiles, List.length_cons, List.length_nil] at h3
    simp only [applyKong, hty, ↓reduceIte, hd]
    refine ⟨_, rfl, ?_⟩
    simp only [totalTiles]
    omega
  · have hlt : idx < (s.melds ctx.reactorSeat).length := by
      by_contra hge
      rw [List.get?_eq_none.mpr (Nat.le_of_not_lt hge)] at hget
      cases hget
    have h1 := seatSum_update List.length s.hands ctx.reactorSeat
      (removeIfPresent (s.hands ctx.reactorSeat) u)
    have h3 := seatSum_update meldTiles s.melds ctx.reactorSeat
      ((s.melds ctx.reactorSeat).set idx (Meld.arr [u, u, u, u] false))
    have h4 := length_removeIfPresent hin
    have h5 := meldTiles_set (s.melds ctx.reactorSeat) idx m0 (Meld.arr [u, u, u, u] false) hget
    rw [hlen] at h5
    simp only [getMeldTiles, List.length_cons, List.length_nil] at h5
    have hty2 : ¬ (type = some "明槓") := by
      rw [hty]; simp only [Option.some.injEq]; exact hne1
    subst hty
    simp only [applyKong, hty2, ↓reduceIte, setMeld, hidx, hlt]
    refine ⟨_, rfl, ?_⟩
    simp only [totalTiles]
    omega
  · have h1 := seatSum_update List.length s.hands ctx.reactorSeat
      (removeLastN u 4 (s.hands ctx.reactorSeat))
    have h3 := seatSum_update meldTiles s.melds ctx.reactorSeat
      (s.melds ctx.reactorSeat ++ [Meld.arr [u, u, u, u] true])
    have h5 := length_removeLastN_of_le hc
    rw [meldTiles_append] at h3
    simp only [getMeldTiles, List.length_cons, List.length_nil] at h3
    have hty2 : ¬ (type = some "明槓") := by
      rw [hty]; simp only [Option.some.injEq]; exact hne2
    have hty3 : ¬ (type = some "加槓") := by
      rw [hty]; simp only [Option.some.injEq]; exact hne3
    subst hty
    simp only [applyKong, hty2, hty3, ↓reduceIte]
    refine ⟨_, rfl, ?_⟩
    simp only [totalTiles]
    omega

theorem handleKongFromUI_total (s : Table) (kongTypeFromUI : Option String)
    (h : Ready s (TableOp.handleKongFromUI kongTypeFromUI)) :
    ∃ p, handleKongFromUI s kongTypeFromUI = some p ∧ totalTiles p.1 = totalTiles s := by
  unfold Ready at h
  unfold handleKongFromUI
  cases hctx : s.reactionContext with
  | none => exact ⟨(s, Next.done), rfl, rfl⟩
  | some ctx =>
    by_cases he : s.gameEnded = true
    · exact ⟨(s, Next.done), by simp [he], rfl⟩
    · simp only [he, Bool.false_eq_true, ↓reduceIte]
      cases hk : ctx.kongInfo with
      | none => exact ⟨(s, Next.done), rfl, rfl⟩
      | some kongInfo =>
        by_cases hcan : kongInfo.canKong = true
        · have hr := h ctx kongInfo hctx hk
          obtain ⟨t, ht, _⟩ := id hr
          obtain ⟨s1, hs1, hs1t⟩ := applyKong_total s ctx kongInfo _ t hr ht
          simp only [hcan, Bool.not_true, Bool.false_eq_true, ↓reduceIte, ht, hs1]
          have h2 := seatSum_update List.length s1.hands ctx.reactorSeat
            (sortHand (s1.hands ctx.reactorSeat))
          rw [length_sortHand] at h2
          generalize hs2 : ({ s1 with
            hands := Function.update s1.hands ctx.reactorSeat
              (sortHand (s1.hands ctx.reactorSeat)) } : Table) = s2
          have hs2t : totalTiles s2 = totalTiles s := by
            rw [← hs1t, ← hs2]
            simp only [totalTiles]
            omega
          have hs3t := kongReplacement_total s2 ctx.reactorSeat
          generalize kongReplacement s2 ctx.reactorSeat = s3 at hs3t ⊢
          have h3 := seatSum_update List.length s3.hands ctx.reactorSeat
            (sortHand (s3.hands ctx.reactorSeat))
          rw [length_sortHand] at h3
          split
          · refine ⟨_, rfl, ?_⟩
            rw [← hs2t, ← hs3t]
            simp only [totalTiles]
          · refine ⟨_, rfl, ?_⟩
            rw [← hs2t, ← hs3t]
            simp only [totalTiles]
            omega
        · simp only [hcan, Bool.not_false, ↓reduceIte]
          exact ⟨(s, Next.done), rfl, rfl⟩

theorem dealFour_total (st : (Fin 4 → List Tile) × List Tile) (seat : Fin 4) :
    seatSum (fun i => ((dealFour st seat).1 i).length) + (dealFour st seat).2.length =
      seatSum (fun i => (st.1 i).length) + st.2.length := by
  have h1 := seatSum_update List.length st.1 seat (st.1 seat ++ st.2.take 4)
  have h2 : (st.2.take 4).length + (st.2.drop 4).length = st.2.length := by
    rw [← List.length_append, List.take_append_drop]
  simp only [List.length_append] at h1
  simp only [dealFour]
  omega

theorem dealRound_total (st : (Fin 4 → List Tile) × List Tile) :
    seatSum (fun i => ((dealRound st).1 i).length) + (dealRound st).2.length =
      seatSum (fun i => (st.1 i).length) + st.2.length := by
  simp only [dealRound, List.foldl_cons, List.foldl_nil]
  rw [dealFour_total, dealFour_total, dealFour_total, dealFour_total]

theorem distributeTiles_total (wall : List Tile) (startIndex : Nat) :
    seatSum (fun i => ((distributeTiles wall startIndex).1 i).length) +
        (distributeTiles wall startIndex).2.length = wall.length := by
  simp only [distributeTiles]
  rw [dealRound_total, dealRound_total, dealRound_total, dealRound_total]
  have : (wall.drop startIndex).length + (wall.take startIndex).length = wall.length := by
    rw [Nat.add_comm, ← List.length_append, List.take_append_drop]
  simp only [seatSum, List.length_nil, List.length_append]
  omega

theorem initSeat_total (s : Table) (seat : Fin 4) :
    totalTiles (initSeat s seat) = totalTiles s := by
  have h := totalTiles_catchFlowers s seat
  unfold initSeat
  simp only []
  generalize catchFlowers s seat = s1 at h ⊢
  have h1 := seatSum_update List.length s1.hands seat (sortHand (s1.hands seat))
  rw [length_sortHand] at h1
  rw [← h]
  simp only [totalTiles]
  omega

theorem buildWall_length : buildWall.length = 144 := by
  rfl

theorem initGame_total (mode : String) (mySeat : Fin 4) (shuffled : List Tile) (dealer : Fin 4)
    (diceSum : Nat) :
    totalTiles (initGame mode mySeat shuffled dealer diceSum).1 = shuffled.length := by
  have h := distributeTiles_total shuffled (getOpenWallIndex dealer.val diceSum shuffled)
  simp only [initGame, List.foldl_cons, List.foldl_nil]
  rw [initSeat_total, initSeat_total, initSeat_total, initSeat_total]
  simp only [totalTiles]
  simp only [seatSum, meldTiles, List.map_nil, List.sum_nil, List.length_nil] at h ⊢
  omega

/-! ## Theorems: claims on discards -/

theorem chiStep_out (hand : List Tile) (played : Tile) (s : String) (acc : List (List Tile))
    (a b c : Int) (h : a < 1 ∨ c > 9) :
    chiStep hand played s acc [a, b, c] = acc := by
  have : ([a, b, c].any (fun n => decide (n < 1) || decide (n > 9))) = true := by
    rcases h with h | h
    · simp [h]
    · simp [h]
  simp only [chiStep, this, ↓reduceIte]

theorem chiStep_in (hand : List Tile) (s : String) (acc : List (List Tile))
    (a b c : Int) (ha : 1 ≤ a) (hc : c ≤ 9) (hab : a ≤ b) (hbc : b ≤ c)
    (d1 : chiTile a s ≠ chiTile b s) (d2 : chiTile a s ≠ chiTile c s)
    (d3 : chiTile b s ≠ chiTile c s) :
    (chiStep hand (chiTile a s) s acc [a, b, c] =
      if chiTile b s ∈ hand ∧ chiTile c s ∈ hand then
        acc ++ [[chiTile a s, chiTile b s, chiTile c s]] else acc) ∧
    (chiStep hand (chiTile b s) s acc [a, b, c] =
      if chiTile a s ∈ hand ∧ chiTile c s ∈ hand then
        acc ++ [[chiTile a s, chiTile b s, chiTile c s]] else acc) ∧
    (chiStep hand (chiTile c s) s acc [a, b, c] =
      if chiTile a s ∈ hand ∧ chiTile b s ∈ hand then
        acc ++ [[chiTile a s, chiTile b s, chiTile c s]] else acc) := by
  have hany : ([a, b, c].any (fun n => decide (n < 1) || decide (n > 9))) = false := by
    simp only [List.any_cons, List.any_nil, Bool.or_false, Bool.or_eq_false_iff,
      decide_eq_false_iff_not, not_lt, gt_iff_lt]
    omega
  have i1 : [chiTile a s, chiTile b s, chiTile c s].indexOf? (chiTile a s) = some 0 := by
    simp [List.indexOf?, List.findIdx?_cons]
  have i2 : [chiTile a s, chiTile b s, chiTile c s].indexOf? (chiTile b s) = some 1 := by
    simp [List.indexOf?, List.findIdx?_cons, d1]
  have i3 : [chiTile a s, chiTile b s, chiTile c s].indexOf? (chiTile c s) = some 2 := by
    simp [List.indexOf?, List.findIdx?_cons, d2, d3]
  refine ⟨?_, ?_, ?_⟩
  · simp only [chiStep, hany, Bool.false_eq_true, ↓reduceIte, List.map_cons, List.map_nil, i1]
    simp [List.enum, List.enumFrom, List.filter]
  · simp only [chiStep, hany, Bool.false_eq_true, ↓reduceIte, List.map_cons, List.map_nil, i2]
    simp [List.enum, List.enumFrom, List.filter]
  · simp only [chiStep, hany, Bool.false_eq_true, ↓reduceIte, List.map_cons, List.map_nil, i3]
    simp [List.enum, List.enumFrom, List.filter]

theorem chiTile_eq :
    ∀ n ∈ List.range 10, ∀ s ∈ ['W', 'T', 'B'], chiTile (n : Int) s.toString = numTile n s := by
  decide

theorem parseTile_numTile :
    ∀ r ∈ List.range 10, ∀ s ∈ ['W', 'T', 'B'],
      parseTile (some (numTile r s)) = ⟨some r, s.toString⟩ ∧ numTile r s ≠ "" ∧
        (s.toString = "W" ∨ s.toString = "T" ∨ s.toString = "B") := by
  decide

/-- The three candidate sequences of `checkChi` on a numbered discard, each
as one step of the loop. -/
theorem chiSteps_numTile (hand : List Tile) (acc : List (List Tile)) (r : Nat) (s : Char)
    (hr1 : 1 ≤ r) (hr9 : r ≤ 9) (hs : IsNumSuit s) :
    (chiStep hand (numTile r s) s.toString acc [(r : Int) - 2, (r : Int) - 1, (r : Int)] =
      if 3 ≤ r ∧ numTile (r - 2) s ∈ hand ∧ numTile (r - 1) s ∈ hand then
        acc ++ [[numTile (r - 2) s, numTile (r - 1) s, numTile r s]] else acc) ∧
    (chiStep hand (numTile r s) s.toString acc [(r : Int) - 1, (r : Int), (r : Int) + 1] =
      if (2 ≤ r ∧ r ≤ 8) ∧ numTile (r - 1) s ∈ hand ∧ numTile (r + 1) s ∈ hand then
        acc ++ [[numTile (r - 1) s, numTile r s, numTile (r + 1) s]] else acc) ∧
    (chiStep hand (numTile r s) s.toString acc [(r : Int), (r : Int) + 1, (r : Int) + 2] =
      if r ≤ 7 ∧ numTile (r + 1) s ∈ hand ∧ numTile (r + 2) s ∈ hand then
        acc ++ [[numTile r s, numTile (r + 1) s, numTile (r + 2) s]] else acc) := by
  have hsm := isNumSuit_mem hs
  have ct : ∀ n : Nat, n ≤ 9 → chiTile (n : Int) s.toString = numTile n s :=
    fun n hn => chiTile_eq n (List.mem_range.mpr (by omega)) s hsm
  have dist : ∀ a b : Nat, a ≤ 9 → b ≤ 9 → a ≠ b →
      chiTile (a : Int) s.toString ≠ chiTile (b : Int) s.toString := by
    intro a b ha hb hab e
    rw [ct a ha, ct b hb] at e
    exact hab (numTile_inj a (List.mem_range.mpr (by omega)) s hsm b
      (List.mem_range.mpr (by omega)) s hsm e).1
  refine ⟨?_, ?_, ?_⟩
  · by_cases h3 : 3 ≤ r
    · have e1 : (r : Int) - 2 = ((r - 2 : Nat) : Int) := by omega
      have e2 : (r : Int) - 1 = ((r - 1 : Nat) : Int) := by omega
      have key := (chiStep_in hand s.toString acc ((r - 2 : Nat) : Int) ((r - 1 : Nat) : Int)
        (r : Int) (by omega) (by omega) (by omega) (by omega)
        (dist _ _ (by omega) (by omega) (by omega))
        (dist _ _ (by omega) (by omega) (by omega))
        (dist _ _ (by omega) (by omega) (by omega))).2.2
      rw [ct (r - 2) (by omega), ct (r - 1) (by omega), ct r hr9] at key
      rw [e1, e2, key]
      simp only [h3, true_and]
    · rw [chiStep_out _ _ _ _ _ _ _ (Or.inl (by omega))]
      simp only [h3, false_and, ↓reduceIte]
  · by_cases h3 : 2 ≤ r ∧ r ≤ 8
    · have e1 : (r : Int) - 1 = ((r - 1 : Nat) : Int) := by omega
      have e2 : (r : Int) + 1 = ((r + 1 : Nat) : Int) := by omega
      have key := (chiStep_in hand s.toString acc ((r - 1 : Nat) : Int) (r : Int)
        ((r + 1 : Nat) : Int) (by omega) (by omega) (by omega) (by omega)
        (dist _ _ (by omega) (by omega) (by omega))
        (dist _ _ (by omega) (by omega) (by omega))
        (dist _ _ (by omega) (by omega) (by omega))).2.1
      rw [ct (r - 1) (by omega), ct (r + 1) (by omega), ct r hr9] at key
      rw [e1, e2, key]
      simp only [h3, and_self, true_and]
    · rw [chiStep_out _ _ _ _ _ _ _ (by omega)]
      simp only [h3, false_and, ↓reduceIte]
  · by_cases h3 : r ≤ 7
    · have e1 : (r : Int) + 1 = ((r + 1 : Nat) : Int) := by omega
      have e2 : (r : Int) + 2 = ((r + 2 : Nat) : Int) := by omega
      have key := (chiStep_in hand s.toString acc (r : Int) ((r + 1 : Nat) : Int)
        ((r + 2 : Nat) : Int) (by omega) (by omega) (by omega) (by omega)
        (dist _ _ (by omega) (by omega) (by omega))
        (dist _ _ (by omega) (by omega) (by omega))
        (dist _ _ (by omega) (by omega) (by omega))).1
      rw [ct (r + 1) (by omega), ct (r + 2) (by omega), ct r hr9] at key
      rw [e1, e2, key]
      simp only [h3, true_and]
    · rw [chiStep_out _ _ _ _ _ _ _ (Or.inr (by omega))]
      simp only [h3, false_and, ↓reduceIte]

/-- The answer of `checkChi` for the next seat on a numbered discard, as the
three steps of its loop. -/
theorem checkChi_numTile (hand : List Tile) (mySeat turnSeat r : Nat) (s : Char)
    (hseat : mySeat = (turnSeat + 1) % 4) (hr1 : 1 ≤ r) (hr9 : r ≤ 9) (hs : IsNumSuit s) :
    (checkChi hand (some (numTile r s)) mySeat (some turnSeat)).chiList =
        chiStep hand (numTile r s) s.toString
          (chiStep hand (numTile r s) s.toString
            (chiStep hand (numTile r s) s.toString []
              [(r : Int) - 2, (r : Int) - 1, (r : Int)])
            [(r : Int) - 1, (r : Int), (r : Int) + 1])
          [(r : Int), (r : Int) + 1, (r : Int) + 2] ∧
      (checkChi hand (some (numTile r s)) mySeat (some turnSeat)).canChi =
        decide ((checkChi hand (some (numTile r s)) mySeat (some turnSeat)).chiList.length > 0) := by
  obtain ⟨hp, _, hsuit⟩ := parseTile_numTile r (List.mem_range.mpr (by omega)) s (isNumSuit_mem hs)
  have hg : ¬ (r < 1 ∨ r > 9 ∨ ¬ (s.toString = "W" ∨ s.toString = "T" ∨ s.toString = "B")) := by
    intro h
    rcases h with h | h | h
    · omega
    · omega
    · exact h hsuit
  simp only [checkChi, Option.map_some', hseat, ne_eq, not_true_eq_false, ↓reduceIte, hp, hg,
    List.foldl_cons, List.foldl_nil, and_self]

theorem chiList_numTile (hand : List Tile) (mySeat turnSeat r : Nat) (s : Char)
    (hseat : mySeat = (turnSeat + 1) % 4) (hr1 : 1 ≤ r) (hr9 : r ≤ 9) (hs : IsNumSuit s) :
    (checkChi hand (some (numTile r s)) mySeat (some turnSeat)).chiList =
      (if 3 ≤ r ∧ numTile (r - 2) s ∈ hand ∧ numTile (r - 1) s ∈ hand then
        [[numTile (r - 2) s, numTile (r - 1) s, numTile r s]] else []) ++
      ((if (2 ≤ r ∧ r ≤ 8) ∧ numTile (r - 1) s ∈ hand ∧ numTile (r + 1) s ∈ hand then
        [[numTile (r - 1) s, numTile r s, numTile (r + 1) s]] else []) ++
      (if r ≤ 7 ∧ numTile (r + 1) s ∈ hand ∧ numTile (r + 2) s ∈ hand then
        [[numTile r s, numTile (r + 1) s, numTile (r + 2) s]] else [])) := by
  rw [(checkChi_numTile hand mySeat turnSeat r s hseat hr1 hr9 hs).1]
  rw [(chiSteps_numTile hand _ r s hr1 hr9 hs).2.2, (chiSteps_numTile hand _ r s hr1 hr9 hs).2.1,
    (chiSteps_numTile hand _ r s hr1 hr9 hs).1]
  split_ifs <;> rfl

theorem checkChi_reject (hand : List Tile) (t : Tile) (mySeat : Nat) (turnSeat : Option Nat)
    (h : (parseTile (some t)).num.all (fun n => decide (n < 1 ∨ n > 9 ∨
      ¬ ((parseTile (some t)).suit = "W" ∨ (parseTile (some t)).suit = "T" ∨
        (parseTile (some t)).suit = "B"))) = true) :
    checkChi hand (some t) mySeat turnSeat = ⟨false, []⟩ := by
  unfold checkChi
  cases ht : turnSeat.map (fun k => (k + 1) % 4) with
  | none => rfl
  | some nextSeat =>
    simp only []
    by_cases hn : nextSeat ≠ mySeat
    · rw [if_pos hn]
    · rw [if_neg hn]
      cases hp : (parseTile (some t)).num with
      | none => rfl
      | some n =>
        rw [hp] at h
        simp only [Option.all_some, decide_eq_true_eq] at h
        simp only []
        rw [if_pos h]

theorem honor_flower_parse :
    ∀ t ∈ honorCodes ++ flowerCodes,
      (parseTile (some t)).num.all (fun n => decide (n < 1 ∨ n > 9 ∨
        ¬ ((parseTile (some t)).suit = "W" ∨ (parseTile (some t)).suit = "T" ∨
          (parseTile (some t)).suit = "B"))) = true := by
  decide

/-- C7. Chi candidates are exactly the feasible sequences.  For the seat that
follows the discarder and a numbered discard of rank `r` and suit `s`, the
list `chiList` of `checkChi` holds exactly those sequences
`(lo, lo+1, lo+2)` of suit `s`, with `lo` one of `r-2`, `r-1`, `r`, whose ranks
lie in 1..9 and whose tiles other than the discard are in the hand; it has no
duplicates; `canChi` is true exactly when it is non-empty; and for an honor or
flower discard the list is empty. -/
theorem checkChi_exact (hand : List Tile) (mySeat turnSeat r : Nat) (s : Char)
    (hseat : mySeat = (turnSeat + 1) % 4) (hr1 : 1 ≤ r) (hr9 : r ≤ 9) (hs : IsNumSuit s) :
    (∀ seq : List Tile,
        seq ∈ (checkChi hand (some (numTile r s)) mySeat (some turnSeat)).chiList ↔
          ∃ lo : Nat, (lo + 2 = r ∨ lo + 1 = r ∨ lo = r) ∧ 1 ≤ lo ∧ lo + 2 ≤ 9 ∧
            seq = [numTile lo s, numTile (lo + 1) s, numTile (lo + 2) s] ∧
            ∀ t ∈ seq, t ≠ numTile r s → t ∈ hand) ∧
      (checkChi hand (some (numTile r s)) mySeat (some turnSeat)).chiList.Nodup ∧
      ((checkChi hand (some (numTile r s)) mySeat (some turnSeat)).canChi = true ↔
        (checkChi hand (some (numTile r s)) mySeat (some turnSeat)).chiList ≠ []) ∧
      (∀ t ∈ honorCodes ++ flowerCodes,
        (checkChi hand (some t) mySeat (some turnSeat)).chiList = [] ∧
        (checkChi hand (some t) mySeat (some turnSeat)).canChi = false) := by
  have hsm := isNumSuit_mem hs
  have dist : ∀ a b : Nat, a ≤ 9 → b ≤ 9 → a ≠ b → numTile a s ≠ numTile b s := by
    intro a b ha hb hab e
    exact hab (numTile_inj a (List.mem_range.mpr (by omega)) s hsm b
      (List.mem_range.mpr (by omega)) s hsm e).1
  have hlist := chiList_numTile hand mySeat turnSeat r s hseat hr1 hr9 hs
  refine ⟨?_, ?_, ?_, ?_⟩
  · intro seq
    rw [hlist]
    simp only [List.mem_append, List.mem_ite_nil_right, List.mem_singleton]
    constructor
    · rintro (⟨⟨h3, ha, hb⟩, rfl⟩ | ⟨⟨h3, ha, hb⟩, rfl⟩ | ⟨⟨h3, ha, hb⟩, rfl⟩)
      · refine ⟨r - 2, Or.inl (by omega), by omega, by omega, ?_, ?_⟩
        · rw [show r - 2 + 1 = r - 1 by omega, show r - 2 + 2 = r by omega]
        · intro t ht hne
          simp only [List.mem_cons, List.mem_singleton, List.not_mem_nil, or_false] at ht
          rcases ht with rfl | rfl | rfl
          · exact ha
          · exact hb
          · exact (hne rfl).elim
      · refine ⟨r - 1, Or.inr (Or.inl (by omega)), by omega, by omega, ?_, ?_⟩
        · rw [show r - 1 + 1 = r by omega, show r - 1 + 2 = r + 1 by omega]
        · intro t ht hne
          simp only [List.mem_cons, List.mem_singleton, List.not_mem_nil, or_false] at ht
          rcases ht with rfl | rfl | rfl
          · exact ha
          · exact (hne rfl).elim
          · exact hb
      · refine ⟨r, Or.inr (Or.inr rfl), by omega, by omega, rfl, ?_⟩
        intro t ht hne
        simp only [List.mem_cons, List.mem_singleton, List.not_mem_nil, or_false] at ht
        rcases ht with rfl | rfl | rfl
        · exact (hne rfl).elim
        · exact ha
        · exact hb
    · rintro ⟨lo, hlo, h1, h9, rfl, hmem⟩
      rcases hlo with h | h | h
      · left
        have e : lo = r - 2 := by omega
        subst e
        refine ⟨⟨by omega, ?_, ?_⟩, ?_⟩
        · exact hmem _ (by simp) (dist _ _ (by omega) (by omega) (by omega))
        · rw [show r - 1 = r - 2 + 1 by omega]
          exact hmem _ (by simp) (dist _ _ (by omega) (by omega) (by omega))
        · rw [show r - 2 + 1 = r - 1 by omega, show r - 2 + 2 = r by omega]
      · right; left
        have e : lo = r - 1 := by omega
        subst e
        refine ⟨⟨by omega, ?_, ?_⟩, ?_⟩
        · exact hmem _ (by simp) (dist _ _ (by omega) (by omega) (by omega))
        · rw [show r + 1 = r - 1 + 2 by omega]
          exact hmem _ (by simp) (dist _ _ (by omega) (by omega) (by omega))
        · rw [show r - 1 + 1 = r by omega, show r - 1 + 2 = r + 1 by omega]
      · right; right
        subst h
        refine ⟨⟨by omega, ?_, ?_⟩, rfl⟩
        · exact hmem _ (by simp) (dist _ _ (by omega) (by omega) (by omega))
        · exact hmem _ (by simp) (dist _ _ (by omega) (by omega) (by omega))
  · rw [hlist]
    have n1 : [numTile (r - 2) s, numTile (r - 1) s, numTile r s] ≠
        [numTile (r - 1) s, numTile r s, numTile (r + 1) s] := by
      intro e
      simp only [List.cons.injEq, and_true] at e
      exact dist _ _ (by omega) (by omega) (by omega) e.2.1
    have n2 : [numTile (r - 2) s, numTile (r - 1) s, numTile r s] ≠
        [numTile r s, numTile (r + 1) s, numTile (r + 2) s] := by
      intro e
      simp only [List.cons.injEq, and_true] at e
      by_cases h : r ≤ 8
      · exact dist _ _ (by omega) (by omega) (by omega) e.2.1
      · exact dist (r - 2) r (by omega) (by omega) (by omega) e.1
    have n3 : [numTile (r - 1) s, numTile r s, numTile (r + 1) s] ≠
        [numTile r s, numTile (r + 1) s, numTile (r + 2) s] := by
      intro e
      simp only [List.cons.injEq, and_true] at e
      exact dist (r - 1) r (by omega) (by omega) (by omega) e.1
    split_ifs <;> simp [n1, n2, n3]
  · rw [(checkChi_numTile hand mySeat turnSeat r s hseat hr1 hr9 hs).2]
    simp only [gt_iff_lt, decide_eq_true_eq, List.length_pos, ne_eq]
  · intro t ht
    rw [checkChi_reject hand t mySeat (some turnSeat) (honor_flower_parse t ht)]
    exact ⟨rfl, rfl⟩

/-- Witness for C7: seat 1 after a discard of `5W` by seat 0. -/
theorem checkChi_exact_witness :
    (∀ seq : List Tile,
        seq ∈ (checkChi ["3W", "4W", "6W", "9T"] (some (numTile 5 'W')) 1 (some 0)).chiList ↔
          ∃ lo : Nat, (lo + 2 = 5 ∨ lo + 1 = 5 ∨ lo = 5) ∧ 1 ≤ lo ∧ lo + 2 ≤ 9 ∧
            seq = [numTile lo 'W', numTile (lo + 1) 'W', numTile (lo + 2) 'W'] ∧
            ∀ t ∈ seq, t ≠ numTile 5 'W' → t ∈ ["3W", "4W", "6W", "9T"]) ∧
      (checkChi ["3W", "4W", "6W", "9T"] (some (numTile 5 'W')) 1 (some 0)).chiList.Nodup ∧
      ((checkChi ["3W", "4W", "6W", "9T"] (some (numTile 5 'W')) 1 (some 0)).canChi = true ↔
        (checkChi ["3W", "4W", "6W", "9T"] (some (numTile 5 'W')) 1 (some 0)).chiList ≠ []) ∧
      (∀ t ∈ honorCodes ++ flowerCodes,
        (checkChi ["3W", "4W", "6W", "9T"] (some t) 1 (some 0)).chiList = [] ∧
        (checkChi ["3W", "4W", "6W", "9T"] (some t) 1 (some 0)).canChi = false) :=
  checkChi_exact ["3W", "4W", "6W", "9T"] 1 0 5 'W' (by decide) (by decide) (by decide)
    (by decide)

/-- C8. Chi eligibility: for a seat that is not the one after the discarder,
`checkChi` answers `canChi = false` with an empty `chiList`, whatever the hand
and the discard. -/
theorem checkChi_other_seat (hand : List Tile) (playedTile : Option Tile)
    (mySeat turnSeat : Nat) (h : mySeat ≠ (turnSeat + 1) % 4) :
    checkChi hand playedTile mySeat (some turnSeat) = ⟨false, []⟩ := by
  have h2 : (turnSeat + 1) % 4 ≠ mySeat := fun e => h e.symm
  simp only [checkChi, Option.map_some']
  rw [if_pos h2]

/-- Witness for C8: seat 2 holds `3W`, `4W` when seat 0 discards `5W`. -/
theorem checkChi_other_seat_witness :
    checkChi ["3W", "4W"] (some "5W") 2 (some 0) = ⟨false, []⟩ :=
  checkChi_other_seat ["3W", "4W"] (some "5W") 2 0 (by decide)

/-- C9. Pong legality: `checkPong` answers `canPong = true` exactly when the
hand holds at least two copies of the tile, and `pongTiles` is then three
copies of it. -/
theorem checkPong_legal (hand : List Tile) (tile : Tile) :
    ((checkPong hand tile).canPong = true ↔ 2 ≤ hand.count tile) ∧
      ((checkPong hand tile).canPong = true →
        (checkPong hand tile).pongTiles = some [tile, tile, tile]) := by
  refine ⟨⟨fun h => (checkPong_true h).1, ?_⟩, fun h => (checkPong_true h).2⟩
  intro h
  have hc : countTileInHand hand tile = hand.count tile := by
    rw [countTileInHand, List.count_eq_countP, List.countP_eq_length_filter]
  simp only [checkPong, hc, ge_iff_le, h, ↓reduceIte]

/-- C10, the code at the failing inputs.  Seat 0 is asked about a discard of
`9T` by seat 2, of which it holds no copy: with four `5B` in hand `checkKong`
reports a concealed kong, and with one `5B` in hand next to a pong of `5B` it
reports an added kong. -/
theorem checkKong_discard_falls_through :
    checkKong handFour5B (some "9T") [] none (some 0) (some 2) =
        ⟨true, some "暗槓", some ["5B", "5B", "5B", "5B"], none⟩ ∧
      checkKong handOne5B (some "9T") [Meld.arr ["5B", "5B", "5B"] false] none (some 0)
          (some 2) =
        ⟨true, some "加槓", some ["5B", "5B", "5B", "5B"], some 0⟩ := by
  decide

/-- C6, as the claim states it, fails: `playTile` asked to discard `9B`, which
seat 0 does not hold, adds a tile to the total. -/
theorem playTile_absent_tile_breaks_total :
    totalTiles (playTile demoTable 0 "9B").1 = totalTiles demoTable + 1 := by
  decide

/-- C6 amended. After the deal the total of hand, meld, discard-pile, wall and
removed-flower tiles is 144, and each operation of the table (the front draw
of `startTurn`, `playTile`, the chi, pong and kong operations of the automated
seats and of the player with their tail replacement draw, and the win on a
discard) runs to a state with the same total whenever the tiles it is to move
are where it looks for them (`Ready`). -/
theorem total_conserved (mode : String) (mySeat dealer : Fin 4) (shuffled : List Tile)
    (diceSum : Nat) (s : Table) (op : TableOp)
    (hwall : shuffled.Perm buildWall) (hready : Ready s op) :
    totalTiles (initGame mode mySeat shuffled dealer diceSum).1 = 144 ∧
      ∃ s', runOp s op = some s' ∧ totalTiles s' = totalTiles s := by
  constructor
  · rw [initGame_total, hwall.length_eq, buildWall_length]
  · cases op with
    | startTurn => exact ⟨_, rfl, startTurn_total s hready⟩
    | playTile seat tile => exact ⟨_, rfl, playTile_total s seat tile hready⟩
    | doChiOperation seat tile d chiTiles =>
      exact ⟨_, rfl, doChiOperation_total s seat tile d chiTiles hready.1 hready.2⟩
    | doPongOperation seat tile d =>
      exact ⟨_, rfl, doPongOperation_total s seat tile d hready.1 hready.2⟩
    | doKongOperation seat kongInfo d =>
      obtain ⟨hw, t, ht, hd, hc⟩ := hready
      obtain ⟨p, hp1, hp2⟩ := doKongOperation_total s seat kongInfo d t hw ht hd hc
      exact ⟨p.1, by simp [runOp, hp1], hp2⟩
    | handleAIReaction r =>
      obtain ⟨p, hp1, hp2⟩ := handleAIReaction_total s r hready
      exact ⟨p.1, by simp [runOp, hp1], hp2⟩
    | handleChiFromUI chosenChi =>
      obtain ⟨p, hp1, hp2⟩ := handleChiFromUI_total s chosenChi hready
      exact ⟨p.1, by simp [runOp, hp1], hp2⟩
    | handlePongFromUI =>
      obtain ⟨p, hp1, hp2⟩ := handlePongFromUI_total s hready
      exact ⟨p.1, by simp [runOp, hp1], hp2⟩
    | handleKongFromUI type =>
      obtain ⟨p, hp1, hp2⟩ := handleKongFromUI_total s type hready
      exact ⟨p.1, by simp [runOp, hp1], hp2⟩
    | handleHuFromUI =>
      obtain ⟨p, hp1, hp2⟩ := handleHuFromUI_total s hready
      exact ⟨p.1, by simp [runOp, hp1], hp2⟩

/-- Witness for the amended C6: the unshuffled wall, and seat 0 of `demoTable`
discarding the `N` it holds. -/
theorem total_conserved_witness :
    totalTiles (initGame "solo" 0 buildWall 0 11).1 = 144 ∧
      ∃ s', runOp demoTable (TableOp.playTile 0 "N") = some s' ∧
        totalTiles s' = totalTiles demoTable :=
  total_conserved "solo" 0 0 buildWall 11 demoTable (TableOp.playTile 0 "N")
    (List.Perm.refl _) (by show "N" ∈ demoTable.hands 0; decide)


/-! ## Theorems: kong rules, round progression, rejected requests -/

theorem countTileInHand_eq (hand : List Tile) (tile : Tile) :
    countTileInHand hand tile = hand.count tile := by
  rw [countTileInHand, List.count_eq_countP, List.countP_eq_length_filter]

/-- C11. Exposed-kong restriction: for a tile of which the hand holds exactly
three copies, and every meld list, a discard of it by the seat
`(mySeat + 3) mod 4` makes `checkKong` answer `canKong = false`, with no
candidate, while `checkPong` on the same hand and tile answers
`canPong = true`. -/
theorem exposed_kong_denied_to_next_seat (hand : List Tile) (tile : Tile) (melds : List Meld)
    (drawnTile : Option Tile) (mySeat : Nat) (htile : tile ≠ "")
    (hthree : hand.count tile = 3) :
    checkKong hand (some tile) melds drawnTile (some mySeat) (some ((mySeat + 3) % 4)) =
        ⟨false, none, none, none⟩ ∧
      (checkPong hand tile).canPong = true := by
  constructor
  · simp [checkKong, htile]
  · simp [checkPong, countTileInHand_eq, hthree]

/-- Witness for C11: seat 0 holds three `5B` when seat 3 discards `5B`. -/
theorem exposed_kong_denied_to_next_seat_witness :
    checkKong ["5B", "5B", "5B", "1W"] (some "5B") [] none (some 0) (some ((0 + 3) % 4)) =
        ⟨false, none, none, none⟩ ∧
      (checkPong ["5B", "5B", "5B", "1W"] "5B").canPong = true :=
  exposed_kong_denied_to_next_seat ["5B", "5B", "5B", "1W"] "5B" [] none 0 (by decide)
    (by decide)

/-- C16. Round advance: on a well-formed round state `processEndOfRound`
agrees with the advance the specification words: a win of the dealer keeps
wind round, dealer seat and hand and adds one to the dealer count; every
other outcome, an exhausted wall among them, moves the dealer to
`(dealerSeat + 1) mod 4`, resets the dealer count and adds one to the hand,
and a hand that reaches 4 becomes 0 with the wind round advanced, capped
at 3. -/
theorem processEndOfRound_advance (winnerSeat : Option Int) (st : RoundState)
    (hst : st.WellFormed) :
    processEndOfRound winnerSeat st.windRound st.dealerSeat st.dealerCount st.hand =
      roundAdvanceSpec winnerSeat st := by
  obtain ⟨_, ⟨hh0, hh3⟩, ⟨hd0, hd3⟩, _⟩ := hst
  have hrem : jsRem (st.dealerSeat + 1) 4 = (st.dealerSeat + 1) % 4 := by
    unfold jsRem
    rw [Int.tmod_eq_emod] <;> omega
  unfold processEndOfRound roundAdvanceSpec changeDealer
  cases winnerSeat with
  | none =>
    simp only [hrem]
    by_cases h4 : st.hand + 1 = 4
    · have : st.hand + 1 ≥ 4 := by omega
      simp [h4]
    · have : ¬ st.hand + 1 ≥ 4 := by omega
      simp [h4, this]
  | some w =>
    by_cases hw : w = st.dealerSeat
    · simp [hw]
    · have hw2 : ¬ (some w = some st.dealerSeat) := by simpa using hw
      simp only [hw, hw2, ↓reduceIte, hrem]
      by_cases h4 : st.hand + 1 = 4
      · have : st.hand + 1 ≥ 4 := by omega
        simp [h4]
      · have : ¬ st.hand + 1 ≥ 4 := by omega
        simp [h4, this]

/-- Witness for C16: the last hand of the east round, won by a seat other
than the dealer. -/
theorem processEndOfRound_advance_witness :
    processEndOfRound (some 2) 0 3 1 3 =
      roundAdvanceSpec (some 2) { windRound := 0, dealerSeat := 3, dealerCount := 1, hand := 3 } :=
  processEndOfRound_advance (some 2) { windRound := 0, dealerSeat := 3, dealerCount := 1, hand := 3 }
    (by decide)

/-- C17. Well-formedness of the round state is an invariant: `initGameFlow`
is well formed, and from a well-formed state `processEndOfRound` returns a
well-formed state for every winner seat, those in 0..3 among them, and for
no winner. -/
theorem roundState_wellFormed_invariant (winnerSeat : Option Int) (st : RoundState)
    (hst : st.WellFormed) :
    initGameFlow.WellFormed ∧
      (processEndOfRound winnerSeat st.windRound st.dealerSeat st.dealerCount st.hand).WellFormed := by
  refine ⟨by decide, ?_⟩
  obtain ⟨⟨hw0, hw3⟩, ⟨hh0, hh3⟩, ⟨hd0, hd3⟩, hc⟩ := hst
  have hrem : jsRem (st.dealerSeat + 1) 4 = (st.dealerSeat + 1) % 4 := by
    unfold jsRem
    rw [Int.tmod_eq_emod] <;> omega
  have hchange : (changeDealer st.windRound st.dealerSeat st.hand).WellFormed := by
    unfold changeDealer RoundState.WellFormed
    simp only [hrem]
    refine ⟨?_, ?_, ⟨by omega, by omega⟩, le_refl _⟩
    · by_cases h4 : st.hand + 1 ≥ 4
      · simp only [h4, ↓reduceIte]
        constructor
        · exact le_min (by omega) (by omega)
        · exact min_le_right _ _
      · simp only [h4, ↓reduceIte]
        exact ⟨hw0, hw3⟩
    · by_cases h4 : st.hand + 1 ≥ 4
      · simp only [h4, ↓reduceIte]
        exact ⟨le_refl _, by omega⟩
      · simp only [h4, ↓reduceIte]
        exact ⟨by omega, by omega⟩
  unfold processEndOfRound
  cases winnerSeat with
  | none => exact hchange
  | some w =>
    by_cases hwd : w = st.dealerSeat
    · simp only [hwd, ↓reduceIte]
      exact ⟨⟨hw0, hw3⟩, ⟨hh0, hh3⟩, ⟨hd0, hd3⟩, by show 0 ≤ st.dealerCount + 1; omega⟩
    · simp only [hwd, ↓reduceIte]
      exact hchange

/-- Witness for C17: the dealer at seat 1 wins the second hand of the south
round. -/
theorem roundState_wellFormed_invariant_witness :
    initGameFlow.WellFormed ∧ (processEndOfRound (some 1) 1 1 2 1).WellFormed :=
  roundState_wellFormed_invariant (some 1)
    { windRound := 1, dealerSeat := 1, dealerCount := 2, hand := 1 } (by decide)

/-- C18. Requests while locked are no-ops: with `turnLocked` true, `playTile`
returns at once and leaves the whole table state as it is (every hand,
discard pile and meld, the wall, `lastPlayedTile` and `lastDiscardSeat`), and
`startTurn` returns at once, draws no tile and leaves the whole table state
as it is. -/
theorem locked_requests_are_noops (s : Table) (seat : Fin 4) (tile : Tile)
    (hlocked : s.turnLocked = true) :
    playTile s seat tile = (s, Next.done) ∧ startTurn s = (s, Next.done) := by
  constructor
  · unfold playTile
    by_cases he : s.gameEnded = true <;> simp [he, hlocked]
  · unfold startTurn
    by_cases he : s.gameEnded = true <;> simp [he, hlocked]

/-- Witness for C18: `demoTable` with the lock set. -/
theorem locked_requests_are_noops_witness :
    playTile { demoTable with turnLocked := true } 0 "N" =
        ({ demoTable with turnLocked := true }, Next.done) ∧
      startTurn { demoTable with turnLocked := true } =
        ({ demoTable with turnLocked := true }, Next.done) :=
  locked_requests_are_noops { demoTable with turnLocked := true } 0 "N" rfl

theorem findAddKong_some (hand : List Tile) (melds : List Meld) :
    ∀ (i j : Nat) (a : Tile), findAddKong hand melds i = some (j, a) →
      ∃ k, j = i + k ∧ FirstPongAt hand melds k a := by
  induction melds with
  | nil => intro i j a h; simp [findAddKong] at h
  | cons m rest ih =>
    intro i j a h
    have step : ∀ (hnot : ∀ b, ¬ (getMeldTiles m = [b, b, b] ∧ b ∈ hand)),
        findAddKong hand rest (i + 1) = some (j, a) →
        ∃ k, j = i + k ∧ FirstPongAt hand (m :: rest) k a := by
      intro hnot hrec
      obtain ⟨k, hk, hp, hfirst⟩ := ih (i + 1) j a hrec
      refine ⟨k + 1, by omega, ?_, ?_⟩
      · obtain ⟨m', hm', hrest⟩ := hp
        exact ⟨m', by simpa using hm', hrest⟩
      · intro q hq b hpq
        cases q with
        | zero =>
          obtain ⟨m', hm', ht, hin⟩ := hpq
          simp only [List.get?_cons_zero, Option.some.injEq] at hm'
          subst hm'
          exact hnot b ⟨ht, hin⟩
        | succ q =>
          obtain ⟨m', hm', hrest⟩ := hpq
          exact hfirst q (by omega) b ⟨m', by simpa using hm', hrest⟩
    rw [findAddKong] at h
    split at h
    · rename_i x y z hmt
      by_cases hxyz : x = x ∧ y = x ∧ z = x
      · rw [if_pos hxyz] at h
        rw [hxyz.2.1, hxyz.2.2] at hmt
        by_cases hc : countTileInHand hand x ≥ 1
        · rw [if_pos hc] at h
          simp only [Option.some.injEq, Prod.mk.injEq] at h
          obtain ⟨hj, ha⟩ := h
          subst hj ha
          have hin : x ∈ hand := List.count_pos_iff.mp (by rw [← countTileInHand_eq]; omega)
          exact ⟨0, rfl, ⟨m, rfl, hmt, hin⟩, fun q hq => absurd hq (Nat.not_lt_zero q)⟩
        · rw [if_neg hc] at h
          refine step ?_ h
          rintro b ⟨hb, hin⟩
          rw [hmt] at hb
          simp only [List.cons.injEq, and_true] at hb
          obtain ⟨hb1, _⟩ := hb
          subst hb1
          exact hc (by rw [countTileInHand_eq]; exact List.count_pos_iff.mpr hin)
      · rw [if_neg hxyz] at h
        refine step ?_ h
        rintro b ⟨hb, _⟩
        rw [hmt] at hb
        simp only [List.cons.injEq, and_true] at hb
        exact hxyz ⟨rfl, by rw [hb.2.1, hb.1], by rw [hb.2.2, hb.1]⟩
    · rename_i hmt
      refine step ?_ h
      rintro b ⟨hb, _⟩
      exact hmt b b b hb

theorem findAddKong_none (hand : List Tile) (melds : List Meld) :
    ∀ i : Nat, findAddKong hand melds i = none → ∀ k a, ¬ PongAt hand melds k a := by
  induction melds with
  | nil =>
    intro i _ k a hp
    obtain ⟨m, hm, _⟩ := hp
    simp at hm
  | cons m rest ih =>
    intro i h k a hp
    have step : (∀ b, ¬ (getMeldTiles m = [b, b, b] ∧ b ∈ hand)) →
        findAddKong hand rest (i + 1) = none → False := by
      intro hnot hrec
      cases k with
      | zero =>
        obtain ⟨m', hm', ht, hin⟩ := hp
        simp only [List.get?_cons_zero, Option.some.injEq] at hm'
        subst hm'
        exact hnot a ⟨ht, hin⟩
      | succ k =>
        obtain ⟨m', hm', hrest⟩ := hp
        exact ih (i + 1) hrec k a ⟨m', by simpa using hm', hrest⟩
    rw [findAddKong] at h
    split at h
    · rename_i x y z hmt
      by_cases hxyz : x = x ∧ y = x ∧ z = x
      · rw [if_pos hxyz] at h
        rw [hxyz.2.1, hxyz.2.2] at hmt
        by_cases hc : countTileInHand hand x ≥ 1
        · rw [if_pos hc] at h
          exact absurd h (by simp)
        · rw [if_neg hc] at h
          refine step ?_ h
          rintro b ⟨hb, hin⟩
          rw [hmt] at hb
          simp only [List.cons.injEq, and_true] at hb
          obtain ⟨hb1, _⟩ := hb
          subst hb1
          exact hc (by rw [countTileInHand_eq]; exact List.count_pos_iff.mpr hin)
      · rw [if_neg hxyz] at h
        refine step ?_ h
        rintro b ⟨hb, _⟩
        rw [hmt] at hb
        simp only [List.cons.injEq, and_true] at hb
        exact hxyz ⟨rfl, by rw [hb.2.1, hb.1], by rw [hb.2.2, hb.1]⟩
    · rename_i hmt
      refine step ?_ h
      rintro b ⟨hb, _⟩
      exact hmt b b b hb

theorem checkKongSelf_cases (hand : List Tile) (melds : List Meld) :
    (∃ i a, FirstPongAt hand melds i a ∧
        checkKongSelf hand melds = ⟨true, some "加槓", some [a, a, a, a], some i⟩) ∨
    ((¬ ∃ i a, PongAt hand melds i a) ∧ ∃ t, FirstQuad hand t ∧
        checkKongSelf hand melds = ⟨true, some "暗槓", some [t, t, t, t], none⟩) ∨
    ((¬ ∃ i a, PongAt hand melds i a) ∧ (¬ ∃ t ∈ hand, 4 ≤ hand.count t) ∧
        checkKongSelf hand melds = ⟨false, none, none, none⟩) := by
  unfold checkKongSelf
  cases hf : findAddKong hand melds 0 with
  | some p =>
    obtain ⟨j, a⟩ := p
    obtain ⟨k, hk, hfirst⟩ := findAddKong_some hand melds 0 j a hf
    have hjk : j = k := by omega
    subst hjk
    exact Or.inl ⟨j, a, hfirst, rfl⟩
  | none =>
    have hno : ¬ ∃ i a, PongAt hand melds i a := by
      rintro ⟨i, a, hp⟩
      exact findAddKong_none hand melds 0 hf i a hp
    right
    cases hq : hand.find? (fun t => decide (countTileInHand hand t ≥ 4)) with
    | some t =>
      left
      refine ⟨hno, t, ?_, rfl⟩
      rw [List.find?_eq_some] at hq
      obtain ⟨ht, before, after, hsplit, hbefore⟩ := hq
      simp only [ge_iff_le, decide_eq_true_eq, countTileInHand_eq] at ht
      refine ⟨ht, before, after, hsplit, ?_⟩
      intro x hx
      have := hbefore x hx
      simp only [ge_iff_le, Bool.not_eq_eq_eq_not, Bool.not_true, decide_eq_false_iff_not,
        countTileInHand_eq, not_le] at this
      exact this
    | none =>
      right
      refine ⟨hno, ?_, rfl⟩
      rintro ⟨t, hin, ht⟩
      rw [List.find?_eq_none] at hq
      have := hq t hin
      simp only [ge_iff_le, decide_eq_true_eq, countTileInHand_eq] at this
      exact this ht

/-- C12: on a self-draw (`playedTile = null`) `checkKong` reports an added
kong exactly when some meld of the seat is a pong whose tile is in the hand,
with `pongIndex` the index of the first such meld and `tiles` four copies of
its tile; failing that, a concealed kong exactly when some tile value occurs
at least four times in the hand, of the first such value in hand order;
failing both, `canKong = false`. -/
theorem checkKong_self_draw (hand : List Tile) (melds : List Meld) (drawnTile : Option Tile)
    (mySeat discardSeat : Option Nat) :
    ((∃ i a, PongAt hand melds i a) ↔
      ∃ i a, FirstPongAt hand melds i a ∧
        checkKong hand none melds drawnTile mySeat discardSeat
          = ⟨true, some "加槓", some [a, a, a, a], some i⟩) ∧
    (((¬ ∃ i a, PongAt hand melds i a) ∧ ∃ t ∈ hand, 4 ≤ hand.count t) ↔
      ∃ t, FirstQuad hand t ∧
        checkKong hand none melds drawnTile mySeat discardSeat
          = ⟨true, some "暗槓", some [t, t, t, t], none⟩) ∧
    (((¬ ∃ i a, PongAt hand melds i a) ∧ ¬ ∃ t ∈ hand, 4 ≤ hand.count t) ↔
      checkKong hand none melds drawnTile mySeat discardSeat = ⟨false, none, none, none⟩) ∧
    ((checkKong hand none melds drawnTile mySeat discardSeat).type = some "加槓" ↔
      ∃ i a, PongAt hand melds i a) ∧
    ((checkKong hand none melds drawnTile mySeat discardSeat).type = some "暗槓" ↔
      (¬ ∃ i a, PongAt hand melds i a) ∧ ∃ t ∈ hand, 4 ≤ hand.count t) ∧
    ((checkKong hand none melds drawnTile mySeat discardSeat).canKong = false ↔
      (¬ ∃ i a, PongAt hand melds i a) ∧ ¬ ∃ t ∈ hand, 4 ≤ hand.count t) := by
  have hself : checkKong hand none melds drawnTile mySeat discardSeat
      = checkKongSelf hand melds := rfl
  rw [hself]
  have hquad : ∀ t, FirstQuad hand t → ∃ t ∈ hand, 4 ≤ hand.count t := by
    rintro t ⟨hc, before, after, hsplit, _⟩
    exact ⟨t, by rw [hsplit]; simp, hc⟩
  have hne : (some "加槓" : Option String) ≠ some "暗槓" := by decide
  rcases checkKongSelf_cases hand melds with
    ⟨i, a, hfirst, hr⟩ | ⟨hno, t, hfq, hr⟩ | ⟨hno, hnq, hr⟩
  · have hex : ∃ i a, PongAt hand melds i a := ⟨i, a, hfirst.1⟩
    rw [hr]
    refine ⟨⟨fun _ => ⟨i, a, hfirst, rfl⟩, fun _ => hex⟩, ⟨fun h => absurd hex h.1, ?_⟩,
      ⟨fun h => absurd hex h.1, fun h => by simp at h⟩, ⟨fun _ => hex, fun _ => rfl⟩,
      ⟨fun h => absurd h hne, fun h => absurd hex h.1⟩,
      ⟨fun h => by simp at h, fun h => absurd hex h.1⟩⟩
    rintro ⟨t, _, h⟩
    simp only [KongResult.mk.injEq, Option.some.injEq, true_and] at h
    exact absurd h.1 (by decide)
  · rw [hr]
    refine ⟨⟨fun h => absurd h hno, ?_⟩, ⟨fun _ => ⟨t, hfq, rfl⟩, fun _ => ⟨hno, hquad t hfq⟩⟩,
      ⟨fun h => absurd (hquad t hfq) h.2, fun h => by simp at h⟩,
      ⟨fun h => absurd h.symm hne, fun h => absurd h hno⟩,
      ⟨fun _ => ⟨hno, hquad t hfq⟩, fun _ => rfl⟩,
      ⟨fun h => by simp at h, fun h => absurd (hquad t hfq) h.2⟩⟩
    rintro ⟨i, a, _, h⟩
    simp only [KongResult.mk.injEq, Option.some.injEq, true_and] at h
    exact absurd h.1 (by decide)
  · rw [hr]
    refine ⟨⟨fun h => absurd h hno, ?_⟩, ⟨fun h => absurd h.2 hnq, ?_⟩,
      ⟨fun _ => rfl, fun _ => ⟨hno, hnq⟩⟩,
      ⟨fun h => by simp at h, fun h => absurd h hno⟩,
      ⟨fun h => by simp at h, fun h => absurd h.2 hnq⟩,
      ⟨fun _ => ⟨hno, hnq⟩, fun _ => rfl⟩⟩
    · rintro ⟨i, a, _, h⟩
      simp at h
    · rintro ⟨t, _, h⟩
      simp at h

/-! ## Theorems: arbitration of the reactions to a discard -/

theorem head_sortReactions (rs : List Reaction) (hne : rs ≠ []) :
    ∃ before w after, rs = before ++ w :: after ∧ (sortReactions rs).head? = some w ∧
      (∀ x ∈ before, x.priority < w.priority) ∧ (∀ x ∈ after, x.priority ≤ w.priority) := by
  induction rs with
  | nil => exact absurd rfl hne
  | cons a l ih =>
    by_cases hl : l = []
    · subst hl
      exact ⟨[], a, [], rfl, rfl, by simp, by simp⟩
    · obtain ⟨before, w, after, hsplit, hhead, hbefore, hafter⟩ := ih hl
      have hall : ∀ x ∈ l, x.priority ≤ w.priority := by
        intro x hx
        rw [hsplit] at hx
        rcases List.mem_append.mp hx with h | h
        · exact Nat.le_of_lt (hbefore x h)
        · rcases List.mem_cons.mp h with h | h
          · rw [h]
          · exact hafter x h
      obtain ⟨tl, htl⟩ : ∃ tl, sortReactions l = w :: tl := by
        cases hs : sortReactions l with
        | nil => rw [hs] at hhead; simp at hhead
        | cons b tl =>
          rw [hs] at hhead
          simp only [List.head?_cons, Option.some.injEq] at hhead
          exact ⟨tl, by rw [hhead]⟩
      have hsort : sortReactions (a :: l)
          = List.orderedInsert (fun a b : Reaction => b.priority ≤ a.priority) a (w :: tl) := by
        unfold sortReactions at htl ⊢
        rw [List.insertionSort, htl]
      by_cases hle : w.priority ≤ a.priority
      · refine ⟨[], a, l, rfl, ?_, by simp, fun x hx => Nat.le_trans (hall x hx) hle⟩
        rw [hsort, List.orderedInsert, if_pos hle]
        rfl
      · refine ⟨a :: before, w, after, by rw [hsplit]; rfl, ?_, ?_, hafter⟩
        · rw [hsort, List.orderedInsert, if_neg hle]
          rfl
        · intro x hx
          rcases List.mem_cons.mp hx with h | h
          · rw [h]; omega
          · exact hbefore x h

theorem aiOnReaction_spec (seat : Nat) (hand : List Tile) (melds : List Meld) (tile : Tile) :
    ∃ a, aiOnReaction seat hand melds tile = some a ∧
      (a.action = "HU" ∨ a.action = "KONG" ∨ a.action = "PONG" ∨ a.action = "PASS") ∧
      ((checkHu (hand ++ [tile]) melds (some tile) false).canHu = true → a.action = "HU") := by
  have hchi : checkChi hand (some tile) seat none = ⟨false, []⟩ := rfl
  unfold aiOnReaction
  simp only [hchi]
  by_cases hhu : (checkHu (hand ++ [tile]) melds (some tile) false).canHu = true
  · rw [if_pos hhu]
    exact ⟨_, rfl, Or.inl rfl, fun _ => rfl⟩
  · rw [if_neg hhu]
    by_cases hp : (checkPong hand tile).canPong = true
    · rw [if_pos hp]
      exact ⟨_, rfl, Or.inr (Or.inr (Or.inl rfl)), fun h => absurd h hhu⟩
    · rw [if_neg hp]
      split
      · exact ⟨_, rfl, Or.inr (Or.inl rfl), fun h => absurd h hhu⟩
      · exact ⟨_, rfl, Or.inr (Or.inr (Or.inr rfl)), fun h => absurd h hhu⟩

/-- The shape of an entry of the list `reactions`: its action with the
priority that goes with it. -/
theorem aiReactionOf_spec (s : Table) (d : Fin 4) (tile : Tile) (seat : Fin 4) :
    ∃ rs, aiReactionOf s d tile seat = some rs ∧
      (∀ r ∈ rs, r.seat = seat ∧ seat ≠ 0 ∧
        ((r.action = "HU" ∧ r.priority = 4) ∨ (r.action = "KONG" ∧ r.priority = 3) ∨
          (r.action = "PONG" ∧ r.priority = 2))) ∧
      (seat ≠ d → seat ≠ 0 → s.isAI seat = true →
        (checkHu (s.hands seat ++ [tile]) (s.melds seat) (some tile) false).canHu = true →
        ∃ r ∈ rs, r.action = "HU" ∧ r.priority = 4) := by
  unfold aiReactionOf
  by_cases h1 : seat = d
  · rw [if_pos h1]
    exact ⟨[], rfl, by simp, fun h => absurd h1 h⟩
  rw [if_neg h1]
  by_cases h2 : seat = 0
  · rw [if_pos h2]
    exact ⟨[], rfl, by simp, fun _ h => absurd h2 h⟩
  rw [if_neg h2]
  by_cases h3 : (!s.isAI seat) = true
  · rw [if_pos h3]
    refine ⟨[], rfl, by simp, fun _ _ h => ?_⟩
    rw [h] at h3
    exact absurd h3 (by decide)
  rw [if_neg h3]
  obtain ⟨a, ha, hact, hhu⟩ := aiOnReaction_spec seat.val (s.hands seat) (s.melds seat) tile
  rw [ha]
  simp only []
  by_cases hpass : a.action = "PASS"
  · rw [if_neg (not_not.mpr hpass)]
    refine ⟨[], rfl, by simp, fun _ _ _ h => ?_⟩
    have := hhu h
    rw [hpass] at this
    exact absurd this (by decide)
  · rw [if_pos hpass]
    refine ⟨_, rfl, ?_, ?_⟩
    · intro r hr
      rw [List.mem_singleton] at hr
      subst hr
      refine ⟨rfl, h2, ?_⟩
      rcases hact with h | h | h | h
      · exact Or.inl ⟨h, by simp [getReactionPriority, h]⟩
      · exact Or.inr (Or.inl ⟨h, by simp [getReactionPriority, h]⟩)
      · exact Or.inr (Or.inr ⟨h, by simp [getReactionPriority, h]⟩)
      · exact absurd h hpass
    · intro _ _ _ h
      exact ⟨_, List.mem_singleton.mpr rfl, hhu h, by simp [getReactionPriority, hhu h]⟩

theorem playerReactions_spec (s : Table) (d : Fin 4) (tile : Tile) :
    (∀ r ∈ playerReactions s d tile, r.seat = 0 ∧
        ((r.action = "HU" ∧ r.priority = 4) ∨ (r.action = "KONG" ∧ r.priority = 3) ∨
          (r.action = "PONG" ∧ r.priority = 2) ∨ (r.action = "CHI" ∧ r.priority = 1))) ∧
      ((0 : Fin 4) ≠ d →
        (checkHu (s.hands 0 ++ [tile]) (s.melds 0) (some tile) false).canHu = true →
        ∃ r ∈ playerReactions s d tile, r.action = "HU" ∧ r.priority = 4) := by
  unfold playerReactions
  by_cases h0 : (0 : Fin 4) = d
  · rw [if_pos h0]
    exact ⟨by simp, fun h => absurd h0 h⟩
  rw [if_neg h0]
  simp only []
  constructor
  · intro r hr
    simp only [List.mem_append] at hr
    rcases hr with ((hr | hr) | hr) | hr
    all_goals
      split at hr
      · rw [List.mem_singleton] at hr
        subst hr
        simp
      · simp at hr
  · intro _ hhu
    rw [if_pos hhu]
    exact ⟨⟨0, "HU", 4, none,
      some (checkHu (s.hands 0 ++ [tile]) (s.melds 0) (some tile) false), none, none, none⟩,
      by simp, rfl, rfl⟩

theorem collectReactions_spec (s : Table) (d : Fin 4) (tile : Tile) :
    ∃ rs, collectReactions s d tile = some rs ∧
      (∀ r ∈ rs, (r.action = "HU" ∧ r.priority = 4) ∨ (r.action = "KONG" ∧ r.priority = 3) ∨
          (r.action = "PONG" ∧ r.priority = 2) ∨ (r.action = "CHI" ∧ r.priority = 1)) ∧
      (∀ a : Fin 4, a ≠ d → (a = 0 ∨ s.isAI a = true) →
        (checkHu (s.hands a ++ [tile]) (s.melds a) (some tile) false).canHu = true →
        ∃ r ∈ rs, r.action = "HU" ∧ r.priority = 4) ∧
      rs.Pairwise (fun a b => collectRank a.seat ≤ collectRank b.seat) := by
  obtain ⟨r0, e0, a0, w0⟩ := aiReactionOf_spec s d tile 0
  obtain ⟨r1, e1, a1, w1⟩ := aiReactionOf_spec s d tile 1
  obtain ⟨r2, e2, a2, w2⟩ := aiReactionOf_spec s d tile 2
  obtain ⟨r3, e3, a3, w3⟩ := aiReactionOf_spec s d tile 3
  obtain ⟨ap, wp⟩ := playerReactions_spec s d tile
  have h0 : r0 = [] := by
    cases r0 with
    | nil => rfl
    | cons x xs => exact absurd rfl (a0 x (List.mem_cons_self x xs)).2.1
  subst h0
  refine ⟨[] ++ r1 ++ r2 ++ r3 ++ playerReactions s d tile, ?_, ?_, ?_, ?_⟩
  · unfold collectReactions
    rw [e0, e1, e2, e3]
  · intro r hr
    simp only [List.nil_append, List.append_assoc, List.mem_append] at hr
    rcases hr with h | h | h | h
    · rcases (a1 r h).2.2 with x | x | x
      exacts [Or.inl x, Or.inr (Or.inl x), Or.inr (Or.inr (Or.inl x))]
    · rcases (a2 r h).2.2 with x | x | x
      exacts [Or.inl x, Or.inr (Or.inl x), Or.inr (Or.inr (Or.inl x))]
    · rcases (a3 r h).2.2 with x | x | x
      exacts [Or.inl x, Or.inr (Or.inl x), Or.inr (Or.inr (Or.inl x))]
    · exact (ap r h).2
  · intro a had hpart hhu
    have key : ∀ rs' : List Reaction, (∃ r ∈ rs', r.action = "HU" ∧ r.priority = 4) →
        rs' ⊆ [] ++ r1 ++ r2 ++ r3 ++ playerReactions s d tile →
        ∃ r ∈ [] ++ r1 ++ r2 ++ r3 ++ playerReactions s d tile,
          r.action = "HU" ∧ r.priority = 4 := by
      rintro rs' ⟨r, hr, hx⟩ hsub
      exact ⟨r, hsub hr, hx⟩
    by_cases hz : a = 0
    · subst hz
      exact key _ (wp (fun h => had h) hhu) (by intro x hx; simp [hx])
    · have hai : s.isAI a = true := hpart.resolve_left hz
      have hfin : ∀ b : Fin 4, b ≠ 0 → b = 1 ∨ b = 2 ∨ b = 3 := by decide
      have hcases : a = 1 ∨ a = 2 ∨ a = 3 := hfin a hz
      rcases hcases with h | h | h
      · subst h
        exact key _ (w1 had hz hai hhu) (by intro x hx; simp [hx])
      · subst h
        exact key _ (w2 had hz hai hhu) (by intro x hx; simp [hx])
      · subst h
        exact key _ (w3 had hz hai hhu) (by intro x hx; simp [hx])
  · have c1 : ∀ r ∈ r1, collectRank r.seat = 1 := fun r h => by rw [(a1 r h).1]; rfl
    have c2 : ∀ r ∈ r2, collectRank r.seat = 2 := fun r h => by rw [(a2 r h).1]; rfl
    have c3 : ∀ r ∈ r3, collectRank r.seat = 3 := fun r h => by rw [(a3 r h).1]; rfl
    have cp : ∀ r ∈ playerReactions s d tile, collectRank r.seat = 4 :=
      fun r h => by rw [(ap r h).1]; rfl
    have pw : ∀ (l : List Reaction) (k : Nat), (∀ r ∈ l, collectRank r.seat = k) →
        l.Pairwise (fun a b => collectRank a.seat ≤ collectRank b.seat) := by
      intro l k hk
      rw [List.pairwise_iff_forall_sublist]
      intro a b hab
      have ha : a ∈ l := hab.subset (by simp)
      have hb : b ∈ l := hab.subset (by simp)
      rw [hk a ha, hk b hb]
    simp only [List.nil_append]
    rw [List.pairwise_append, List.pairwise_append, List.pairwise_append]
    refine ⟨⟨⟨pw r1 1 c1, pw r2 2 c2, ?_⟩, pw r3 3 c3, ?_⟩, pw _ 4 cp, ?_⟩
    · intro a ha b hb
      rw [c1 a ha, c2 b hb]; omega
    · intro a ha b hb
      rw [c3 b hb]
      rcases List.mem_append.mp ha with h | h
      · rw [c1 a h]; omega
      · rw [c2 a h]; omega
    · intro a ha b hb
      rw [cp b hb]
      rcases List.mem_append.mp ha with h | h
      · rcases List.mem_append.mp h with h | h
        · rw [c1 a h]; omega
        · rw [c2 a h]; omega
      · rw [c3 a h]; omega

/-- C13: `checkReactionsAfterPlay` collects the reactions without failing;
every collected reaction carries the priority of its action (HU 4, KONG 3,
PONG 2, CHI 1); with no reaction the turn passes on, and otherwise the winner
the function acts on is a collected reaction whose priority is at least that of
every collected reaction.  In particular, when a seat that takes part in the
arbitration (seat 0 or an automated seat, other than the discarder) has a legal
win on the tile, the winner is a win, whatever pong, kong or chi the other
seats have. -/
theorem arbitration_highest_priority (s : Table) (d : Fin 4) (tile : Tile) :
    ∃ rs, collectReactions s d tile = some rs ∧
      (∀ r ∈ rs, (r.action = "HU" ∧ r.priority = 4) ∨ (r.action = "KONG" ∧ r.priority = 3) ∨
          (r.action = "PONG" ∧ r.priority = 2) ∨ (r.action = "CHI" ∧ r.priority = 1)) ∧
      ((rs = [] ∧ checkReactionsAfterPlay s d tile = some (s, Next.nextTurn)) ∨
        ∃ w ∈ rs, (sortReactions rs).head? = some w ∧
          checkReactionsAfterPlay s d tile =
            (if s.isAI w.seat then handleAIReaction s w else some (promptPlayer s d tile w)) ∧
          (∀ r ∈ rs, r.priority ≤ w.priority) ∧
          ((∃ a : Fin 4, a ≠ d ∧ (a = 0 ∨ s.isAI a = true) ∧
              (checkHu (s.hands a ++ [tile]) (s.melds a) (some tile) false).canHu = true) →
            w.action = "HU" ∧ w.priority = 4)) := by
  obtain ⟨rs, hrs, hshape, hwin, _⟩ := collectReactions_spec s d tile
  refine ⟨rs, hrs, hshape, ?_⟩
  by_cases hne : rs = []
  · left
    refine ⟨hne, ?_⟩
    unfold checkReactionsAfterPlay
    rw [hrs, hne]
    rfl
  · right
    obtain ⟨before, w, after, hsplit, hhead, hbefore, hafter⟩ := head_sortReactions rs hne
    have hmem : w ∈ rs := by rw [hsplit]; simp
    have hmax : ∀ r ∈ rs, r.priority ≤ w.priority := by
      intro r hr
      rw [hsplit] at hr
      rcases List.mem_append.mp hr with h | h
      · exact Nat.le_of_lt (hbefore r h)
      · rcases List.mem_cons.mp h with h | h
        · rw [h]
        · exact hafter r h
    refine ⟨w, hmem, hhead, ?_, hmax, ?_⟩
    · obtain ⟨tl, htl⟩ : ∃ tl, sortReactions rs = w :: tl := by
        cases hs : sortReactions rs with
        | nil => rw [hs] at hhead; simp at hhead
        | cons b tl =>
          rw [hs] at hhead
          simp only [List.head?_cons, Option.some.injEq] at hhead
          exact ⟨tl, by rw [hhead]⟩
      have hlen : ¬ rs.length = 0 := fun h => hne (List.length_eq_zero.mp h)
      unfold checkReactionsAfterPlay
      rw [hrs]
      simp only [if_neg hlen, htl]
    · rintro ⟨a, had, hpart, hhu⟩
      obtain ⟨r, hr, hact, hprio⟩ := hwin a had hpart hhu
      have h4 : 4 ≤ w.priority := by
        have := hmax r hr
        omega
      rcases hshape w hmem with h | h | h | h
      · exact h
      · omega
      · omega
      · omega

/-- C14, as the claim states it, fails: on `tieTable` seat 2 discards `9T`,
seat 1 and seat 3 both answer with a win of priority 4, and the winner taken
is seat 1, at distance 3 clockwise from the discarder, not seat 3 at
distance 1. -/
theorem tie_not_broken_by_distance :
    (collectReactions tieTable 2 "9T").map
        (fun rs => rs.map (fun r => (r.seat, r.action, r.priority)))
        = some [(1, "HU", 4), (3, "HU", 4)] ∧
      ((collectReactions tieTable 2 "9T").bind (fun rs => (sortReactions rs).head?)).map
        (fun w => (w.seat, w.action, w.priority)) = some (1, "HU", 4) ∧
      ((3 : Int) - 2) % 4 = 1 ∧ ((1 : Int) - 2) % 4 = 3 := by
  decide

/-- C14 amended. There is no tie-break by distance from the discarder: among
reactions of the same highest priority the winner is the one collected first,
and the reactions are collected for the automated seats 1, 2, 3 in ascending
seat order, then for the player at seat 0.  So every other seat with a reaction
of the winner's priority is seat 0 or an automated seat with a larger number
than the winner's, and seat 0 wins a tie against no other seat. -/
theorem tie_goes_to_first_collected (s : Table) (d : Fin 4) (tile : Tile) :
    ∃ rs, collectReactions s d tile = some rs ∧
      rs.Pairwise (fun a b => collectRank a.seat ≤ collectRank b.seat) ∧
      ∀ w, (sortReactions rs).head? = some w →
        ∀ r ∈ rs, r.priority = w.priority → r.seat ≠ w.seat →
          w.seat ≠ 0 ∧ (r.seat = 0 ∨ w.seat.val < r.seat.val) := by
  obtain ⟨rs, hrs, _, _, hpair⟩ := collectReactions_spec s d tile
  refine ⟨rs, hrs, hpair, ?_⟩
  intro w hw r hr hprio hseat
  have hne : rs ≠ [] := List.ne_nil_of_mem hr
  obtain ⟨before, w', after, hsplit, hhead, hbefore, _⟩ := head_sortReactions rs hne
  rw [hw] at hhead
  simp only [Option.some.injEq] at hhead
  subst hhead
  have hafter : r ∈ after := by
    rw [hsplit] at hr
    rcases List.mem_append.mp hr with h | h
    · have := hbefore r h
      omega
    · rcases List.mem_cons.mp h with h | h
      · exact absurd (by rw [h]) hseat
      · exact h
  have hrank : collectRank w.seat ≤ collectRank r.seat := by
    rw [hsplit, List.pairwise_append] at hpair
    exact (List.pairwise_cons.mp hpair.2.1).1 r hafter
  have hfin : ∀ a b : Fin 4, a ≠ b → collectRank b ≤ collectRank a →
      b ≠ 0 ∧ (a = 0 ∨ b.val < a.val) := by decide
  exact hfin r.seat w.seat hseat hrank

/-- C15: evaluation of the claim of an automated seat.  On `claimTable` seat 3
has discarded `9T` and the automated seat 1 pongs it: the pong leaves seat 1
active with 14 tiles and the wall untouched, and hands over to `startTurn`,
which takes the front tile `S` of the wall into the hand of seat 1 before the
seat discards. -/
theorem ai_claim_draws_from_wall :
    (checkReactionsAfterPlay claimTable 3 "9T").map (fun p => (p.2, p.1.turn))
        = some (Next.startTurn, 1) ∧
      (checkReactionsAfterPlay claimTable 3 "9T").map
        (fun p => (p.1.hands 1, p.1.melds 1, p.1.wall))
        = some (["1B", "1B", "2B", "3B", "4B", "5B", "6B", "7B", "8B", "9B", "C", "C", "F", "F"],
            [Meld.arr ["9T", "9T", "9T"] false], claimTable.wall) ∧
      (checkReactionsAfterPlay claimTable 3 "9T").map
        (fun p => ((startTurn p.1).2, (startTurn p.1).1.turn))
        = some (Next.awaitAI, 1) ∧
      (checkReactionsAfterPlay claimTable 3 "9T").map
        (fun p => ((startTurn p.1).1.hands 1, (startTurn p.1).1.wall))
        = some (["1B", "1B", "2B", "3B", "4B", "5B", "6B", "7B", "8B", "9B", "C", "C", "F", "F",
             "S"], claimTable.wall.tail) := by
  decide

/-! ## Theorems: requests out of turn and after the end of the round -/

/-- C19, as the claim states it, fails: on `demoTable` the active seat is 0,
and `playTile` asked to discard `1B` for seat 1 takes the tile out of the hand
of seat 1, puts it on the pile of seat 1 and records seat 1 as the last
discarder. -/
theorem playTile_out_of_turn_discards :
    demoTable.turn = 0 ∧
      (playTile demoTable 1 "1B").2 = Next.checkReactionsAfterPlay 1 "1B" ∧
      (playTile demoTable 1 "1B").1.hands 1 =
        ["1B", "2B", "3B", "4B", "5B", "6B", "7B", "8B", "9B", "C", "C", "F", "F", "P", "P"] ∧
      (playTile demoTable 1 "1B").1.discards 1 = ["1B"] ∧
      (playTile demoTable 1 "1B").1.lastPlayedTile = some "1B" ∧
      (playTile demoTable 1 "1B").1.lastDiscardSeat = some 1 ∧
      demoTable.discards 1 = [] ∧ demoTable.lastDiscardSeat = some 3 := by
  decide

/-- C19 amended. `playTile` never compares the seat with the active seat: it
leaves the state as it is exactly when the round is over or the turn is
locked, and otherwise, for every seat, it takes one copy of the tile out of the
hand of that seat, sorts the hand, appends the tile to the pile of that seat and
records tile and seat as the last discard; the active seat, the wall, the melds
and the hands and piles of the other seats stay as they are. -/
theorem playTile_guards_flags_only (s : Table) (seat : Fin 4) (tile : Tile) :
    ((playTile s seat tile).1 = s ↔ (s.gameEnded = true ∨ s.turnLocked = true)) ∧
      ((s.gameEnded = true ∨ s.turnLocked = true) → playTile s seat tile = (s, Next.done)) ∧
      ((s.gameEnded = false ∧ s.turnLocked = false) →
        (playTile s seat tile).1.hands seat = sortHand ((s.hands seat).erase tile) ∧
        (playTile s seat tile).1.discards seat = s.discards seat ++ [tile] ∧
        (playTile s seat tile).1.lastPlayedTile = some tile ∧
        (playTile s seat tile).1.lastDiscardSeat = some seat ∧
        (playTile s seat tile).1.turn = s.turn ∧
        (playTile s seat tile).1.wall = s.wall ∧
        (playTile s seat tile).1.melds = s.melds ∧
        ∀ other, other ≠ seat →
          (playTile s seat tile).1.hands other = s.hands other ∧
          (playTile s seat tile).1.discards other = s.discards other) := by
  have hnoop : (s.gameEnded = true ∨ s.turnLocked = true) →
      playTile s seat tile = (s, Next.done) := by
    rintro (h | h)
    · simp [playTile, h]
    · unfold playTile
      rw [h]
      simp
  have hact : (s.gameEnded = false ∧ s.turnLocked = false) →
      (playTile s seat tile).1 = { s with
        hands := Function.update s.hands seat (sortHand (removeIfPresent (s.hands seat) tile))
        discards := Function.update s.discards seat (s.discards seat ++ [tile])
        lastPlayedTile := some tile
        lastDiscardSeat := some seat } := by
    rintro ⟨h1, h2⟩
    unfold playTile
    rw [h1, h2]
    by_cases hm : s.mode = "multi"
    · simp [hm]
    · simp [hm]
  refine ⟨⟨?_, fun h => by rw [hnoop h]⟩, hnoop, ?_⟩
  · intro heq
    by_contra hflags
    have hopen : s.gameEnded = false ∧ s.turnLocked = false := by
      constructor
      · cases hg : s.gameEnded with
        | false => rfl
        | true => exact absurd (Or.inl hg) hflags
      · cases hl : s.turnLocked with
        | false => rfl
        | true => exact absurd (Or.inr hl) hflags
    have hd := congrArg (fun t : Table => (t.discards seat).length) heq
    simp only [hact hopen, Function.update_same, List.length_append, List.length_singleton] at hd
    omega
  · intro hopen
    rw [hact hopen]
    refine ⟨by simp [removeIfPresent], by simp, rfl, rfl, rfl, rfl, rfl, ?_⟩
    intro other hother
    constructor
    · simp [Function.update_noteq hother]
    · simp [Function.update_noteq hother]

/-- The local requests after the end of the round: once `gameEnded` is set,
`startTurn`, `nextTurn`, `playTile` and the chi, pong, kong, win and self-win
handlers of the player return the state as it is. -/
theorem local_requests_after_end (s : Table) (seat : Fin 4) (tile : Tile)
    (chosenChi : List Tile) (kongTypeFromUI : Option String) (hend : s.gameEnded = true) :
    startTurn s = (s, Next.done) ∧ nextTurn s = (s, Next.done) ∧
      playTile s seat tile = (s, Next.done) ∧
      handleChiFromUI s chosenChi = some (s, Next.done) ∧
      handlePongFromUI s = some (s, Next.done) ∧
      handleKongFromUI s kongTypeFromUI = some (s, Next.done) ∧
      handleHuFromUI s = some (s, Next.done) ∧
      handleZimoFromUI s = (s, Next.done) := by
  refine ⟨?_, ?_, ?_, ?_, ?_, ?_, ?_, ?_⟩
  · simp [startTurn, hend]
  · simp [nextTurn, hend]
  · simp [playTile, hend]
  · unfold handleChiFromUI
    cases s.reactionContext <;> simp [hend]
  · unfold handlePongFromUI
    cases s.reactionContext <;> simp [hend]
  · unfold handleKongFromUI
    cases s.reactionContext <;> simp [hend]
  · unfold handleHuFromUI
    cases s.reactionContext <;> simp [hend]
  · unfold handleZimoFromUI
    cases s.reactionContext <;> simp [hend]

/-- C20: evaluation of a remote claim after the end of the round.  On
`endedTable` the flag `gameEnded` is set, and `handleRemoteReaction` for a pong
of `9T` by seat 1 from seat 3 still takes two tiles out of the hand of seat 1,
adds the meld, empties the pile of seat 3 and makes seat 1 the active seat. -/
theorem remote_claim_after_end_mutates :
    endedTable.gameEnded = true ∧ endedTable.turn = 3 ∧ endedTable.discards 3 = ["9T"] ∧
      endedTable.melds 1 = [] ∧
      (handleRemoteReaction endedTable ⟨"PONG", 1, 3, "9T", none⟩).map
        (fun p => (p.2, p.1.turn, p.1.gameEnded)) = some (Next.done, 1, true) ∧
      (handleRemoteReaction endedTable ⟨"PONG", 1, 3, "9T", none⟩).map
        (fun p => (p.1.hands 1, p.1.melds 1, p.1.discards 3))
        = some (["1B", "1B", "2B", "3B", "4B", "5B", "6B", "7B", "8B", "9B", "C", "C", "F", "F"],
            [Meld.arr ["9T", "9T", "9T"] false], []) := by
  decide


/-! ## Theorems: the order and the size of a winning hand -/

theorem codeLe_antisymm {a b : Tile} (hab : codeLe a b) (hba : codeLe b a) : a = b := by
  unfold codeLe at hab hba
  exact String.ext (le_antisymm hab hba)

theorem jsSort_eq_of_perm {a b : List Tile} (h : a.Perm b) : jsSort a = jsSort b := by
  haveI : IsAntisymm Tile codeLe := ⟨fun _ _ => codeLe_antisymm⟩
  exact List.eq_of_perm_of_sorted (((jsSort_perm a).trans h).trans (jsSort_perm b).symm)
    (jsSort_sorted a) (jsSort_sorted b)

theorem basicWin_eq_true_iff (hand : List Tile) (need : Nat) :
    basicWin hand need = true ↔
      ∃ t, 2 ≤ hand.count t ∧ splitToMelds (jsSort ((hand.erase t).erase t)) need = true := by
  unfold basicWin
  simp only [List.any_eq_true]
  constructor
  · rintro ⟨t, _, h⟩
    rw [mapGet_countTiles] at h
    by_cases hc0 : hand.count t = 0
    · simp [hc0] at h
    · simp only [hc0, if_false] at h
      by_cases hc2 : hand.count t ≥ 2
      · simp only [hc2, if_true] at h
        have h1 : t ∈ hand := List.count_pos_iff.mp (by omega)
        have h2 : t ∈ hand.erase t := by
          rw [← List.count_pos_iff, List.count_erase_self]; omega
        rw [spliceIndexOf_of_mem h1, spliceIndexOf_of_mem h2] at h
        exact ⟨t, hc2, h⟩
      · simp [hc2] at h
  · rintro ⟨t, hc2, h⟩
    have h1 : t ∈ hand := List.count_pos_iff.mp (by omega)
    have h2 : t ∈ hand.erase t := by
      rw [← List.count_pos_iff, List.count_erase_self]; omega
    refine ⟨t, (mem_mapKeys_countTiles hand t).mpr h1, ?_⟩
    rw [mapGet_countTiles]
    have hc0 : ¬ hand.count t = 0 := by omega
    have hge : hand.count t ≥ 2 := hc2
    simp only [hc0, if_false, hge, if_true]
    rw [spliceIndexOf_of_mem h1, spliceIndexOf_of_mem h2]
    exact h

theorem basicWin_perm {hand hand' : List Tile} (h : hand.Perm hand') (need : Nat) :
    basicWin hand need = basicWin hand' need := by
  have key : ∀ {a b : List Tile}, a.Perm b → basicWin a need = true → basicWin b need = true := by
    intro a b hab ha
    rw [basicWin_eq_true_iff] at ha ⊢
    obtain ⟨t, hc, hs⟩ := ha
    refine ⟨t, by rw [← hab.count_eq]; exact hc, ?_⟩
    rw [← jsSort_eq_of_perm ((hab.erase t).erase t)]
    exact hs
  rw [Bool.eq_iff_iff]
  exact ⟨key h, key h.symm⟩

theorem sevenPairsShape_perm {hand hand' : List Tile} (h : hand.Perm hand')
    (hs : SevenPairsShape hand) : SevenPairsShape hand' := by
  obtain ⟨h14, h7, hc⟩ := hs
  refine ⟨by rw [← h.length_eq]; exact h14, by rw [← (h.dedup).length_eq]; exact h7, ?_⟩
  intro t ht
  rw [← h.count_eq]
  exact hc t (h.mem_iff.mpr ht)

theorem isSevenPairs_perm {hand hand' : List Tile} (h : hand.Perm hand') :
    isSevenPairs hand = isSevenPairs hand' := by
  rw [Bool.eq_iff_iff, isSevenPairs_iff, isSevenPairs_iff]
  exact ⟨sevenPairsShape_perm h, sevenPairsShape_perm h.symm⟩

/-- C29. Win detection does not depend on the order of the hand: for a hand
and any rearrangement of it, with the same melds, last tile and self-draw
flag, `checkHu` gives the same `canHu`. -/
theorem checkHu_order_independent (hand hand' : List Tile) (melds : List Meld)
    (lastTile : Option Tile) (isSelfDraw : Bool) (hperm : hand.Perm hand') :
    (checkHu hand melds lastTile isSelfDraw).canHu =
      (checkHu hand' melds lastTile isSelfDraw).canHu := by
  rw [checkHu_canHu, checkHu_canHu, basicWin_perm hperm, isSevenPairs_perm hperm]

/-- Witness for C29: the winning hand `hand17` and the same tiles in reverse
order. -/
theorem checkHu_order_independent_witness :
    (checkHu hand17.reverse [] (some "E") true).canHu =
      (checkHu hand17 [] (some "E") true).canHu :=
  checkHu_order_independent hand17.reverse hand17 [] (some "E") true (List.reverse_perm hand17)

theorem length_spliceIndexOf (xs : List Tile) (t : Tile) :
    (spliceIndexOf xs t).length = xs.length - 1 := by
  unfold spliceIndexOf
  by_cases h : t ∈ xs
  · rw [if_pos h, List.length_erase_of_mem h]
  · rw [if_neg h, List.length_dropLast]

theorem splitToMelds_length (need : Nat) :
    ∀ tiles, splitToMelds tiles need = true → tiles.length = 3 * need := by
  induction need with
  | zero =>
    intro tiles h
    rw [(splitToMelds_zero tiles).mp h]
    rfl
  | succ need ih =>
    intro tiles h
    cases tiles with
    | nil => simp [splitToMelds] at h
    | cons t rest =>
      rw [splitToMelds_succ_true] at h
      obtain ⟨hlen, ⟨_, h⟩ | ⟨s, _, _, _, _, h⟩⟩ := h
      · have := ih _ h
        simp only [length_spliceIndexOf] at this
        omega
      · have := ih _ h
        simp only [length_spliceIndexOf] at this
        omega

theorem basicWin_length {hand : List Tile} {need : Nat} (h : basicWin hand need = true) :
    hand.length = 3 * need + 2 := by
  rw [basicWin_eq_true_iff] at h
  obtain ⟨t, hc, hs⟩ := h
  have h1 : t ∈ hand := List.count_pos_iff.mp (by omega)
  have h2 : t ∈ hand.erase t := by
    rw [← List.count_pos_iff, List.count_erase_self]; omega
  have hl := splitToMelds_length need _ hs
  rw [(jsSort_perm _).length_eq, List.length_erase_of_mem h2, List.length_erase_of_mem h1] at hl
  have hpos : 2 ≤ hand.length := le_trans hc (List.count_le_length t hand)
  omega

/-- C30. Size of a winning hand: when `checkHu` answers `canHu = true` there
are at most 5 melds and the hand has `3 * (5 - melds.length) + 2` tiles or is
a 14-tile seven-pairs shape; so the answer is `canHu = false` with more than 5
melds, and for every hand of another size. -/
theorem winning_hand_size (hand : List Tile) (melds : List Meld) (lastTile : Option Tile)
    (isSelfDraw : Bool) :
    ((checkHu hand melds lastTile isSelfDraw).canHu = true →
        melds.length ≤ 5 ∧
          (hand.length = 3 * (5 - melds.length) + 2 ∨
            (hand.length = 14 ∧ SevenPairsShape hand))) ∧
      (5 < melds.length → (checkHu hand melds lastTile isSelfDraw).canHu = false) ∧
      (hand.length ≠ 3 * (5 - melds.length) + 2 → hand.length ≠ 14 →
        (checkHu hand melds lastTile isSelfDraw).canHu = false) ∧
      (hand.length ≠ 3 * (5 - melds.length) + 2 → ¬ SevenPairsShape hand →
        (checkHu hand melds lastTile isSelfDraw).canHu = false) := by
  have main : (checkHu hand melds lastTile isSelfDraw).canHu = true →
      melds.length ≤ 5 ∧
        (hand.length = 3 * (5 - melds.length) + 2 ∨
          (hand.length = 14 ∧ SevenPairsShape hand)) := by
    intro h
    rw [checkHu_canHu] at h
    simp only [Bool.and_eq_true, decide_eq_true_eq, Bool.or_eq_true] at h
    obtain ⟨h5, hb | hp⟩ := h
    · exact ⟨h5, Or.inl (basicWin_length hb)⟩
    · have hs := (isSevenPairs_iff hand).mp hp
      exact ⟨h5, Or.inr ⟨hs.1, hs⟩⟩
  refine ⟨main, ?_, ?_, ?_⟩
  · intro h5
    cases hc : (checkHu hand melds lastTile isSelfDraw).canHu with
    | false => rfl
    | true => have := (main hc).1; omega
  · intro hlen h14
    cases hc : (checkHu hand melds lastTile isSelfDraw).canHu with
    | false => rfl
    | true =>
      rcases (main hc).2 with h | h
      · exact absurd h hlen
      · exact absurd h.1 h14
  · intro hlen hshape
    cases hc : (checkHu hand melds lastTile isSelfDraw).canHu with
    | false => rfl
    | true =>
      rcases (main hc).2 with h | h
      · exact absurd h hlen
      · exact absurd h.2 hshape

/-! ## Theorems: the wall, the opening position and the deal -/

set_option maxRecDepth 200000

/-- C23. Wall composition: `buildWall` yields 144 tiles; each of the 27 numbered
tiles (ranks 1..9 of the suits W, T, B) occurs 4 times, each of the 7 honors
occurs 4 times, each of the 8 flowers occurs once, and every tile of the wall
is one of these 42 codes, which are pairwise different. -/
theorem buildWall_composition :
    buildWall.length = 144 ∧
      (∀ (r : Nat) (s : Char), 1 ≤ r → r ≤ 9 → IsNumSuit s →
        buildWall.count (numTile r s) = 4) ∧
      (∀ t ∈ honorCodes, buildWall.count t = 4) ∧
      (∀ t ∈ flowerCodes, buildWall.count t = 1) ∧
      (∀ t ∈ buildWall,
        (∃ (r : Nat) (s : Char), 1 ≤ r ∧ r ≤ 9 ∧ IsNumSuit s ∧ t = numTile r s) ∨
          t ∈ honorCodes ∨ t ∈ flowerCodes) ∧
      (∀ t, t ∉ validCodes → buildWall.count t = 0) ∧
      honorCodes = ["C", "F", "P", "E", "S", "W", "N"] ∧
      flowerCodes = ["1F", "2F", "3F", "4F", "1P", "2P", "3P", "4P"] ∧
      validCodes.Nodup ∧ validCodes.length = 42 := by
  have hnum : ∀ r ∈ List.range 10, ∀ s ∈ ['W', 'T', 'B'], 1 ≤ r →
      buildWall.count (numTile r s) = 4 := by decide
  have hmem : ∀ t ∈ buildWall,
      (∃ r ∈ List.range 10, ∃ s ∈ ['W', 'T', 'B'], 1 ≤ r ∧ t = numTile r s) ∨
        t ∈ honorCodes ∨ t ∈ flowerCodes := by decide
  have hvalid : ∀ t ∈ buildWall, t ∈ validCodes := by decide
  refine ⟨by decide, ?_, by decide, by decide, ?_, ?_, rfl, rfl, by decide, by decide⟩
  · intro r s h1 h9 hs
    exact hnum r (List.mem_range.mpr (by omega)) s (isNumSuit_mem hs) h1
  · intro t ht
    rcases hmem t ht with ⟨r, hr, s, hs, h1, heq⟩ | h | h
    · left
      refine ⟨r, s, h1, ?_, ?_, heq⟩
      · have := List.mem_range.mp hr
        by_contra hgt
        have h10 : r = 0 ∨ r = 1 ∨ r = 2 ∨ r = 3 ∨ r = 4 ∨ r = 5 ∨ r = 6 ∨ r = 7 ∨ r = 8 ∨
            r = 9 := by omega
        omega
      · simp only [List.mem_cons, List.mem_singleton, List.not_mem_nil, or_false] at hs
        exact hs
    · exact Or.inr (Or.inl h)
    · exact Or.inr (Or.inr h)
  · intro t ht
    exact List.count_eq_zero.mpr (fun hin => ht (hvalid t hin))

theorem dealFour_eq (st : (Fin 4 → List Tile) × List Tile) (seat : Fin 4) :
    dealFour st seat = (Function.update st.1 seat (st.1 seat ++ st.2.take 4), st.2.drop 4) :=
  rfl

theorem dealRound_eq (hands : Fin 4 → List Tile) (w : List Tile) :
    dealRound (hands, w) =
      (fun seat => hands seat ++ (w.drop (4 * seat.val)).take 4, w.drop 16) := by
  unfold dealRound
  simp only [List.foldl_cons, List.foldl_nil, dealFour_eq, List.drop_drop]
  refine Prod.ext ?_ rfl
  funext seat
  fin_cases seat <;> simp [Function.update]

theorem distributeTiles_eq (wall : List Tile) (startIndex : Nat) :
    distributeTiles wall startIndex =
      (fun seat =>
        (((wall.drop startIndex ++ wall.take startIndex).drop (4 * seat.val)).take 4 ++
          ((wall.drop startIndex ++ wall.take startIndex).drop (16 + 4 * seat.val)).take 4 ++
          ((wall.drop startIndex ++ wall.take startIndex).drop (32 + 4 * seat.val)).take 4 ++
          ((wall.drop startIndex ++ wall.take startIndex).drop (48 + 4 * seat.val)).take 4),
       (wall.drop startIndex ++ wall.take startIndex).drop 64) := by
  unfold distributeTiles
  simp only [dealRound_eq, List.drop_drop, List.nil_append]

theorem getElem?_rotated (wall : List Tile) (startIndex i : Nat) (hs : startIndex < wall.length)
    (hi : i < wall.length) :
    (wall.drop startIndex ++ wall.take startIndex)[i]? =
      wall[(startIndex + i) % wall.length]? := by
  by_cases h : i < wall.length - startIndex
  · rw [List.getElem?_append_left (by rw [List.length_drop]; exact h), List.getElem?_drop,
      Nat.mod_eq_of_lt (by omega)]
  · rw [List.getElem?_append_right (by rw [List.length_drop]; omega), List.length_drop,
      List.getElem?_take_of_lt (by omega)]
    have hmod : (startIndex + i) % wall.length = i - (wall.length - startIndex) := by
      rw [Nat.mod_eq_sub_mod (by omega), Nat.mod_eq_of_lt (by omega)]
      omega
    rw [hmod]

theorem getElem?_block (rot : List Tile) (a k : Nat) (hk : k < 4) :
    ((rot.drop a).take 4)[k]? = rot[a + k]? := by
  rw [List.getElem?_take_of_lt hk, List.getElem?_drop]

theorem length_block (rot : List Tile) (a : Nat) (h : a + 4 ≤ rot.length) :
    ((rot.drop a).take 4).length = 4 := by
  rw [List.length_take, List.length_drop]
  omega

theorem dealFour_perm (st : (Fin 4 → List Tile) × List Tile) (seat : Fin 4) :
    ((dealFour st seat).1 0 ++ (dealFour st seat).1 1 ++ (dealFour st seat).1 2 ++
        (dealFour st seat).1 3 ++ (dealFour st seat).2).Perm
      (st.1 0 ++ st.1 1 ++ st.1 2 ++ st.1 3 ++ st.2) := by
  rw [List.perm_iff_count]
  intro a
  have hsplit : List.count a (st.2.take 4) + List.count a (st.2.drop 4) = List.count a st.2 := by
    rw [← List.count_append, List.take_append_drop]
  rw [dealFour_eq]
  fin_cases seat <;> simp [Function.update, List.count_append] <;> omega

theorem dealRound_perm (st : (Fin 4 → List Tile) × List Tile) :
    ((dealRound st).1 0 ++ (dealRound st).1 1 ++ (dealRound st).1 2 ++ (dealRound st).1 3 ++
        (dealRound st).2).Perm
      (st.1 0 ++ st.1 1 ++ st.1 2 ++ st.1 3 ++ st.2) := by
  unfold dealRound
  simp only [List.foldl_cons, List.foldl_nil]
  exact (dealFour_perm _ 3).trans ((dealFour_perm _ 2).trans
    ((dealFour_perm _ 1).trans (dealFour_perm _ 0)))

theorem distributeTiles_perm (wall : List Tile) (startIndex : Nat) :
    ((distributeTiles wall startIndex).1 0 ++ (distributeTiles wall startIndex).1 1 ++
        (distributeTiles wall startIndex).1 2 ++ (distributeTiles wall startIndex).1 3 ++
        (distributeTiles wall startIndex).2).Perm wall := by
  unfold distributeTiles
  refine (dealRound_perm _).trans ((dealRound_perm _).trans ((dealRound_perm _).trans
    ((dealRound_perm _).trans ?_)))
  simp only [List.append_nil, List.nil_append]
  exact List.perm_append_comm.trans (by rw [List.take_append_drop])

/-- C24. Dealing: for a wall of `n ≥ 64` tiles and a start index below `n`,
`distributeTiles` gives each seat 16 tiles, tile number `4r + k` of seat `s`
(`r`, `k` in 0..3) being `wall[(startIndex + 16r + 4s + k) mod n]`; the wall it
returns has the other `n - 64` tiles, `wall[(startIndex + 64 + i) mod n]` at
position `i`, so 80 tiles of a 144-tile wall; and the four hands with that wall
are a rearrangement of the input wall. -/
theorem distributeTiles_deal (wall : List Tile) (startIndex : Nat) (hn : 64 ≤ wall.length)
    (hs : startIndex < wall.length) :
    (∀ seat : Fin 4, ((distributeTiles wall startIndex).1 seat).length = 16) ∧
      (∀ (seat : Fin 4) (r k : Nat), r < 4 → k < 4 →
        ((distributeTiles wall startIndex).1 seat)[4 * r + k]? =
          wall[(startIndex + 16 * r + 4 * seat.val + k) % wall.length]?) ∧
      (distributeTiles wall startIndex).2.length = wall.length - 64 ∧
      (wall.length = 144 → (distributeTiles wall startIndex).2.length = 80) ∧
      (∀ i, i < wall.length - 64 →
        (distributeTiles wall startIndex).2[i]? =
          wall[(startIndex + 64 + i) % wall.length]?) ∧
      ((distributeTiles wall startIndex).1 0 ++ (distributeTiles wall startIndex).1 1 ++
        (distributeTiles wall startIndex).1 2 ++ (distributeTiles wall startIndex).1 3 ++
        (distributeTiles wall startIndex).2).Perm wall := by
  have hperm := distributeTiles_perm wall startIndex
  have hrot : (wall.drop startIndex ++ wall.take startIndex).length = wall.length := by
    rw [List.length_append, List.length_drop, List.length_take]
    omega
  rw [distributeTiles_eq] at hperm ⊢
  generalize hR : wall.drop startIndex ++ wall.take startIndex = rot at hperm hrot ⊢
  have hget : ∀ i, i < wall.length → rot[i]? = wall[(startIndex + i) % wall.length]? := by
    intro i hi
    rw [← hR]
    exact getElem?_rotated wall startIndex i hs hi
  have hseat : ∀ seat : Fin 4, seat.val < 4 := fun seat => seat.isLt
  have hlen2 : (rot.drop 64).length = wall.length - 64 := by
    rw [List.length_drop, hrot]
  refine ⟨?_, ?_, hlen2, ?_, ?_, hperm⟩
  · intro seat
    have := hseat seat
    simp only [List.length_append]
    rw [length_block rot _ (by omega), length_block rot _ (by omega),
      length_block rot _ (by omega), length_block rot _ (by omega)]
  · intro seat r k hr hk
    have := hseat seat
    have l0 := length_block rot (4 * seat.val) (by omega)
    have l1 := length_block rot (16 + 4 * seat.val) (by omega)
    have l2 := length_block rot (32 + 4 * seat.val) (by omega)
    have l3 := length_block rot (48 + 4 * seat.val) (by omega)
    have hidx : (startIndex + 16 * r + 4 * seat.val + k) % wall.length
        = (startIndex + (16 * r + 4 * seat.val + k)) % wall.length := by
      congr 1
      omega
    rw [hidx, ← hget _ (by omega)]
    simp only []
    have hr4 : r = 0 ∨ r = 1 ∨ r = 2 ∨ r = 3 := by omega
    rcases hr4 with h | h | h | h
    · subst h
      rw [List.append_assoc, List.append_assoc,
        List.getElem?_append_left (by rw [l0]; omega),
        show 4 * 0 + k = k by omega, getElem?_block rot _ _ hk]
      congr 1
      omega
    · subst h
      rw [List.append_assoc, List.append_assoc,
        List.getElem?_append_right (by rw [l0]; omega), l0,
        List.getElem?_append_left (by rw [l1]; omega),
        show 4 * 1 + k - 4 = k by omega, getElem?_block rot _ _ hk]
    · subst h
      rw [List.append_assoc, List.append_assoc,
        List.getElem?_append_right (by rw [l0]; omega), l0,
        List.getElem?_append_right (by rw [l1]; omega), l1,
        List.getElem?_append_left (by rw [l2]; omega),
        show 4 * 2 + k - 4 - 4 = k by omega, getElem?_block rot _ _ hk]
    · subst h
      rw [List.append_assoc, List.append_assoc,
        List.getElem?_append_right (by rw [l0]; omega), l0,
        List.getElem?_append_right (by rw [l1]; omega), l1,
        List.getElem?_append_right (by rw [l2]; omega), l2,
        show 4 * 3 + k - 4 - 4 - 4 = k by omega, getElem?_block rot _ _ hk]
  · intro h144
    show (rot.drop 64).length = 80
    rw [hlen2, h144]
  · intro i hi
    show (rot.drop 64)[i]? = _
    rw [List.getElem?_drop, hget _ (by omega)]
    congr 2
    omega

/-- Witness for C24: the wall of `buildWall` dealt from index 10. -/
theorem distributeTiles_deal_witness :
    (∀ seat : Fin 4, ((distributeTiles buildWall 10).1 seat).length = 16) ∧
      (∀ (seat : Fin 4) (r k : Nat), r < 4 → k < 4 →
        ((distributeTiles buildWall 10).1 seat)[4 * r + k]? =
          buildWall[(10 + 16 * r + 4 * seat.val + k) % buildWall.length]?) ∧
      (distributeTiles buildWall 10).2.length = buildWall.length - 64 ∧
      (buildWall.length = 144 → (distributeTiles buildWall 10).2.length = 80) ∧
      (∀ i, i < buildWall.length - 64 →
        (distributeTiles buildWall 10).2[i]? = buildWall[(10 + 64 + i) % buildWall.length]?) ∧
      ((distributeTiles buildWall 10).1 0 ++ (distributeTiles buildWall 10).1 1 ++
        (distributeTiles buildWall 10).1 2 ++ (distributeTiles buildWall 10).1 3 ++
        (distributeTiles buildWall 10).2).Perm buildWall :=
  distributeTiles_deal buildWall 10 (by decide) (by decide)

/-- C25: evaluation of the opening position.  `getOpenWallIndex` computes the
opening seat from the dealer seat and then does not use it: its result is the
same for every dealer seat, so for a dice sum of 5 on the full wall the dealers
at seat 0 and at seat 3, whose opening seats are 3 and 2, both get the start
index 8. -/
theorem getOpenWallIndex_ignores_dealer :
    (∀ (dealer1 dealer2 diceSum : Nat) (wall : List Tile),
        getOpenWallIndex dealer1 diceSum wall = getOpenWallIndex dealer2 diceSum wall) ∧
      getOpenWallIndex 0 5 buildWall = 8 ∧ getOpenWallIndex 3 5 buildWall = 8 ∧
      [0, 3, 2, 1].get? ((0 + 5) % 4) = some 3 ∧ [0, 3, 2, 1].get? ((1 + 5) % 4) = some 2 :=
  ⟨fun _ _ _ _ => rfl, by decide, by decide, by decide, by decide⟩

/-! ## Theorems: the draw at the end of the wall and the pending decision -/

/-- C22: evaluation of the draw of the last live tile.  On `lastLiveTable` the
wall holds 17 tiles, so one tile can be drawn, and its front tile `9B` is no
flower; `startTurn` takes `9B` into the hand of seat 0 and then ends the round
as exhausted, without the evaluation of the hand and without a discard.  With
one tile more in the wall the same draw leads on to the discard. -/
theorem last_live_tile_draw_ends_round :
    getDrawableTileCount lastLiveTable = 1 ∧ lastLiveTable.gameEnded = false ∧
      lastLiveTable.turnLocked = false ∧ lastLiveTable.wall.head? = some "9B" ∧
      isFlower "9B" = false ∧
      (startTurn lastLiveTable).2 = Next.done ∧
      (startTurn lastLiveTable).1.gameEnded = true ∧
      (startTurn lastLiveTable).1.hands 0 = lastLiveTable.hands 0 ++ ["9B"] ∧
      (startTurn lastLiveTable).1.wall = lastLiveTable.wall.tail ∧
      (startTurn { lastLiveTable with wall := lastLiveTable.wall ++ ["P"] }).2
        = Next.awaitHandClick ∧
      (startTurn { lastLiveTable with wall := lastLiveTable.wall ++ ["P"] }).1.gameEnded
        = false := by
  decide

/-- C21: evaluation of a win on the replacement tile of a kong.  The game
starts on `kongWall`, a shuffle of the wall, with dealer seat 0 and dice sum 3;
`startTurn` lets seat 0 draw `E` and asks for the decision on a concealed kong
of `5B`, with the context set and the turn locked; `handleKongFromUI` then
takes the replacement tile `E`, which completes the hand, and ends the round
with `turnLocked` false while `reactionContext` is still set. -/
theorem kong_win_leaves_context :
    kongWall.Perm buildWall ∧
      (initGame "solo" 0 kongWall 0 3).2 = Next.startTurn ∧
      (startTurn kongStart).2 = Next.awaitButtons ∧
      kongPrompt.reactionContext.isSome = true ∧ kongPrompt.turnLocked = true ∧
      (handleKongFromUI kongPrompt (some "暗槓")).map
        (fun p => (p.2, p.1.reactionContext.isSome, p.1.turnLocked, p.1.gameEnded))
        = some (Next.done, true, false, true) ∧
      (handleKongFromUI kongPrompt (some "暗槓")).map (fun p => (p.1.hands 0, p.1.melds 0))
        = some (["1W", "2W", "3W", "4W", "5W", "6W", "7W", "8W", "9W", "1T", "2T", "3T", "E",
            "E"], [Meld.arr ["5B", "5B", "5B", "5B"] true]) := by
  decide

/-! ## Theorems: the attributes of a win and the answer of an automated seat -/

/-- C26: evaluation of the suit-purity attribute.  The winning hand of the one
suit W, with no honor in it, gets the colour `混一色`, where the same hand in the
suit T or B gets `清一色`; and the winning hand of suit T with a triplet of the
west wind `W` gets no colour.  The last letter `W` of a tile of suit W is also
the code of the west wind, and `checkColor` looks at the last letter only. -/
theorem pure_wan_hand_is_mixed :
    (checkHu (pureHand 'W') [] (some "9W") true).canHu = true ∧
      (checkHu (pureHand 'W') [] (some "9W") true).fanInfo.map (fun f => f.color)
        = some (some "混一色") ∧
      (checkHu (pureHand 'T') [] (some "9T") true).fanInfo.map (fun f => f.color)
        = some (some "清一色") ∧
      (checkHu (pureHand 'B') [] (some "9B") true).fanInfo.map (fun f => f.color)
        = some (some "清一色") ∧
      (∀ t ∈ pureHand 'W', t ∉ honorCodes) ∧
      (checkHu westHand [] (some "9T") true).canHu = true ∧
      (checkHu westHand [] (some "9T") true).fanInfo.map (fun f => f.color) = some none := by
  decide

/-- C27: evaluation of the fully-concealed attribute.  The hand that wins
after the concealed kong of `5B`, with the meld stored as the table stores it
(a 4-tile array flagged `isAnGang`), gets `isMenQing = false`; with the same
kong given as an object of type `暗槓`, and with no meld at all, the flag is
true. -/
theorem concealed_kong_breaks_menQing :
    (checkHu ["1W", "2W", "3W", "4W", "5W", "6W", "7W", "8W", "9W", "1T", "2T", "3T", "E", "E"]
        [Meld.arr ["5B", "5B", "5B", "5B"] true] (some "E") true).fanInfo.map
        (fun f => f.isMenQing) = some false ∧
      (checkHu ["1W", "2W", "3W", "4W", "5W", "6W", "7W", "8W", "9W", "1T", "2T", "3T", "E", "E"]
        [Meld.obj "暗槓" ["5B", "5B", "5B", "5B"]] (some "E") true).fanInfo.map
        (fun f => f.isMenQing) = some true ∧
      (∀ (tiles : List Tile) (isAnGang : Bool) (rest : List Meld),
        checkMenQing (Meld.arr tiles isAnGang :: rest) = false) ∧
      checkMenQing [] = true := by
  refine ⟨by decide, by decide, ?_, by decide⟩
  intro tiles isAnGang rest
  simp [checkMenQing]

theorem checkKongSelf_not_exposed (hand : List Tile) (melds : List Meld) :
    (checkKongSelf hand melds).type ≠ some "明槓" := by
  rcases checkKongSelf_cases hand melds with ⟨i, a, _, h⟩ | ⟨_, t, _, h⟩ | ⟨_, _, h⟩
  · rw [h]
    exact (by decide : (some "加槓" : Option String) ≠ some "明槓")
  · rw [h]
    exact (by decide : (some "暗槓" : Option String) ≠ some "明槓")
  · rw [h]
    exact (by decide : (none : Option String) ≠ some "明槓")

/-- C28: evaluation of the answer of an automated seat.  `AI.onReaction` tests
the pong before the exposed kong and calls `checkChi` without the seat of the
discarder, so it answers `HU`, `PONG` or `PASS` only: with three copies of the
discard `5B`, where `checkKong` offers the exposed kong, it answers `PONG`; and
with `1W`, `2W` in hand on a discard of `3W` by the seat before it, where
`checkChi` allows the chi, it answers `PASS`. -/
theorem ai_never_answers_kong_or_chi :
    (∀ (seat : Nat) (hand : List Tile) (melds : List Meld) (tile : Tile),
        ∃ a, aiOnReaction seat hand melds tile = some a ∧
          (a.action = "HU" ∨ a.action = "PONG" ∨ a.action = "PASS")) ∧
      handThree5B.count "5B" = 3 ∧
      (checkKong handThree5B (some "5B") [] none (some 1) none).type = some "明槓" ∧
      aiOnReaction 1 handThree5B [] "5B" = some ⟨"PONG", none, none, none⟩ ∧
      (checkChi handChi3W (some "3W") 1 (some 0)).canChi = true ∧
      aiOnReaction 1 handChi3W [] "3W" = some ⟨"PASS", none, none, none⟩ := by
  refine ⟨?_, by decide, by decide, by decide, by decide, by decide⟩
  intro seat hand melds tile
  have hchi : checkChi hand (some tile) seat none = ⟨false, []⟩ := rfl
  unfold aiOnReaction
  simp only [hchi]
  by_cases hhu : (checkHu (hand ++ [tile]) melds (some tile) false).canHu = true
  · rw [if_pos hhu]
    exact ⟨_, rfl, Or.inl rfl⟩
  · rw [if_neg hhu]
    by_cases hp : (checkPong hand tile).canPong = true
    · rw [if_pos hp]
      exact ⟨_, rfl, Or.inr (Or.inl rfl)⟩
    · rw [if_neg hp]
      have hcount : ¬ countTileInHand hand tile ≥ 2 := by
        intro hc
        apply hp
        simp [checkPong, hc]
      have hk : ¬ ((checkKong hand (some tile) melds none (some seat) none).canKong = true ∧
          (checkKong hand (some tile) melds none (some seat) none).type = some "明槓") := by
        rintro ⟨_, ht⟩
        unfold checkKong at ht
        simp only [] at ht
        by_cases he : tile = ""
        · rw [if_pos he] at ht
          exact checkKongSelf_not_exposed hand melds ht
        · rw [if_neg he, if_neg (by simp)] at ht
          by_cases h3 : countTileInHand hand tile ≥ 3
          · exact hcount (by omega)
          · rw [if_neg h3] at ht
            exact checkKongSelf_not_exposed hand melds ht
      have hk2 : ((checkKong hand (some tile) melds none (some seat) none).canKong &&
          (checkKong hand (some tile) melds none (some seat) none).type == some "明槓")
            = false := by
        rw [Bool.eq_false_iff]
        intro h
        apply hk
        simpa using h
      rw [hk2]
      exact ⟨_, rfl, Or.inr (Or.inr rfl)⟩

end Mojang
